import Mathlib

/-!
# SSD1320 OLED driver: framebuffer, rasteriser and flush

A shallow embedding of `src/SSD1320_OLED.cpp` / `src/SSD1320_OLED.h`.

* `uint8_t` / `uint16_t` values are natural numbers; every place where the C
  code narrows an `int` expression to 8 bits is an explicit `u8` / `i8`.
* `int` is taken to be at least 32 bits wide, so the index arithmetic of
  `setPixel` (at most `255 * 8191 + 31`) is exact.
* `screenMemory` is the static 640-entry array of the source; an access
  outside the array has no defined result and is modelled by `none`.
* Everything the driver does on its pins and on the SPI peripheral is
  recorded, in order, in the `bus` field.
-/

/-! ## Constants of `SSD1320_OLED.h` -/

def BLACK : Nat := 0
def WHITE : Nat := 1

def FONTHEADERSIZE : Nat := 6

def NORM : Nat := 0
def XOR : Nat := 1

def CLEAR_ALL : Nat := 0
def CLEAR_DISPLAY : Nat := 1
def CLEAR_BUFFER : Nat := 2

def SETCOLUMN : Nat := 0x21
def SETROW : Nat := 0x22

def OLED_INTERFACE_SPI3 : Nat := 0
def OLED_INTERFACE_I2C : Nat := 1

/-- Conversion of an `int` value to `uint8_t`. -/
def u8 (i : Int) : Nat := (i % 256).toNat

/-- Conversion of an `int` value to `int8_t` (two's complement wrap). -/
def i8 (i : Int) : Int := (i + 128) % 256 - 128

/-- One observable action of the driver on its pins or on the SPI peripheral. -/
inductive Event where
  | digitalWrite (pin : Nat) (high : Bool)
  | beginTransaction
  | transfer (b : Nat)
  | endTransaction
  | spiEnd
  deriving DecidableEq, Repr

/-- The driver object together with the static `screenMemory` array and the
record of everything sent to the pins and the SPI peripheral. -/
structure SSD1320 where
  _cs : Nat
  _rst : Nat
  _sclk : Nat
  _sd : Nat
  _interface : Nat
  _displayWidth : Nat
  _displayHeight : Nat
  foreColor : Nat
  drawMode : Nat
  fontWidth : Nat
  fontHeight : Nat
  fontType : Nat
  fontStartChar : Nat
  fontTotalChar : Nat
  cursorX : Nat
  cursorY : Nat
  fontMapWidth : Nat
  screenMemory : List Nat
  bus : List Event
  deriving DecidableEq, Repr

namespace SSD1320

/-- Bit `j` of byte `i` of a buffer (absent bytes read as zero). -/
def bitAt (mem : List Nat) (i j : Nat) : Bool := (mem.getD i 0).testBit j

/-- `SSD1320::setPixel(x, y, color, mode)`. -/
def setPixel (s : SSD1320) (x y color mode : Nat) : Option SSD1320 :=
  if x ≥ s._displayWidth ∨ y ≥ s._displayHeight then some s
  else
    let byteNumber := y * (s._displayWidth / 8) + x / 8
    match s.screenMemory[byteNumber]? with
    | none => none
    | some b =>
      if mode = XOR then
        some { s with screenMemory :=
          s.screenMemory.set byteNumber ((b ^^^ (1 <<< (7 - x % 8))) % 256) }
      else if color = WHITE then
        some { s with screenMemory :=
          s.screenMemory.set byteNumber ((b ||| (1 <<< (7 - x % 8))) % 256) }
      else
        -- `b & ~m` stored back into a byte: only the low eight bits of `~m` matter
        some { s with screenMemory :=
          s.screenMemory.set byteNumber (b &&& (0xFF ^^^ (1 <<< (7 - x % 8)))) }

/-- A sequence of `setPixel` calls `(x, y, color)` made one after the other with
the same `mode`; `none` as soon as one of them leaves `screenMemory`. -/
def plot (s : SSD1320) : List (Nat × Nat × Nat) → Nat → Option SSD1320
  | [], _ => some s
  | (x, y, color) :: rest, mode =>
    match s.setPixel x y color mode with
    | none => none
    | some s1 => plot s1 rest mode

/-! ### Transport -/

/-- `SSD1320::command(cmd)`. -/
def command (s : SSD1320) (cmd : Nat) : SSD1320 :=
  if s._interface = OLED_INTERFACE_SPI3 then
    { s with bus := s.bus ++
        [ Event.digitalWrite s._cs false,
          Event.digitalWrite s._sd false,
          Event.digitalWrite s._sclk true,
          Event.digitalWrite s._sclk false,
          Event.beginTransaction,
          Event.transfer cmd,
          Event.endTransaction,
          Event.spiEnd,
          Event.digitalWrite s._cs true ] }
  else s

/-- `SSD1320::data(cmd)`. -/
def data (s : SSD1320) (cmd : Nat) : SSD1320 :=
  if s._interface = OLED_INTERFACE_SPI3 then
    { s with bus := s.bus ++
        [ Event.digitalWrite s._cs false,
          Event.digitalWrite s._sd true,
          Event.digitalWrite s._sclk true,
          Event.digitalWrite s._sclk false,
          Event.beginTransaction,
          Event.transfer cmd,
          Event.endTransaction,
          Event.spiEnd,
          Event.digitalWrite s._cs true ] }
  else s

/-- `SSD1320::setColumnAddress(address)`. -/
def setColumnAddress (s : SSD1320) (address : Nat) : SSD1320 :=
  ((s.command SETCOLUMN).command address).command (u8 ((s._displayWidth / 2 : Nat) - 1))

/-- `SSD1320::setRowAddress(address)`. -/
def setRowAddress (s : SSD1320) (address : Nat) : SSD1320 :=
  ((s.command SETROW).command address).command (u8 ((s._displayHeight : Int) - 1))

/-! ### Flush -/

/-- The body of the `bitNumber` loop of `display()`: the byte sent for the pair
of bits `bitNumber - 1`, `bitNumber - 2` of `originalByte`. -/
def newByte (originalByte bitNumber : Nat) : Nat :=
  let newByte := 0
  let newByte :=
    if originalByte &&& (1 <<< (bitNumber - 1)) ≠ 0 then newByte ||| 0x0F else newByte
  let newByte :=
    if originalByte &&& (1 <<< (bitNumber - 2)) ≠ 0 then newByte ||| 0xF0 else newByte
  newByte

/-- The `bitNumber` loop of `display()` (`bitNumber = 8, 6, 4, 2`) for one byte. -/
def displayByte (s : SSD1320) (originalByte : Nat) : SSD1320 :=
  [8, 6, 4, 2].foldl (fun s bitNumber => s.data (newByte originalByte bitNumber)) s

/-- The `columns` loop of `display()` for one value of `rows`. -/
def displayRow (s : SSD1320) (rows : Nat) : Option SSD1320 :=
  (List.range 20).foldlM
    (fun s columns =>
      match s.screenMemory[rows * 20 + columns]? with
      | none => none
      | some originalByte => some (s.displayByte originalByte)) s

/-- `SSD1320::display()`. -/
def display (s : SSD1320) : Option SSD1320 :=
  let s := s.setColumnAddress 0
  let s := s.setRowAddress 0
  (List.range 32).foldlM (fun s rows => s.displayRow rows) s

/-! ### Clearing -/

/-- `memset(screenMemory, 0, n)`. -/
def memset0 (s : SSD1320) (n : Nat) : Option SSD1320 :=
  if n ≤ s.screenMemory.length then
    some { s with screenMemory := List.replicate n 0 ++ s.screenMemory.drop n }
  else none

/-- `SSD1320::clearDisplay(mode)`. -/
def clearDisplay (s : SSD1320) (mode : Nat) : Option SSD1320 :=
  if mode = CLEAR_DISPLAY ∨ mode = CLEAR_ALL then
    let s := s.setColumnAddress 0
    let s := s.setRowAddress 0
    let s := (List.range s._displayHeight).foldl
      (fun s _ => (List.range (s._displayWidth / 2)).foldl (fun s _ => s.data 0x00) s) s
    if mode = CLEAR_ALL then s.memset0 (s._displayHeight * s._displayWidth / 8)
    else some s
  else
    s.memset0 (s._displayHeight * s._displayWidth / 8)

/-! ### Lines and rectangles -/

/-- The `for (; x0 < x1; x0++)` loop of `line`: the coordinates handed to
`setPixel`, in order. `none` when the loop has not finished within `fuel` tests
of its condition. -/
def lineLoop : Nat → Bool → Nat → Nat → Nat → Nat → Nat → Int → Int → Option (List (Nat × Nat))
  | 0, _, _, _, _, _, _, _, _ => none
  | fuel + 1, steep, x0, y0, x1, dx, dy, err, ystep =>
    if x0 < x1 then
      let p := if steep then (y0, x0) else (x0, y0)
      let err := i8 (err - dy)
      if err < 0 then
        (lineLoop fuel steep ((x0 + 1) % 256) (u8 (y0 + ystep)) x1 dx dy (i8 (err + dx)) ystep).map
          (fun r => p :: r)
      else
        (lineLoop fuel steep ((x0 + 1) % 256) y0 x1 dx dy err ystep).map (fun r => p :: r)
    else some []

/-- The coordinates `line(x0, y0, x1, y1, ..)` hands to `setPixel`, in order. -/
def linePoints (x0 y0 x1 y1 : Nat) : Option (List (Nat × Nat)) :=
  let steep : Bool := decide (Int.natAbs ((y1 : Int) - y0) > Int.natAbs ((x1 : Int) - x0))
  let a := if steep then (y0, x0, y1, x1) else (x0, y0, x1, y1)
  let b := if a.1 > a.2.2.1 then (a.2.2.1, a.2.2.2, a.1, a.2.1) else a
  let x0 := b.1
  let y0 := b.2.1
  let x1 := b.2.2.1
  let y1 := b.2.2.2
  let dx := u8 ((x1 : Int) - x0)
  let dy := u8 (Int.natAbs ((y1 : Int) - y0))
  let err := i8 ((dx / 2 : Nat))
  let ystep : Int := if y0 < y1 then 1 else -1
  lineLoop 256 steep x0 y0 x1 dx dy err ystep

/-- `SSD1320::line(x0, y0, x1, y1, color, mode)`. -/
def line (s : SSD1320) (x0 y0 x1 y1 color mode : Nat) : Option SSD1320 :=
  match linePoints x0 y0 x1 y1 with
  | none => none
  | some pts => s.plot (pts.map (fun p => (p.1, p.2, color))) mode

/-- `SSD1320::lineH(x, y, width, color, mode)`. -/
def lineH (s : SSD1320) (x y width color mode : Nat) : Option SSD1320 :=
  s.line x y (u8 ((x : Int) + width)) y color mode

/-- `SSD1320::lineV(x, y, height, color, mode)`. -/
def lineV (s : SSD1320) (x y height color mode : Nat) : Option SSD1320 :=
  s.line x y x (u8 ((y : Int) + height)) color mode

/-- `SSD1320::rect(x, y, width, height, color, mode)`. -/
def rect (s : SSD1320) (x y width height color mode : Nat) : Option SSD1320 :=
  match s.lineH x y width color mode with
  | none => none
  | some s1 =>
    match s1.lineH x (u8 ((y : Int) + height - 1)) width color mode with
    | none => none
    | some s2 =>
      let tempHeight := u8 ((height : Int) - 2)
      if tempHeight < 1 then some s2
      else
        match s2.lineV x (u8 ((y : Int) + 1)) tempHeight color mode with
        | none => none
        | some s3 => s3.lineV (u8 ((x : Int) + width - 1)) (u8 ((y : Int) + 1)) tempHeight color mode

/-! ### Filled circle -/

/-- A span loop of `circleFill`, `for (uint8_t i = ..; i <= bound; i++)`, whose
body calls `setPixel(c, i, ..)` for every column `c` of `cols`. `none` when the
loop has not finished within `fuel` tests of its condition. -/
def spanLoop : Nat → Nat → Int → List Nat → Option (List (Nat × Nat))
  | 0, _, _, _ => none
  | fuel + 1, i, bound, cols =>
    if (i : Int) ≤ bound then
      (spanLoop fuel ((i + 1) % 256) bound cols).map (fun r => cols.map (fun c => (c, i)) ++ r)
    else some []

/-- The `while (x < y)` loop of `circleFill`. -/
def circleFillLoop : Nat → Nat → Nat → Int → Int → Int → Int → Int → Option (List (Nat × Nat))
  | 0, _, _, _, _, _, _, _ => none
  | fuel + 1, x0, y0, f, ddF_x, ddF_y, x, y =>
    if x < y then
      let y1 := if f ≥ 0 then i8 (y - 1) else y
      let ddF_y1 := if f ≥ 0 then i8 (ddF_y + 2) else ddF_y
      let f1 := if f ≥ 0 then i8 (f + i8 (ddF_y + 2)) else f
      let x1 := i8 (x + 1)
      let ddF_x1 := i8 (ddF_x + 2)
      let f2 := i8 (f1 + ddF_x1)
      match spanLoop fuel (u8 (y0 - y1)) (y0 + y1) [u8 (x0 + x1), u8 (x0 - x1)] with
      | none => none
      | some a =>
        match spanLoop fuel (u8 (y0 - x1)) (y0 + x1) [u8 (x0 + y1), u8 (x0 - y1)] with
        | none => none
        | some b =>
          (circleFillLoop fuel x0 y0 f2 ddF_x1 ddF_y1 x1 y1).map (fun r => a ++ b ++ r)
    else some []

/-- The coordinates `circleFill(x0, y0, radius, ..)` hands to `setPixel` once it
is past its mode test, in order. -/
def circleFillPoints (fuel x0 y0 radius : Nat) : Option (List (Nat × Nat)) :=
  let f := i8 (1 - (radius : Int))
  let ddF_x : Int := 1
  let ddF_y := i8 (-2 * (radius : Int))
  let x : Int := 0
  let y := i8 radius
  match spanLoop fuel (u8 ((y0 : Int) - radius)) ((y0 : Int) + radius) [x0] with
  | none => none
  | some a => (circleFillLoop fuel x0 y0 f ddF_x ddF_y x y).map (fun r => a ++ r)

/-- `SSD1320::circleFill(x0, y0, radius, color, mode)`; `fuel` bounds the number
of condition tests of each loop. -/
def circleFill (fuel : Nat) (s : SSD1320) (x0 y0 radius color mode : Nat) : Option SSD1320 :=
  if mode = XOR then some s
  else
    match circleFillPoints fuel x0 y0 radius with
    | none => none
    | some pts => s.plot (pts.map (fun p => (p.1, p.2, color))) mode

/-! ### Text -/

/-- `SSD1320::flipByte(c)`. -/
def flipByte (c : Nat) : Nat :=
  let c := (((c >>> 1) &&& 0x55) ||| ((c <<< 1) &&& 0xAA)) % 256
  let c := (((c >>> 2) &&& 0x33) ||| ((c <<< 2) &&& 0xCC)) % 256
  let c := ((c >>> 4) ||| (c <<< 4)) % 256
  c

/-- The `j` loop of `drawChar`: the eight `setPixel` calls for one column byte
`temp`, at column `px` and rows `py + j`. -/
def glyphColumn (temp px : Nat) (py : Int) (color : Nat) : List (Nat × Nat × Nat) :=
  (List.range 8).map (fun j =>
    if (temp >>> j) &&& 0x01 ≠ 0 then (px, u8 (py + j), color)
    else (px, u8 (py + j), if color = 0 then 1 else 0))

/-- The `i` loop of the single-row branch of `drawChar`
(`for (i = 0; i < fontWidth + 1; i++)`, `i` an 8-bit counter). -/
def drawCharCols (font : Nat → Nat) (fontWidth tempC x y color : Nat) :
    Nat → Nat → Option (List (Nat × Nat × Nat))
  | 0, _ => none
  | fuel + 1, i =>
    if i < fontWidth + 1 then
      let temp :=
        if i = fontWidth then 0
        else font (FONTHEADERSIZE + tempC * fontWidth + i) % 256
      let temp := flipByte temp
      (drawCharCols font fontWidth tempC x y color fuel ((i + 1) % 256)).map
        (fun r => glyphColumn temp (u8 ((x : Int) + i)) y color ++ r)
    else some []

/-- `SSD1320::drawChar(x, y, c, color, mode)`. `fontsPointer t k` is byte `k` of
font table `t` (the tables of `util/*.h`); `fuel` bounds the number of condition
tests of the column loop of the single-row branch. A division by zero has no
defined result. -/
def drawChar (fontsPointer : Nat → Nat → Nat) (fuel : Nat) (s : SSD1320)
    (x y c color mode : Nat) : Option SSD1320 :=
  if c < s.fontStartChar ∨ (c : Int) > (s.fontStartChar : Int) + s.fontTotalChar - 1 then some s
  else
    let tempC := u8 ((c : Int) - s.fontStartChar)
    let rowsToDraw := s.fontHeight / 8
    let rowsToDraw := if rowsToDraw < 1 then 1 else rowsToDraw
    if rowsToDraw = 1 then
      match drawCharCols (fontsPointer s.fontType) s.fontWidth tempC x y color fuel 0 with
      | none => none
      | some calls => s.plot calls mode
    else if s.fontWidth = 0 then none
    else
      let charPerBitmapRow := (s.fontMapWidth / s.fontWidth) % 65536
      if charPerBitmapRow = 0 then none
      else
        let charColPositionOnBitmap := tempC % charPerBitmapRow
        let charRowPositionOnBitmap := tempC / charPerBitmapRow
        let charBitmapStartPosition :=
          (charRowPositionOnBitmap * s.fontMapWidth * (s.fontHeight / 8)
            + charColPositionOnBitmap * s.fontWidth) % 65536
        s.plot
          ((List.range rowsToDraw).flatMap (fun row =>
            (List.range s.fontWidth).flatMap (fun i =>
              let temp := fontsPointer s.fontType
                (FONTHEADERSIZE + (charBitmapStartPosition + i + row * s.fontMapWidth)) % 256
              let temp := flipByte temp
              glyphColumn temp (u8 ((x : Int) + i))
                ((y : Int) + (((rowsToDraw : Int) - 1 - row) * 8)) color)))
          mode

/-! ### Filled rectangle and circle outline -/

/-- `SSD1320::rectFill(x, y, width, height, color, mode)`: the loop
`for (int i = x; i < x + width; i++) lineV(i, y, height, color, mode);`, the
`int` counter being narrowed to 8 bits when it is passed to `lineV`. -/
def rectFill (s : SSD1320) (x y width height color mode : Nat) : Option SSD1320 :=
  (List.range width).foldlM
    (fun s (k : Nat) => s.lineV (u8 ((x : Int) + (k : Int))) y height color mode) s

/-- The eight `setPixel` coordinates of one pass of the `while` loop of `circle`. -/
def circleOctants (x0 y0 : Nat) (x y : Int) : List (Nat × Nat) :=
  [ (u8 (x0 + x), u8 (y0 + y)), (u8 (x0 - x), u8 (y0 + y)),
    (u8 (x0 + x), u8 (y0 - y)), (u8 (x0 - x), u8 (y0 - y)),
    (u8 (x0 + y), u8 (y0 + x)), (u8 (x0 - y), u8 (y0 + x)),
    (u8 (x0 + y), u8 (y0 - x)), (u8 (x0 - y), u8 (y0 - x)) ]

/-- The `while (x < y)` loop of `circle`. `none` when the loop has not finished
within `fuel` tests of its condition. -/
def circleLoop : Nat → Nat → Nat → Int → Int → Int → Int → Int → Option (List (Nat × Nat))
  | 0, _, _, _, _, _, _, _ => none
  | fuel + 1, x0, y0, f, ddF_x, ddF_y, x, y =>
    if x < y then
      let y1 := if f ≥ 0 then i8 (y - 1) else y
      let ddF_y1 := if f ≥ 0 then i8 (ddF_y + 2) else ddF_y
      let f1 := if f ≥ 0 then i8 (f + i8 (ddF_y + 2)) else f
      let x1 := i8 (x + 1)
      let ddF_x1 := i8 (ddF_x + 2)
      let f2 := i8 (f1 + ddF_x1)
      (circleLoop fuel x0 y0 f2 ddF_x1 ddF_y1 x1 y1).map
        (fun r => circleOctants x0 y0 x1 y1 ++ r)
    else some []

/-- The coordinates `circle(x0, y0, radius, ..)` hands to `setPixel`, in order. -/
def circlePoints (fuel x0 y0 radius : Nat) : Option (List (Nat × Nat)) :=
  let f := i8 (1 - (radius : Int))
  let ddF_x : Int := 1
  let ddF_y := i8 (-2 * (radius : Int))
  let x : Int := 0
  let y := i8 radius
  (circleLoop fuel x0 y0 f ddF_x ddF_y x y).map (fun r =>
    [ (x0, u8 ((y0 : Int) + radius)), (x0, u8 ((y0 : Int) - radius)),
      (u8 ((x0 : Int) + radius), y0), (u8 ((x0 : Int) - radius), y0) ] ++ r)

/-- `SSD1320::circle(x0, y0, radius, color, mode)`; `fuel` bounds the number of
condition tests of the loop. -/
def circle (fuel : Nat) (s : SSD1320) (x0 y0 radius color mode : Nat) : Option SSD1320 :=
  match circlePoints fuel x0 y0 radius with
  | none => none
  | some pts => s.plot (pts.map (fun p => (p.1, p.2, color))) mode

/-! ### Bitmap load, draw state, fonts and text stream -/

/-- `SSD1320::drawBitmap(bitArray)`: the loop
`for (int i = 0; i < (_displayWidth * _displayHeight / 8); i++)
screenMemory[i] = bitArray[i];`. A read outside `bitArray` or a write outside
`screenMemory` has no defined result. -/
def drawBitmap (s : SSD1320) (bitArray : List Nat) : Option SSD1320 :=
  (List.range (s._displayWidth * s._displayHeight / 8)).foldlM
    (fun s i =>
      match bitArray[i]? with
      | none => none
      | some b =>
        if i < s.screenMemory.length then
          some { s with screenMemory := (s.screenMemory.set i b) }
        else none) s

/-- `SSD1320::getScreenBuffer()`. -/
def getScreenBuffer (s : SSD1320) : List Nat := s.screenMemory

/-- `SSD1320::setCursor(x, y)`. -/
def setCursor (s : SSD1320) (x y : Nat) : SSD1320 := { s with cursorX := x, cursorY := y }

/-- `SSD1320::setColor(color)`. -/
def setColor (s : SSD1320) (color : Nat) : SSD1320 := { s with foreColor := color }

/-- `SSD1320::setDrawMode(mode)`. -/
def setDrawMode (s : SSD1320) (mode : Nat) : SSD1320 := { s with drawMode := mode }

/-- The number of font tables, `TOTALFONTS`. -/
def TOTALFONTS : Nat := 4

/-- `pgm_read_byte(fontsPointer[t] + k)`. -/
def pgm_read_byte (fontsPointer : Nat → Nat → Nat) (t k : Nat) : Nat := fontsPointer t k % 256

/-- `SSD1320::setFontType(type)`: the returned flag and the driver afterwards. -/
def setFontType (fontsPointer : Nat → Nat → Nat) (s : SSD1320) (type : Nat) : Bool × SSD1320 :=
  if type ≥ TOTALFONTS then (false, s)
  else
    (true,
      { s with
        fontType := type
        fontWidth := pgm_read_byte fontsPointer type 0
        fontHeight := pgm_read_byte fontsPointer type 1
        fontStartChar := pgm_read_byte fontsPointer type 2
        fontTotalChar := pgm_read_byte fontsPointer type 3
        fontMapWidth :=
          (pgm_read_byte fontsPointer type 4 * 100 + pgm_read_byte fontsPointer type 5) % 65536 })

/-- `SSD1320::write(c)`: the returned count and the driver afterwards. -/
def write (fontsPointer : Nat → Nat → Nat) (fuel : Nat) (s : SSD1320) (c : Nat) :
    Option (Nat × SSD1320) :=
  if c = 10 then
    some (1, { s with cursorY := u8 ((s.cursorY : Int) + s.fontHeight), cursorX := 0 })
  else if c = 13 then some (1, s)
  else
    match drawChar fontsPointer fuel s s.cursorX s.cursorY c s.foreColor s.drawMode with
    | none => none
    | some s1 =>
      let cursorX := u8 ((s1.cursorX : Int) + s1.fontWidth + 1)
      if (cursorX : Int) > (s1._displayWidth : Int) - s1.fontWidth then
        some (1, { s1 with cursorY := u8 ((s1.cursorY : Int) + s1.fontHeight), cursorX := 0 })
      else some (1, { s1 with cursorX := cursorX })

/-! ### Scrolling -/

def ACTIVATESCROLL : Nat := 0x2F
def DEACTIVATESCROLL : Nat := 0x2E
def SETVERTICALSCROLLAREA : Nat := 0xA3
def RIGHTHORIZONTALSCROLL : Nat := 0x26
def LEFTHORIZONTALSCROLL : Nat := 0x27
def VERTICALRIGHTHORIZONTALSCROLL : Nat := 0x29

/-- `SSD1320::scrollStop()`. -/
def scrollStop (s : SSD1320) : SSD1320 := s.command DEACTIVATESCROLL

/-- `SSD1320::scrollRight(start, stop)`. -/
def scrollRight (s : SSD1320) (start stop : Nat) : SSD1320 :=
  if stop < start then s
  else
    let s := s.scrollStop
    let s := s.command RIGHTHORIZONTALSCROLL
    let s := s.command 0x00
    let s := s.command start
    let s := s.command 0x07
    let s := s.command stop
    let s := s.command 0x00
    let s := s.command 0xFF
    s.command ACTIVATESCROLL

/-- `SSD1320::scrollLeft(start, stop)`. -/
def scrollLeft (s : SSD1320) (start stop : Nat) : SSD1320 :=
  if stop < start then s
  else
    let s := s.scrollStop
    let s := s.command LEFTHORIZONTALSCROLL
    let s := s.command 0x00
    let s := s.command 0x00
    let s := s.command start
    let s := s.command 32
    let s := s.command stop
    let s := s.command 0x00
    let s := s.command 0xFF
    s.command ACTIVATESCROLL

/-- `SSD1320::scrollUp(start, stop)`. -/
def scrollUp (s : SSD1320) (start stop : Nat) : SSD1320 :=
  if stop < start then s
  else
    let s := s.scrollStop
    let s := s.command SETVERTICALSCROLLAREA
    let s := s.command 0x00
    let s := s.command 64
    let s := s.command VERTICALRIGHTHORIZONTALSCROLL
    let s := s.command 0x00
    let s := s.command start
    let s := s.command 0
    let s := s.command stop
    let s := s.command 0x01
    s.command ACTIVATESCROLL

/-- A sequence of `command` (`false`) and `data` (`true`) calls, in order. -/
def sendAll (s : SSD1320) (calls : List (Bool × Nat)) : SSD1320 :=
  calls.foldl (fun s c => if c.1 then s.data c.2 else s.command c.2) s

/-- A scan of a bus record for manual clock pulses while the SPI peripheral is
started: `started` says whether a `beginTransaction` has been seen with no
`SPI.end()` after it. The result is `none` if a write to the clock pin `sclk`
is found while the peripheral is started, and otherwise the final value of
`started`. -/
def spiScan (sclk : Nat) : Bool → List Event → Option Bool
  | started, [] => some started
  | started, Event.digitalWrite pin _ :: es =>
    if started = true ∧ pin = sclk then none else spiScan sclk started es
  | _, Event.beginTransaction :: es => spiScan sclk true es
  | started, Event.transfer _ :: es => spiScan sclk started es
  | started, Event.endTransaction :: es => spiScan sclk started es
  | _, Event.spiEnd :: es => spiScan sclk false es

/-! ### Auxiliary definitions used in the statements -/

/-- The `setPixel` calls `drawChar(x, y, c, color, ..)` makes, in order, once the
character code has passed the range test; `none` when the column loop does not
finish within `fuel` tests or a division by zero is met. -/
def drawCharCalls (fontsPointer : Nat → Nat → Nat) (fuel : Nat) (s : SSD1320)
    (x y c color : Nat) : Option (List (Nat × Nat × Nat)) :=
  let tempC := u8 ((c : Int) - s.fontStartChar)
  let rowsToDraw := if s.fontHeight / 8 < 1 then 1 else s.fontHeight / 8
  if rowsToDraw = 1 then
    drawCharCols (fontsPointer s.fontType) s.fontWidth tempC x y color fuel 0
  else if s.fontWidth = 0 then none
  else if (s.fontMapWidth / s.fontWidth) % 65536 = 0 then none
  else
    some ((List.range rowsToDraw).flatMap (fun row =>
      (List.range s.fontWidth).flatMap (fun i =>
        glyphColumn
          (flipByte (fontsPointer s.fontType
            (FONTHEADERSIZE
              + ((tempC / ((s.fontMapWidth / s.fontWidth) % 65536) * s.fontMapWidth
                    * (s.fontHeight / 8)
                  + tempC % ((s.fontMapWidth / s.fontWidth) % 65536) * s.fontWidth) % 65536
                + i + row * s.fontMapWidth)) % 256))
          (u8 ((x : Int) + i)) ((y : Int) + (((rowsToDraw : Int) - 1 - row) * 8)) color)))

/-- The loop of `line` for endpoints already transposed and ordered: it runs
from `(a, b)` towards `(c, d)` along the first coordinate. -/
def lineRun (steep : Bool) (a b c d : Nat) : Option (List (Nat × Nat)) :=
  lineLoop 256 steep a b c (u8 ((c : Int) - a)) (u8 (Int.natAbs ((d : Int) - b)))
    (i8 ((u8 ((c : Int) - a) / 2 : Nat))) (if b < d then 1 else -1)

/-- The loop of the integer Bresenham recurrence as the specification words it,
over unbounded integers: `n` steps from `(x, y)`; per step: plot (back-transposed
if the axes were swapped), subtract `dy` from `error`, and when `error < 0`
advance `y` by `ystep` and add `dx` to `error`. -/
def bresenhamLoop : Nat → Bool → Int → Int → Int → Int → Int → Int → List (Int × Int)
  | 0, _, _, _, _, _, _, _ => []
  | n + 1, steep, x, y, dx, dy, error, ystep =>
    let p := if steep then (y, x) else (x, y)
    let error := error - dy
    if error < 0 then p :: bresenhamLoop n steep (x + 1) (y + ystep) dx dy (error + dx) ystep
    else p :: bresenhamLoop n steep (x + 1) y dx dy error ystep

/-- The line of the specification: transpose if `|dy| > |dx|`, swap the endpoints
if `x0 > x1`, `error = dx / 2`, `ystep = +1` if `y0 < y1` else `-1`, then the
recurrence for `x0` up to (not including) `x1`. -/
def bresenham (x0 y0 x1 y1 : Int) : List (Int × Int) :=
  let steep : Bool := decide (Int.natAbs (y1 - y0) > Int.natAbs (x1 - x0))
  let a := if steep then (y0, x0, y1, x1) else (x0, y0, x1, y1)
  let b := if a.1 > a.2.2.1 then (a.2.2.1, a.2.2.2, a.1, a.2.1) else a
  let dx := b.2.2.1 - b.1
  let dy : Int := Int.natAbs (b.2.2.2 - b.2.1)
  bresenhamLoop dx.toNat steep b.1 b.2.1 dx dy (dx / 2) (if b.2.1 < b.2.2.2 then 1 else -1)

/-- The state of pixel `(x, y)`: the bit `setPixel` addresses for it. -/
def getPixel (s : SSD1320) (x y : Nat) : Bool :=
  bitAt s.screenMemory (y * (s._displayWidth / 8) + x / 8) (7 - x % 8)

/-- The display fits the buffer: the width is a multiple of 8 and
`width * height / 8` bytes are available in `screenMemory`. -/
def Fits (s : SSD1320) : Prop :=
  s._displayWidth % 8 = 0 ∧ s._displayWidth * s._displayHeight / 8 ≤ s.screenMemory.length

/-- The state of the pixel `(x, y)` after one `setPixel` call `call = (cx, cy, color)`
in mode `mode`, `v` being its state before: the call matters only if it is at
`(x, y)`. -/
def pixelAfter (mode x y : Nat) (v : Bool) (call : Nat × Nat × Nat) : Bool :=
  if call.1 = x ∧ call.2.1 = y then (if mode = XOR then !v else decide (call.2.2 = WHITE))
  else v

/-- The points of the rectangle `[x, x + w) × [y, y + h)`, column by column. -/
def grid (x y w h : Nat) : List (Nat × Nat) :=
  (List.range w).flatMap (fun k => (List.range h).map (fun i => (x + k, y + i)))

/-- The points of the outline of `[x, x+w) × [y, y+h)` in the order `rect` plots
them: top row, bottom row, then the left and the right side between them. -/
def rectPoints (x y w h : Nat) : List (Nat × Nat) :=
  (List.range w).map (fun i => (x + i, y)) ++
    ((List.range w).map (fun i => (x + i, y + h - 1)) ++
      ((List.range (h - 2)).map (fun i => (x, y + 1 + i)) ++
        (List.range (h - 2)).map (fun i => (x + w - 1, y + 1 + i))))

/-- The successive values `(x, y)` of the loop of `circle` at its `setPixel`
calls (the loop does not depend on the centre). -/
def circleXY : Nat → Int → Int → Int → Int → Int → Option (List (Int × Int))
  | 0, _, _, _, _, _ => none
  | fuel + 1, f, ddF_x, ddF_y, x, y =>
    if x < y then
      let y1 := if f ≥ 0 then i8 (y - 1) else y
      let ddF_y1 := if f ≥ 0 then i8 (ddF_y + 2) else ddF_y
      let f1 := if f ≥ 0 then i8 (f + i8 (ddF_y + 2)) else f
      let x1 := i8 (x + 1)
      let ddF_x1 := i8 (ddF_x + 2)
      let f2 := i8 (f1 + ddF_x1)
      (circleXY fuel f2 ddF_x1 ddF_y1 x1 y1).map (fun r => (x1, y1) :: r)
    else some []

/-- The values assigned to the 8-bit signed variables in the loop of `circle`,
each before it is narrowed to 8 bits. -/
def circleWide : Nat → Int → Int → Int → Int → Int → Option (List Int)
  | 0, _, _, _, _, _ => none
  | fuel + 1, f, ddF_x, ddF_y, x, y =>
    if x < y then
      let y1 := if f ≥ 0 then i8 (y - 1) else y
      let ddF_y1 := if f ≥ 0 then i8 (ddF_y + 2) else ddF_y
      let f1 := if f ≥ 0 then i8 (f + i8 (ddF_y + 2)) else f
      let x1 := i8 (x + 1)
      let ddF_x1 := i8 (ddF_x + 2)
      let f2 := i8 (f1 + ddF_x1)
      (circleWide fuel f2 ddF_x1 ddF_y1 x1 y1).map (fun r =>
        (if f ≥ 0 then [y - 1, ddF_y + 2, f + i8 (ddF_y + 2)] else [])
          ++ [x + 1, ddF_x + 2, f1 + ddF_x1] ++ r)
    else some []

/-- The offsets from the centre of the eight `setPixel` calls of one pass. -/
def octantOffsets (p : Int × Int) : List (Int × Int) :=
  [ (p.1, p.2), (-p.1, p.2), (p.1, -p.2), (-p.1, -p.2),
    (p.2, p.1), (-p.2, p.1), (p.2, -p.1), (-p.2, -p.1) ]

/-- The offsets from the centre of the `setPixel` calls of `circle` with the given
radius, in order. -/
def circleOffsets (fuel radius : Nat) : Option (List (Int × Int)) :=
  (circleXY fuel (i8 (1 - (radius : Int))) 1 (i8 (-2 * (radius : Int))) 0 (i8 radius)).map
    (fun r => [ (0, (radius : Int)), (0, -(radius : Int)), ((radius : Int), 0),
      (-(radius : Int), 0) ] ++ r.flatMap octantOffsets)

/-- Byte `i` of the glyph of character `c` in a single-row font table `font`:
the table byte at `FONTHEADERSIZE + (c - fontStartChar) * fontWidth + i`. -/
def glyphByte (font : Nat → Nat) (s : SSD1320) (c i : Nat) : Nat :=
  font (FONTHEADERSIZE + (c - s.fontStartChar) * s.fontWidth + i) % 256

/-- The colour `drawChar` hands to `setPixel` for column `i`, row `j` of the cell
of a single-row character: `color` where the glyph bit `7 - j` of column
`i < fontWidth` is set, `!color` elsewhere (spacer column included). -/
def cellColor (font : Nat → Nat) (s : SSD1320) (c color i j : Nat) : Nat :=
  if i < s.fontWidth ∧ (glyphByte font s c i).testBit (7 - j) then color
  else (if color = 0 then 1 else 0)

/-- The `setPixel` calls of the `(fontWidth + 1) × 8` cell at `(x, y)`, column by
column. -/
def cellCalls (font : Nat → Nat) (s : SSD1320) (x y c color : Nat) : List (Nat × Nat × Nat) :=
  (grid x y (s.fontWidth + 1) 8).map
    (fun p => (p.1, p.2, cellColor font s c color (p.1 - x) (p.2 - y)))

/-- The `setPixel` calls of a multi-row character as the specification words
them, with the coordinates taken modulo 256: for byte-row `r` and column `i` the
font byte at `6 + startOffset + r * mapWidth + i`, its bit `7 - j` going to
`(x + i, y + (rowsToDraw - 1 - r) * 8 + j)`. -/
def multiRowCalls (font : Nat → Nat) (s : SSD1320) (x y c color : Nat) :
    List (Nat × Nat × Nat) :=
  let charIndex := c - s.fontStartChar
  let rowsToDraw := s.fontHeight / 8
  let charsPerRow := s.fontMapWidth / s.fontWidth
  let startOffset :=
    (charIndex / charsPerRow) * s.fontMapWidth * rowsToDraw + (charIndex % charsPerRow) * s.fontWidth
  (List.range rowsToDraw).flatMap (fun r =>
    (List.range s.fontWidth).flatMap (fun i =>
      (List.range 8).map (fun j =>
        ((x + i) % 256, (y + (rowsToDraw - 1 - r) * 8 + j) % 256,
          if (font (6 + startOffset + r * s.fontMapWidth + i) % 256).testBit (7 - j) then color
          else (if color = 0 then 1 else 0)))))

/-- The buffer after `setPixel(x, y, _, XOR)` on a `w × h` display whose buffer
holds every in-bounds pixel: bit `7 - x % 8` of byte `y * (w / 8) + x / 8`
inverted for an in-bounds `(x, y)`, nothing otherwise. -/
def tog (w h : Nat) (mem : List Nat) (c : Nat × Nat × Nat) : List Nat :=
  if c.1 ≥ w ∨ c.2.1 ≥ h then mem
  else
    mem.set (c.2.1 * (w / 8) + c.1 / 8)
      ((mem.getD (c.2.1 * (w / 8) + c.1 / 8) 0 ^^^ (1 <<< (7 - c.1 % 8))) % 256)

/-- The driver `s1` differs from `s` at most in the contents of `screenMemory`. -/
def OnlyMemory (s s1 : SSD1320) : Prop := s1 = { s with screenMemory := s1.screenMemory }


/-- The value `setPixel` stores into the addressed byte `b`. -/
def pixelByte (b x color mode : Nat) : Nat :=
  if mode = XOR then (b ^^^ (1 <<< (7 - x % 8))) % 256
  else if color = WHITE then (b ||| (1 <<< (7 - x % 8))) % 256
  else b &&& (0xFF ^^^ (1 <<< (7 - x % 8)))

/-- Every entry of the buffer is a byte. -/
def Bytes (mem : List Nat) : Prop := ∀ b ∈ mem, b < 256

/-- A driver on the 3-wire SPI interface with the default pins, display size
`w × h`, all 640 bytes of `screenMemory` zero, colour `WHITE`, mode `NORM`,
cursor at the origin, an empty bus record, and the header of a single-row font
of width 5 that covers the character codes 32 .. 127. -/
def zeroed (w h : Nat) : SSD1320 :=
  { _cs := 10, _rst := 8, _sclk := 13, _sd := 11, _interface := OLED_INTERFACE_SPI3,
    _displayWidth := w, _displayHeight := h, foreColor := WHITE, drawMode := NORM,
    fontWidth := 5, fontHeight := 7, fontType := 0, fontStartChar := 32, fontTotalChar := 96,
    cursorX := 0, cursorY := 0, fontMapWidth := 0,
    screenMemory := List.replicate 640 0, bus := [] }

/-- The nine bus events of one byte sent with the data/command bit `dc`
(`true`: data). -/
def frame (s : SSD1320) (dc : Bool) (b : Nat) : List Event :=
  [ Event.digitalWrite s._cs false,
    Event.digitalWrite s._sd dc,
    Event.digitalWrite s._sclk true,
    Event.digitalWrite s._sclk false,
    Event.beginTransaction,
    Event.transfer b,
    Event.endTransaction,
    Event.spiEnd,
    Event.digitalWrite s._cs true ]

/-- The driver `s` after the events `es` have been added to its bus record. -/
def addBus (s : SSD1320) (es : List Event) : SSD1320 := { s with bus := s.bus ++ es }

/-- The four bytes `display()` sends for one buffer byte, in the order sent. -/
def expansion (originalByte : Nat) : List Nat := [8, 6, 4, 2].map (newByte originalByte)

/-- The six command bytes of `setColumnAddress(0); setRowAddress(0);`. -/
def addressing (s : SSD1320) : List Nat :=
  [SETCOLUMN, 0, u8 ((s._displayWidth / 2 : Nat) - 1), SETROW, 0, u8 ((s._displayHeight : Int) - 1)]

end SSD1320

/-! ## Properties -/

set_option maxRecDepth 100000

namespace SSD1320

/-! ### Bit-level facts -/

theorem testBit_or_mask (b k j : Nat) (hj : j < 8) :
    ((b ||| (1 <<< k)) % 256).testBit j = (b.testBit j || decide (k = j)) := by
  have h256 : (256 : Nat) = 2 ^ 8 := by norm_num
  rw [h256, Nat.testBit_mod_two_pow, Nat.testBit_lor, Nat.one_shiftLeft, Nat.testBit_two_pow]
  simp [hj]

theorem testBit_xor_mask (b k j : Nat) (hj : j < 8) :
    ((b ^^^ (1 <<< k)) % 256).testBit j = (xor (b.testBit j) (decide (k = j))) := by
  have h256 : (256 : Nat) = 2 ^ 8 := by norm_num
  rw [h256, Nat.testBit_mod_two_pow, Nat.testBit_xor, Nat.one_shiftLeft, Nat.testBit_two_pow]
  simp [hj]

theorem testBit_and_not_mask (b k j : Nat) (hj : j < 8) :
    (b &&& (0xFF ^^^ (1 <<< k))).testBit j = (b.testBit j && !decide (k = j)) := by
  have h255 : (0xFF : Nat) = 2 ^ 8 - 1 := by norm_num
  rw [Nat.testBit_and, Nat.testBit_xor, h255, Nat.testBit_two_pow_sub_one, Nat.one_shiftLeft,
    Nat.testBit_two_pow]
  simp [hj]

theorem xor_mask_twice (b k : Nat) (hb : b < 256) :
    ((((b ^^^ (1 <<< k)) % 256) ^^^ (1 <<< k)) % 256) = b := by
  apply Nat.eq_of_testBit_eq
  intro j
  by_cases hj : j < 8
  · rw [testBit_xor_mask _ _ _ hj, testBit_xor_mask _ _ _ hj]
    cases b.testBit j <;> cases decide (k = j) <;> rfl
  · have h256 : (256 : Nat) = 2 ^ 8 := by norm_num
    have hbj : b.testBit j = false := by
      apply Nat.testBit_eq_false_of_lt
      calc b < 2 ^ 8 := by omega
        _ ≤ 2 ^ j := Nat.pow_le_pow_right (by norm_num) (by omega)
    rw [h256, Nat.testBit_mod_two_pow, hbj]
    simp [hj]

/-! ### `setPixel` -/

theorem getD_set (l : List Nat) (i j v : Nat) :
    (l.set i v).getD j 0 = if i = j ∧ i < l.length then v else l.getD j 0 := by
  simp only [List.getD_eq_getElem?_getD, List.getElem?_set]
  by_cases hij : i = j
  · subst hij
    by_cases hl : i < l.length
    · simp [hl]
    · have hn : l[i]? = none := List.getElem?_eq_none (by omega)
      simp [hl, hn]
  · simp [hij]

theorem setPixel_inside (s : SSD1320) (x y color mode : Nat)
    (hx : x < s._displayWidth) (hy : y < s._displayHeight)
    (hi : y * (s._displayWidth / 8) + x / 8 < s.screenMemory.length) :
    s.setPixel x y color mode = some { s with screenMemory :=
      (s.screenMemory.set (y * (s._displayWidth / 8) + x / 8)
        (pixelByte (s.screenMemory.getD (y * (s._displayWidth / 8) + x / 8) 0) x color mode)) } := by
  unfold setPixel pixelByte
  have hg : s.screenMemory[y * (s._displayWidth / 8) + x / 8]? =
      some (s.screenMemory.getD (y * (s._displayWidth / 8) + x / 8) 0) := by
    rw [List.getD_eq_getElem?_getD, List.getElem?_eq_getElem hi]; rfl
  simp only [ge_iff_le, Nat.not_le.mpr hx, Nat.not_le.mpr hy, or_self, if_false, hg]
  split_ifs <;> rfl

theorem setPixel_outside (s : SSD1320) (x y color mode : Nat)
    (h : s._displayWidth ≤ x ∨ s._displayHeight ≤ y) :
    s.setPixel x y color mode = some s := by
  unfold setPixel
  simp [h]

/-- For a width that is a multiple of 8, the byte addressed by an in-bounds
pixel lies among the first `width * height / 8` bytes. -/
theorem byteNumber_lt (w h x y : Nat) (hw : w % 8 = 0) (hx : x < w) (hy : y < h) :
    y * (w / 8) + x / 8 < w * h / 8 := by
  obtain ⟨q, rfl⟩ : ∃ q, w = 8 * q := ⟨w / 8, by omega⟩
  have h1 : 8 * q / 8 = q := by omega
  have h2 : 8 * q * h / 8 = q * h := by
    rw [Nat.mul_assoc]; exact Nat.mul_div_cancel_left _ (by norm_num)
  rw [h1, h2]
  have h3 : x / 8 < q := by omega
  have h4 : (y + 1) * q ≤ h * q := Nat.mul_le_mul_right q hy
  nlinarith

theorem bitAt_set (mem : List Nat) (i v i1 j : Nat) (hi : i < mem.length) :
    bitAt (mem.set i v) i1 j = if i1 = i then v.testBit j else bitAt mem i1 j := by
  unfold bitAt
  rw [getD_set]
  by_cases h : i = i1
  · subst h; simp [hi]
  · have h1 : ¬ i1 = i := fun e => h e.symm
    simp [h, h1]

theorem set_getElem_same (l : List Nat) (i : Nat) (h : i < l.length) : l.set i l[i] = l := by
  apply List.ext_getElem?
  intro j
  rw [List.getElem?_set]
  by_cases hij : i = j
  · subst hij; simp [h]
  · simp [hij]

theorem getElem?_set_other (mem : List Nat) (i v i1 : Nat) (h : i1 ≠ i) :
    (mem.set i v)[i1]? = mem[i1]? := by
  have hne : ¬ i = i1 := fun e => h e.symm
  rw [List.getElem?_set]
  simp [hne]

/-- C1 (amended): for a width that is a multiple of 8 and a height with
`width * height / 8` at most the 640 bytes of `screenMemory`, every in-bounds
`(x, y)` and every colour in `{BLACK, WHITE}`: `setPixel(x, y, color, NORM)`
returns, bit `7 - x % 8` of byte `y * (width / 8) + x / 8` is then set exactly
when the colour is `WHITE`, every other bit of the buffer is unchanged, and
nothing else in the driver changes. -/
theorem setPixel_norm_spec (s : SSD1320) (x y color : Nat)
    (hw : s._displayWidth % 8 = 0) (hlen : s.screenMemory.length = 640)
    (hbuf : s._displayWidth * s._displayHeight / 8 ≤ 640)
    (hx : x < s._displayWidth) (hy : y < s._displayHeight)
    (hc : color = BLACK ∨ color = WHITE) :
    ∃ s1, s.setPixel x y color NORM = some s1 ∧
      s1 = { s with screenMemory := s1.screenMemory } ∧
      s1.screenMemory.length = 640 ∧
      bitAt s1.screenMemory (y * (s._displayWidth / 8) + x / 8) (7 - x % 8)
        = decide (color = WHITE) ∧
      (∀ i j, j < 8 → ¬ (i = y * (s._displayWidth / 8) + x / 8 ∧ j = 7 - x % 8) →
        bitAt s1.screenMemory i j = bitAt s.screenMemory i j) ∧
      (∀ i, i ≠ y * (s._displayWidth / 8) + x / 8 → s1.screenMemory[i]? = s.screenMemory[i]?) := by
  have hi : y * (s._displayWidth / 8) + x / 8 < s.screenMemory.length := by
    have := byteNumber_lt _ _ _ _ hw hx hy
    omega
  have hk : 7 - x % 8 < 8 := by omega
  refine ⟨_, setPixel_inside s x y color NORM hx hy hi, rfl, ?_, ?_, ?_, ?_⟩
  · simp [hlen]
  · simp only [bitAt_set _ _ _ _ _ hi, if_true]
    rcases hc with hc | hc
    · subst hc
      simp [pixelByte, NORM, XOR, BLACK, WHITE, testBit_and_not_mask _ _ _ hk]
    · subst hc
      simp [pixelByte, NORM, XOR, WHITE, testBit_or_mask _ _ _ hk]
  · intro i j hj hne
    simp only [bitAt_set _ _ _ _ _ hi]
    by_cases hii : i = y * (s._displayWidth / 8) + x / 8
    · have hjk : ¬ (7 - x % 8 = j) := fun e => hne ⟨hii, e.symm⟩
      subst hii
      simp only [if_true]
      rcases hc with hc | hc
      · subst hc
        simp [pixelByte, NORM, XOR, BLACK, WHITE, testBit_and_not_mask _ _ _ hj, hjk, bitAt]
      · subst hc
        simp [pixelByte, NORM, XOR, WHITE, testBit_or_mask _ _ _ hj, hjk, bitAt]
    · simp [hii]
  · intro i hne
    exact getElem?_set_other _ _ _ _ hne

/-- C1, witness: pixel `(5, 3)` of a zeroed 160 × 32 display, colour `WHITE`. -/
theorem setPixel_norm_spec_witness :
    ∃ s1, (zeroed 160 32).setPixel 5 3 WHITE NORM = some s1 ∧
      s1 = { zeroed 160 32 with screenMemory := s1.screenMemory } ∧
      s1.screenMemory.length = 640 ∧
      bitAt s1.screenMemory (3 * ((zeroed 160 32)._displayWidth / 8) + 5 / 8) (7 - 5 % 8)
        = decide (WHITE = WHITE) ∧
      (∀ i j, j < 8 → ¬ (i = 3 * ((zeroed 160 32)._displayWidth / 8) + 5 / 8 ∧ j = 7 - 5 % 8) →
        bitAt s1.screenMemory i j = bitAt (zeroed 160 32).screenMemory i j) ∧
      (∀ i, i ≠ 3 * ((zeroed 160 32)._displayWidth / 8) + 5 / 8 →
        s1.screenMemory[i]? = (zeroed 160 32).screenMemory[i]?) :=
  setPixel_norm_spec (zeroed 160 32) 5 3 WHITE (by decide) (List.length_replicate 640 0) (by decide)
    (by decide) (by decide) (Or.inr rfl)

/-- C1 as stated fails: with width 256 (a multiple of 8) and height 64 the
in-bounds pixel `(0, 20)` addresses byte `640`, outside the 640 bytes of
`screenMemory`, and `setPixel` has no defined result. -/
theorem setPixel_norm_outside_buffer :
    (zeroed 256 64)._displayWidth % 8 = 0 ∧ 0 < (zeroed 256 64)._displayWidth ∧
      20 < (zeroed 256 64)._displayHeight ∧
      20 * ((zeroed 256 64)._displayWidth / 8) + 0 / 8 = 640 ∧
      (zeroed 256 64).setPixel 0 20 WHITE NORM = none := by
  refine ⟨by decide, by decide, by decide, by decide, ?_⟩
  have h : (zeroed 256 64).screenMemory[640]? = none :=
    List.getElem?_eq_none (le_of_eq_of_le (List.length_replicate 640 0) (by norm_num))
  unfold setPixel
  rw [if_neg (by decide)]
  simp only [show 20 * ((zeroed 256 64)._displayWidth / 8) + 0 / 8 = 640 from by decide, h]

/-- C2 (amended): for every in-bounds `(x, y)` whose byte
`y * (width / 8) + x / 8` lies inside the 640 bytes of `screenMemory`, every
buffer of bytes and all colour arguments `c1`, `c2`: `setPixel(x, y, c1, XOR)`
returns, inverts bit `7 - x % 8` of that byte and leaves every other bit and
everything else in the driver unchanged; the result does not depend on the
colour; and a second `setPixel(x, y, c2, XOR)` gives back the initial state. -/
theorem setPixel_xor_spec (s : SSD1320) (x y c1 c2 : Nat)
    (hlen : s.screenMemory.length = 640) (hb : Bytes s.screenMemory)
    (hx : x < s._displayWidth) (hy : y < s._displayHeight)
    (hi : y * (s._displayWidth / 8) + x / 8 < 640) :
    ∃ s1, s.setPixel x y c1 XOR = some s1 ∧
      s1 = { s with screenMemory := s1.screenMemory } ∧
      bitAt s1.screenMemory (y * (s._displayWidth / 8) + x / 8) (7 - x % 8)
        = !bitAt s.screenMemory (y * (s._displayWidth / 8) + x / 8) (7 - x % 8) ∧
      (∀ i j, j < 8 → ¬ (i = y * (s._displayWidth / 8) + x / 8 ∧ j = 7 - x % 8) →
        bitAt s1.screenMemory i j = bitAt s.screenMemory i j) ∧
      (∀ i, i ≠ y * (s._displayWidth / 8) + x / 8 → s1.screenMemory[i]? = s.screenMemory[i]?) ∧
      s.setPixel x y c2 XOR = some s1 ∧
      s1.setPixel x y c2 XOR = some s := by
  have hi1 : y * (s._displayWidth / 8) + x / 8 < s.screenMemory.length := by omega
  have hk : 7 - x % 8 < 8 := by omega
  have hpb : ∀ b c, pixelByte b x c XOR = (b ^^^ (1 <<< (7 - x % 8))) % 256 := by
    intro b c; simp [pixelByte]
  refine ⟨_, setPixel_inside s x y c1 XOR hx hy hi1, rfl, ?_, ?_, ?_, ?_, ?_⟩
  · simp only [bitAt_set _ _ _ _ _ hi1, if_true, hpb, testBit_xor_mask _ _ _ hk]
    simp [bitAt]
  · intro i j hj hne
    simp only [bitAt_set _ _ _ _ _ hi1]
    by_cases hii : i = y * (s._displayWidth / 8) + x / 8
    · have hjk : ¬ (7 - x % 8 = j) := fun e => hne ⟨hii, e.symm⟩
      subst hii
      simp [hpb, testBit_xor_mask _ _ _ hj, hjk, bitAt]
    · simp [hii]
  · intro i hne
    exact getElem?_set_other _ _ _ _ hne
  · rw [setPixel_inside s x y c2 XOR hx hy hi1, hpb, hpb]
  · have hi2 : y * (s._displayWidth / 8) + x / 8 <
        (s.screenMemory.set (y * (s._displayWidth / 8) + x / 8)
          (pixelByte (s.screenMemory.getD (y * (s._displayWidth / 8) + x / 8) 0) x c1 XOR)).length := by
      simpa using hi1
    rw [setPixel_inside { s with screenMemory :=
      (s.screenMemory.set (y * (s._displayWidth / 8) + x / 8)
        (pixelByte (s.screenMemory.getD (y * (s._displayWidth / 8) + x / 8) 0) x c1 XOR)) }
      x y c2 XOR hx hy hi2]
    have hbyte : s.screenMemory.getD (y * (s._displayWidth / 8) + x / 8) 0 < 256 := by
      rw [List.getD_eq_getElem?_getD, List.getElem?_eq_getElem hi1]
      exact hb _ (List.getElem_mem hi1)
    have heq : s.screenMemory.getD (y * (s._displayWidth / 8) + x / 8) 0
        = s.screenMemory[y * (s._displayWidth / 8) + x / 8] := by
      rw [List.getD_eq_getElem?_getD, List.getElem?_eq_getElem hi1]; rfl
    simp only [getD_set, hi1, and_self, if_true, hpb, xor_mask_twice _ _ hbyte, List.set_set]
    rw [heq, set_getElem_same _ _ hi1]

/-- C2, witness: pixel `(9, 2)` of a zeroed 160 × 32 display. -/
theorem setPixel_xor_spec_witness :
    ∃ s1, (zeroed 160 32).setPixel 9 2 BLACK XOR = some s1 ∧
      s1 = { zeroed 160 32 with screenMemory := s1.screenMemory } ∧
      bitAt s1.screenMemory (2 * ((zeroed 160 32)._displayWidth / 8) + 9 / 8) (7 - 9 % 8)
        = !bitAt (zeroed 160 32).screenMemory
            (2 * ((zeroed 160 32)._displayWidth / 8) + 9 / 8) (7 - 9 % 8) ∧
      (∀ i j, j < 8 → ¬ (i = 2 * ((zeroed 160 32)._displayWidth / 8) + 9 / 8 ∧ j = 7 - 9 % 8) →
        bitAt s1.screenMemory i j = bitAt (zeroed 160 32).screenMemory i j) ∧
      (∀ i, i ≠ 2 * ((zeroed 160 32)._displayWidth / 8) + 9 / 8 →
        s1.screenMemory[i]? = (zeroed 160 32).screenMemory[i]?) ∧
      (zeroed 160 32).setPixel 9 2 WHITE XOR = some s1 ∧
      s1.setPixel 9 2 WHITE XOR = some (zeroed 160 32) :=
  setPixel_xor_spec (zeroed 160 32) 9 2 BLACK WHITE (List.length_replicate 640 0)
    (fun b hb => by rw [List.eq_of_mem_replicate hb]; norm_num)
    (by decide) (by decide) (by decide)

/-- C2 as stated fails: with width 256 and height 64 the in-bounds pixel
`(255, 63)` addresses byte `2047`, outside the 640 bytes of `screenMemory`, and
`setPixel` in `XOR` mode has no defined result. -/
theorem setPixel_xor_outside_buffer :
    255 < (zeroed 256 64)._displayWidth ∧ 63 < (zeroed 256 64)._displayHeight ∧
      63 * ((zeroed 256 64)._displayWidth / 8) + 255 / 8 = 2047 ∧
      (zeroed 256 64).setPixel 255 63 BLACK XOR = none := by
  refine ⟨by decide, by decide, by decide, ?_⟩
  have h : (zeroed 256 64).screenMemory[2047]? = none :=
    List.getElem?_eq_none (le_of_eq_of_le (List.length_replicate 640 0) (by norm_num))
  unfold setPixel
  rw [if_neg (by decide)]
  simp only [show 63 * ((zeroed 256 64)._displayWidth / 8) + 255 / 8 = 2047 from by decide, h]

/-- C3: for every `(x, y)` with `x >= width` or `y >= height` and every colour
and mode, `setPixel` returns the driver it was given: buffer, draw state and
bus record are all unchanged. -/
theorem setPixel_out_of_range (s : SSD1320) (x y color mode : Nat)
    (h : x ≥ s._displayWidth ∨ y ≥ s._displayHeight) :
    s.setPixel x y color mode = some s :=
  setPixel_outside s x y color mode h

/-- C3, witness: `x = 160` on a 160 × 32 display. -/
theorem setPixel_out_of_range_witness :
    (zeroed 160 32).setPixel 160 0 WHITE XOR = some (zeroed 160 32) :=
  setPixel_out_of_range (zeroed 160 32) 160 0 WHITE XOR (Or.inl (by decide))

/-! ### Transport and flush -/

theorem addBus_addBus (s : SSD1320) (a b : List Event) :
    (s.addBus a).addBus b = s.addBus (a ++ b) := by
  simp [addBus, List.append_assoc]

theorem addBus_nil (s : SSD1320) : s.addBus [] = s := by
  simp [addBus]

theorem command_eq (s : SSD1320) (b : Nat) (hif : s._interface = OLED_INTERFACE_SPI3) :
    s.command b = s.addBus (frame s false b) := by
  simp [command, addBus, frame, hif]

theorem data_eq (s : SSD1320) (b : Nat) (hif : s._interface = OLED_INTERFACE_SPI3) :
    s.data b = s.addBus (frame s true b) := by
  simp [data, addBus, frame, hif]

theorem data_addBus (s : SSD1320) (es : List Event) (b : Nat)
    (hif : s._interface = OLED_INTERFACE_SPI3) :
    (s.addBus es).data b = s.addBus (es ++ frame s true b) := by
  rw [data_eq _ _ (by simpa [addBus] using hif), addBus_addBus]
  rfl

theorem command_addBus (s : SSD1320) (es : List Event) (b : Nat)
    (hif : s._interface = OLED_INTERFACE_SPI3) :
    (s.addBus es).command b = s.addBus (es ++ frame s false b) := by
  rw [command_eq _ _ (by simpa [addBus] using hif), addBus_addBus]
  rfl

theorem addressing_eq (s : SSD1320) (es : List Event) (hif : s._interface = OLED_INTERFACE_SPI3) :
    ((s.addBus es).setColumnAddress 0).setRowAddress 0
      = s.addBus (es ++ (addressing s).flatMap (frame s false)) := by
  unfold setRowAddress setColumnAddress
  rw [command_addBus _ _ _ hif, command_addBus _ _ _ hif, command_addBus _ _ _ hif,
    command_addBus _ _ _ hif, command_addBus _ _ _ hif, command_addBus _ _ _ hif]
  simp [addressing, addBus, List.append_assoc]

theorem foldl_data_addBus (s : SSD1320) (hif : s._interface = OLED_INTERFACE_SPI3)
    (f : α → Nat) (l : List α) (es : List Event) :
    l.foldl (fun t a => t.data (f a)) (s.addBus es)
      = s.addBus (es ++ (l.map f).flatMap (frame s true)) := by
  induction l generalizing es with
  | nil => simp
  | cons a l ih =>
    rw [List.foldl_cons, data_addBus _ _ _ hif, ih]
    simp [List.append_assoc]

theorem displayByte_addBus (s : SSD1320) (es : List Event) (b : Nat)
    (hif : s._interface = OLED_INTERFACE_SPI3) :
    (s.addBus es).displayByte b = s.addBus (es ++ (expansion b).flatMap (frame s true)) := by
  unfold displayByte expansion
  exact foldl_data_addBus s hif (newByte b) [8, 6, 4, 2] es

theorem foldlM_addBus (s : SSD1320) (f : SSD1320 → α → Option SSD1320) (g : α → List Event)
    (l : List α)
    (h : ∀ es a, a ∈ l → f (s.addBus es) a = some (s.addBus (es ++ g a))) (es : List Event) :
    l.foldlM f (s.addBus es) = some (s.addBus (es ++ l.flatMap g)) := by
  induction l generalizing es with
  | nil => simp
  | cons a l ih =>
    rw [List.foldlM_cons, h es a (List.mem_cons_self _ _)]
    simp only [Option.some_bind, Option.bind_eq_bind]
    rw [ih (fun es b hb => h es b (List.mem_cons_of_mem _ hb))]
    simp [List.append_assoc]

theorem displayRow_addBus (s : SSD1320) (es : List Event) (rows : Nat)
    (hif : s._interface = OLED_INTERFACE_SPI3) (hlen : rows * 20 + 20 ≤ s.screenMemory.length) :
    (s.addBus es).displayRow rows = some (s.addBus (es ++ (List.range 20).flatMap (fun c =>
      (expansion (s.screenMemory.getD (rows * 20 + c) 0)).flatMap (frame s true)))) := by
  unfold displayRow
  apply foldlM_addBus
  intro es c hc
  have hc20 : c < 20 := List.mem_range.mp hc
  have hi : rows * 20 + c < s.screenMemory.length := by omega
  have hg : (s.addBus es).screenMemory[rows * 20 + c]? =
      some (s.screenMemory.getD (rows * 20 + c) 0) := by
    show s.screenMemory[rows * 20 + c]? = _
    rw [List.getD_eq_getElem?_getD, List.getElem?_eq_getElem hi]; rfl
  simp only [hg]
  rw [displayByte_addBus _ _ _ hif]

theorem nested_range_flatMap (F : Nat → List β) (m n : Nat) :
    (List.range m).flatMap (fun r => (List.range n).flatMap (fun c => F (r * n + c)))
      = (List.range (m * n)).flatMap F := by
  induction m with
  | zero => simp
  | succ m ih =>
    rw [List.range_succ, List.flatMap_append, ih, Nat.succ_mul, List.range_add,
      List.flatMap_append]
    simp [List.flatMap_map]

theorem map_getD_range (l : List Nat) : (List.range l.length).map (fun i => l.getD i 0) = l := by
  apply List.ext_getElem
  · simp
  · intro i h1 h2
    simp [List.getD_eq_getElem?_getD, List.getElem?_eq_getElem h2]

theorem display_eq (s : SSD1320) (hif : s._interface = OLED_INTERFACE_SPI3)
    (hlen : s.screenMemory.length = 640) :
    s.display = some (s.addBus ((addressing s).flatMap (frame s false)
      ++ (s.screenMemory.flatMap expansion).flatMap (frame s true))) := by
  unfold display
  have h0 := addressing_eq s [] hif
  rw [addBus_nil] at h0
  simp only [h0]
  rw [foldlM_addBus s (fun t rows => t.displayRow rows)
    (fun rows => (List.range 20).flatMap (fun c =>
      (expansion (s.screenMemory.getD (rows * 20 + c) 0)).flatMap (frame s true)))]
  · rw [nested_range_flatMap (fun i => (expansion (s.screenMemory.getD i 0)).flatMap (frame s true))
      32 20]
    have h640 : 32 * 20 = s.screenMemory.length := by omega
    rw [h640]
    have hm : (List.range s.screenMemory.length).flatMap
        (fun i => (expansion (s.screenMemory.getD i 0)).flatMap (frame s true))
        = (s.screenMemory.flatMap expansion).flatMap (frame s true) := by
      conv_rhs => rw [← map_getD_range s.screenMemory]
      simp [List.flatMap_map, List.flatMap_assoc]
    rw [hm]
    simp
  · intro es rows hr
    have hr32 : rows < 32 := List.mem_range.mp hr
    exact displayRow_addBus s es rows hif (by omega)

theorem length_expansion (b : Nat) : (expansion b).length = 4 := rfl

theorem length_flatMap_expansion (l : List Nat) : (l.flatMap expansion).length = 4 * l.length := by
  induction l with
  | nil => rfl
  | cons a l ih => simp [List.flatMap_cons, ih, length_expansion]; omega

theorem and_shiftLeft_ne_zero (b k : Nat) : (b &&& (1 <<< k) ≠ 0) ↔ b.testBit k = true := by
  rw [Nat.one_shiftLeft]
  constructor
  · intro h
    by_contra hb
    apply h
    apply Nat.eq_of_testBit_eq
    intro j
    rw [Nat.testBit_and, Nat.testBit_two_pow, Nat.zero_testBit]
    by_cases hkj : k = j
    · subst hkj; simp [hb]
    · simp [hkj]
  · intro hb h
    have h1 : (b &&& 2 ^ k).testBit k = true := by
      rw [Nat.testBit_and, Nat.testBit_two_pow, hb]; simp
    rw [h, Nat.zero_testBit] at h1
    exact Bool.false_ne_true h1

theorem newByte_eq (b bitNumber : Nat) :
    newByte b bitNumber = (if b.testBit (bitNumber - 1) then 0xF else 0x0)
      + 16 * (if b.testBit (bitNumber - 2) then 0xF else 0x0) := by
  unfold newByte
  by_cases h1 : b.testBit (bitNumber - 1) = true <;>
    by_cases h2 : b.testBit (bitNumber - 2) = true <;>
    simp [and_shiftLeft_ne_zero, h1, h2]

theorem foldl_displayByte_addBus (s : SSD1320) (hif : s._interface = OLED_INTERFACE_SPI3)
    (l : List Nat) (es : List Event) :
    l.foldl displayByte (s.addBus es)
      = s.addBus (es ++ (l.flatMap expansion).flatMap (frame s true)) := by
  induction l generalizing es with
  | nil => simp
  | cons a l ih =>
    rw [List.foldl_cons, displayByte_addBus _ _ _ hif, ih]
    simp [List.append_assoc]

/-- C4 (amended): on the 3-wire SPI interface `display()` sends the addressing
commands and then, for every byte `b` of `screenMemory` in turn, exactly four
data bytes, most significant pair of bits first: byte `k` (`k = 0..3`) has
LOW nibble `0xF` if bit `7 - 2k` of `b` (the first bit of the pair) is set, else
`0x0`, and HIGH nibble `0xF` if bit `6 - 2k` (the second bit) is set, else `0x0`.
In particular `0b10100000` gives `0x0F, 0x0F, 0x00, 0x00`. -/
theorem display_byte_expansion (s : SSD1320) (b : Nat)
    (hif : s._interface = OLED_INTERFACE_SPI3) (hlen : s.screenMemory.length = 640) :
    s.display = some (s.screenMemory.foldl displayByte ((s.setColumnAddress 0).setRowAddress 0)) ∧
    s.displayByte b = s.addBus (([0, 1, 2, 3].map (fun k =>
      (if b.testBit (7 - 2 * k) then 0xF else 0x0)
        + 16 * (if b.testBit (6 - 2 * k) then 0xF else 0x0))).flatMap (frame s true)) ∧
    expansion 0b10100000 = [0x0F, 0x0F, 0x00, 0x00] := by
  refine ⟨?_, ?_, by decide⟩
  · have h0 := addressing_eq s [] hif
    rw [addBus_nil, List.nil_append] at h0
    rw [h0, foldl_displayByte_addBus s hif, display_eq s hif hlen]
  · have h := displayByte_addBus s [] b hif
    rw [addBus_nil] at h
    rw [h]
    simp [expansion, newByte_eq]

/-- C4, witness: the byte `0b10100000` on a zeroed 160 × 32 display. -/
theorem display_byte_expansion_witness :
    (zeroed 160 32).display = some ((zeroed 160 32).screenMemory.foldl displayByte
        (((zeroed 160 32).setColumnAddress 0).setRowAddress 0)) ∧
    (zeroed 160 32).displayByte 0b10100000 = (zeroed 160 32).addBus (([0, 1, 2, 3].map (fun k =>
      (if (0b10100000 : Nat).testBit (7 - 2 * k) then 0xF else 0x0)
        + 16 * (if (0b10100000 : Nat).testBit (6 - 2 * k) then 0xF else 0x0))).flatMap
          (frame (zeroed 160 32) true)) ∧
    expansion 0b10100000 = [0x0F, 0x0F, 0x00, 0x00] :=
  display_byte_expansion (zeroed 160 32) 0b10100000 rfl (List.length_replicate 640 0)

/-- C4 as stated fails: for the byte `0b10100000` the four data bytes sent are
`0x0F, 0x0F, 0x00, 0x00`, not `0xF0, 0xF0, 0x00, 0x00`: the first bit of each
pair fills the low nibble. -/
theorem display_byte_not_high_nibble_first :
    ((zeroed 160 32).displayByte 0b10100000).bus
        = [0x0F, 0x0F, 0x00, 0x00].flatMap (frame (zeroed 160 32) true) ∧
      ((zeroed 160 32).displayByte 0b10100000).bus
        ≠ [0xF0, 0xF0, 0x00, 0x00].flatMap (frame (zeroed 160 32) true) := by
  constructor <;> decide

/-- C5, evaluation at the failing input: on a 128 × 32 display (`width * height / 8
= 512`) `display()` still walks its fixed 32 × 20 loop and sends the expansion of
all 640 bytes of `screenMemory`, i.e. 2560 data bytes instead of `4 * 512 = 2048`. -/
theorem display_ignores_configured_size :
    (zeroed 128 32).display = some ((zeroed 128 32).addBus
      ((addressing (zeroed 128 32)).flatMap (frame (zeroed 128 32) false)
        ++ ((zeroed 128 32).screenMemory.flatMap expansion).flatMap (frame (zeroed 128 32) true))) ∧
      ((zeroed 128 32).screenMemory.flatMap expansion).length = 2560 ∧
      4 * ((zeroed 128 32)._displayWidth * (zeroed 128 32)._displayHeight / 8) = 2048 := by
  refine ⟨display_eq (zeroed 128 32) rfl (List.length_replicate 640 0), ?_, by decide⟩
  have h : (zeroed 128 32).screenMemory.length = 640 := List.length_replicate 640 0
  rw [length_flatMap_expansion, h]

/-! ### Lines and rectangles -/

theorem i8_of_small (e : Int) (h0 : 0 ≤ e) (h1 : e ≤ 127) : i8 e = e := by
  unfold i8; omega

/-- With `dy = 0` and an error term that starts non-negative the loop of `line`
walks from `x0` to `x1 - 1` without ever changing `y0`. -/
theorem lineLoop_flat (fuel : Nat) (steep : Bool) (y0 x1 dx : Nat) (err ystep : Int)
    (he0 : 0 ≤ err) (he1 : err ≤ 127) (hx1 : x1 ≤ 255) :
    ∀ x0, x0 ≤ x1 → x1 - x0 < fuel →
      lineLoop fuel steep x0 y0 x1 dx 0 err ystep
        = some ((List.range (x1 - x0)).map
            (fun i => if steep then (y0, x0 + i) else (x0 + i, y0))) := by
  induction fuel with
  | zero => intro x0 _ h; omega
  | succ fuel ih =>
    intro x0 h01 hf
    unfold lineLoop
    by_cases hlt : x0 < x1
    · have herr : i8 (err - ((0 : Nat) : Int)) = err := by
        rw [Int.ofNat_zero, Int.sub_zero, i8_of_small err he0 he1]
      have hmod : (x0 + 1) % 256 = x0 + 1 := Nat.mod_eq_of_lt (by omega)
      have hn : x1 - x0 = (x1 - (x0 + 1)) + 1 := by omega
      simp only [hlt, if_true, herr, Int.not_lt.mpr he0, if_false, hmod]
      rw [ih (x0 + 1) (by omega) (by omega), hn, List.range_succ_eq_map]
      simp only [Option.map_some', List.map_cons, List.map_map, Nat.add_zero]
      congr 2
      apply List.map_congr_left
      intro i _
      simp only [Function.comp, Nat.succ_eq_add_one]
      have : x0 + 1 + i = x0 + (i + 1) := by omega
      rw [this]
    · have hz : x1 - x0 = 0 := by omega
      simp [hlt, hz]

theorem linePoints_horizontal (x0 x1 y : Nat) (h01 : x0 ≤ x1) (hx1 : x1 ≤ 255) :
    linePoints x0 y x1 y = some ((List.range (x1 - x0)).map (fun i => (x0 + i, y))) := by
  unfold linePoints
  have hs : decide (Int.natAbs ((y : Int) - y) > Int.natAbs ((x1 : Int) - x0)) = false := by
    simp
  have hsw : ¬ x0 > x1 := by omega
  simp only [hs, Bool.false_eq_true, if_false, hsw]
  have hdy : u8 (((Int.natAbs ((y : Int) - y) : Nat) : Int)) = 0 := by simp [u8]
  rw [hdy]
  have hdx : u8 ((x1 : Int) - x0) = x1 - x0 := by unfold u8; omega
  rw [hdx]
  have he : i8 (((x1 - x0) / 2 : Nat) : Int) = (((x1 - x0) / 2 : Nat) : Int) :=
    i8_of_small _ (by omega) (by omega)
  rw [he, lineLoop_flat 256 false y x1 _ _ _ (by omega) (by omega) hx1 x0 h01 (by omega)]
  simp

theorem linePoints_vertical (x y0 y1 : Nat) (h01 : y0 < y1) (hy1 : y1 ≤ 255) :
    linePoints x y0 x y1 = some ((List.range (y1 - y0)).map (fun i => (x, y0 + i))) := by
  unfold linePoints
  have hs : decide (Int.natAbs ((y1 : Int) - y0) > Int.natAbs ((x : Int) - x)) = true := by
    simp; omega
  have hsw : ¬ y0 > y1 := by omega
  simp only [hs, if_true, hsw, if_false]
  have hdy : u8 (((Int.natAbs ((x : Int) - x) : Nat) : Int)) = 0 := by simp [u8]
  rw [hdy]
  have hdx : u8 ((y1 : Int) - y0) = y1 - y0 := by unfold u8; omega
  rw [hdx]
  have he : i8 (((y1 - y0) / 2 : Nat) : Int) = (((y1 - y0) / 2 : Nat) : Int) :=
    i8_of_small _ (by omega) (by omega)
  rw [he, lineLoop_flat 256 true x y1 _ _ _ (by omega) (by omega) hy1 y0 (by omega) (by omega)]
  simp

theorem rect_height_two (s : SSD1320) (x y width color mode : Nat) :
    s.rect x y width 2 color mode
      = (s.lineH x y width color mode).bind
          (fun s1 => s1.lineH x (u8 ((y : Int) + 2 - 1)) width color mode) := by
  unfold rect
  cases h1 : s.lineH x y width color mode with
  | none => simp
  | some s1 =>
    cases h2 : s1.lineH x (u8 ((y : Int) + 2 - 1)) width color mode with
    | none => simp [h2]
    | some s2 =>
      have hu : u8 0 = 0 := rfl
      simp [h2, hu]

/-- C6, evaluation: for `height = 2` `rect` is exactly its two `lineH` calls, but
for `height = 1` and `height = 0` the 8-bit `tempHeight = height - 2` wraps to
255 and 254, the test `tempHeight < 1` fails and both `lineV` calls are made.
On a zeroed 160 × 32 display in `XOR` mode `rect(0, 0, 3, 1)` leaves byte 0 equal
to `0xA0` where the two `lineH` calls alone leave `0x00`, and `rect(0, 2, 3, 0)`
leaves `0x40` in rows 1 and 2 where the two `lineH` calls alone leave `0xE0`. -/
theorem rect_height_below_two_draws_sides :
    (∀ (s : SSD1320) (x y width color mode : Nat),
      s.rect x y width 2 color mode
        = (s.lineH x y width color mode).bind
            (fun s1 => s1.lineH x (u8 ((y : Int) + 2 - 1)) width color mode)) ∧
    u8 (((1 : Nat) : Int) - 2) = 255 ∧ u8 (((0 : Nat) : Int) - 2) = 254 ∧
    ((zeroed 160 32).rect 0 0 3 1 WHITE XOR).map (fun s => s.screenMemory.take 1)
      = some [0xA0] ∧
    (((zeroed 160 32).lineH 0 0 3 WHITE XOR).bind
        (fun s1 => s1.lineH 0 (u8 (((0 : Nat) : Int) + (1 : Nat) - 1)) 3 WHITE XOR)).map
          (fun s => s.screenMemory.take 1)
      = some [0x00] ∧
    ((zeroed 160 32).rect 0 2 3 0 WHITE XOR).map
        (fun s => [s.screenMemory.getD 20 0, s.screenMemory.getD 40 0])
      = some [0x40, 0x40] ∧
    (((zeroed 160 32).lineH 0 2 3 WHITE XOR).bind
        (fun s1 => s1.lineH 0 (u8 (((2 : Nat) : Int) + (0 : Nat) - 1)) 3 WHITE XOR)).map
          (fun s => [s.screenMemory.getD 20 0, s.screenMemory.getD 40 0])
      = some [0xE0, 0xE0] := by
  refine ⟨rect_height_two, by decide, by decide, by decide, by decide, by decide, by decide⟩

/-- C7: for `x0 <= x1 <= 255`, `line(x0, y, x1, y, color, mode)` is the sequence of
`setPixel` calls at `(x0, y), (x0 + 1, y), .., (x1 - 1, y)` in this order (so
`(x1, y)` is not plotted); for `x + w <= 255`, `lineH(x, y, w)` is the sequence
of calls at `(x, y), .., (x + w - 1, y)`; for `y + h <= 255`, `lineV(x, y, h)` is
the sequence of calls at `(x, y), .., (x, y + h - 1)`. On a zeroed 8 × 1 display
`line(0, 0, 7, 0, WHITE, NORM)` leaves byte 0 equal to `0xFE`. -/
theorem line_axis_aligned (s : SSD1320) (x0 x1 x y w h color mode : Nat)
    (h01 : x0 ≤ x1) (hx1 : x1 ≤ 255) (hw : x + w ≤ 255) (hh : y + h ≤ 255) :
    (linePoints x0 y x1 y = some ((List.range (x1 - x0)).map (fun i => (x0 + i, y))) ∧
      s.line x0 y x1 y color mode
        = s.plot ((List.range (x1 - x0)).map (fun i => (x0 + i, y, color))) mode) ∧
    (linePoints x y (u8 ((x : Int) + w)) y = some ((List.range w).map (fun i => (x + i, y))) ∧
      s.lineH x y w color mode
        = s.plot ((List.range w).map (fun i => (x + i, y, color))) mode) ∧
    (linePoints x y x (u8 ((y : Int) + h)) = some ((List.range h).map (fun i => (x, y + i))) ∧
      s.lineV x y h color mode
        = s.plot ((List.range h).map (fun i => (x, y + i, color))) mode) ∧
    (zeroed 8 1).line 0 0 7 0 WHITE NORM
      = some { zeroed 8 1 with screenMemory := 0xFE :: List.replicate 639 0 } := by
  have hux : u8 ((x : Int) + w) = x + w := by unfold u8; omega
  have huy : u8 ((y : Int) + h) = y + h := by unfold u8; omega
  have hH : linePoints x y (u8 ((x : Int) + w)) y
      = some ((List.range w).map (fun i => (x + i, y))) := by
    rw [hux, linePoints_horizontal x (x + w) y (by omega) hw, Nat.add_sub_cancel_left]
  have hV : linePoints x y x (u8 ((y : Int) + h))
      = some ((List.range h).map (fun i => (x, y + i))) := by
    rw [huy]
    by_cases hz : h = 0
    · subst hz
      rw [Nat.add_zero, linePoints_horizontal x x y (le_refl x) (by omega)]
      simp
    · rw [linePoints_vertical x y (y + h) (by omega) hh, Nat.add_sub_cancel_left]
  refine ⟨⟨linePoints_horizontal x0 x1 y h01 hx1, ?_⟩, ⟨hH, ?_⟩, ⟨hV, ?_⟩, by decide⟩
  · unfold line
    rw [linePoints_horizontal x0 x1 y h01 hx1]
    simp only [List.map_map]
    rfl
  · unfold lineH line
    rw [hH]
    simp only [List.map_map]
    rfl
  · unfold lineV line
    rw [hV]
    simp only [List.map_map]
    rfl

/-- C7, witness: `line(2, 5, 9, 5)`, `lineH(4, 5, 6)` and `lineV(4, 5, 7)` on a
zeroed 160 × 32 display. -/
theorem line_axis_aligned_witness :
    (linePoints 2 5 9 5 = some ((List.range (9 - 2)).map (fun i => (2 + i, 5))) ∧
      (zeroed 160 32).line 2 5 9 5 WHITE NORM
        = (zeroed 160 32).plot ((List.range (9 - 2)).map (fun i => (2 + i, 5, WHITE))) NORM) ∧
    (linePoints 4 5 (u8 (((4 : Nat) : Int) + (6 : Nat))) 5
        = some ((List.range 6).map (fun i => (4 + i, 5))) ∧
      (zeroed 160 32).lineH 4 5 6 WHITE NORM
        = (zeroed 160 32).plot ((List.range 6).map (fun i => (4 + i, 5, WHITE))) NORM) ∧
    (linePoints 4 5 4 (u8 (((5 : Nat) : Int) + (7 : Nat)))
        = some ((List.range 7).map (fun i => (4, 5 + i))) ∧
      (zeroed 160 32).lineV 4 5 7 WHITE NORM
        = (zeroed 160 32).plot ((List.range 7).map (fun i => (4, 5 + i, WHITE))) NORM) ∧
    (zeroed 8 1).line 0 0 7 0 WHITE NORM
      = some { zeroed 8 1 with screenMemory := 0xFE :: List.replicate 639 0 } :=
  line_axis_aligned (zeroed 160 32) 2 9 4 5 6 7 WHITE NORM (by decide) (by decide) (by decide)
    (by decide)

/-! ### Filled circle and text -/

/-- C8: for every centre, radius and colour (and every loop bound `fuel`),
`circleFill(x0, y0, radius, color, XOR)` returns the driver it was given: the
buffer and the bus record are unchanged. -/
theorem circleFill_xor_noop (fuel : Nat) (s : SSD1320) (x0 y0 radius color : Nat) :
    circleFill fuel s x0 y0 radius color XOR = some s := by
  simp [circleFill]

/-- C9: for every font table and font header, every character code `c` with
`c < fontStartChar` or `c >= fontStartChar + fontTotalChar`, and every position,
colour and mode, `drawChar` returns the driver it was given, whatever the font
table contains. -/
theorem drawChar_outside_font (fontsPointer : Nat → Nat → Nat) (fuel : Nat) (s : SSD1320)
    (x y c color mode : Nat)
    (h : c < s.fontStartChar ∨ c ≥ s.fontStartChar + s.fontTotalChar) :
    drawChar fontsPointer fuel s x y c color mode = some s := by
  unfold drawChar
  have h1 : c < s.fontStartChar ∨ (c : Int) > (s.fontStartChar : Int) + s.fontTotalChar - 1 := by
    rcases h with h | h
    · exact Or.inl h
    · exact Or.inr (by omega)
  simp [h1]

/-- C9, witness: character 31 and the font of `zeroed` (`fontStartChar = 32`). -/
theorem drawChar_outside_font_witness :
    drawChar (fun _ _ => 0xFF) 300 (zeroed 160 32) 0 0 31 WHITE NORM = some (zeroed 160 32) :=
  drawChar_outside_font (fun _ _ => 0xFF) 300 (zeroed 160 32) 0 0 31 WHITE NORM
    (Or.inl (by decide))

/-! ### Clearing -/

theorem foldl_clear_rows (s : SSD1320) (hif : s._interface = OLED_INTERFACE_SPI3)
    (l : List Nat) (es : List Event) :
    l.foldl (fun t _ => (List.range (t._displayWidth / 2)).foldl (fun t _ => t.data 0x00) t)
        (s.addBus es)
      = s.addBus (es ++ (List.replicate (l.length * (s._displayWidth / 2)) 0).flatMap
          (frame s true)) := by
  induction l generalizing es with
  | nil => simp
  | cons a l ih =>
    rw [List.foldl_cons]
    have hw : (s.addBus es)._displayWidth = s._displayWidth := rfl
    rw [hw, foldl_data_addBus s hif (fun _ => 0x00) (List.range (s._displayWidth / 2)) es, ih]
    have hrep : List.replicate ((a :: l).length * (s._displayWidth / 2)) 0
        = List.replicate (s._displayWidth / 2) 0
            ++ List.replicate (l.length * (s._displayWidth / 2)) 0 := by
      rw [← List.replicate_add]
      congr 1
      simp [Nat.succ_mul, Nat.add_comm]
    have hmap : (List.range (s._displayWidth / 2)).map (fun _ => 0x00)
        = List.replicate (s._displayWidth / 2) 0 := by simp
    rw [hrep, hmap, List.flatMap_append, List.append_assoc]

theorem clearDisplay_stream (s : SSD1320) (hif : s._interface = OLED_INTERFACE_SPI3) :
    (List.range ((s.setColumnAddress 0).setRowAddress 0)._displayHeight).foldl
        (fun t _ => (List.range (t._displayWidth / 2)).foldl (fun t _ => t.data 0x00) t)
        ((s.setColumnAddress 0).setRowAddress 0)
      = s.addBus ((addressing s).flatMap (frame s false)
          ++ (List.replicate (s._displayHeight * (s._displayWidth / 2)) 0).flatMap
              (frame s true)) := by
  have h0 := addressing_eq s [] hif
  rw [addBus_nil, List.nil_append] at h0
  rw [h0, foldl_clear_rows s hif]
  simp [addBus]

/-- C10 as stated fails: on a 256 × 64 display `width * height / 8 = 2048` exceeds
the 640 bytes of `screenMemory`, and `clearDisplay(CLEAR_BUFFER)` has no defined
result. -/
theorem clearDisplay_outside_buffer :
    (zeroed 256 64)._displayWidth * (zeroed 256 64)._displayHeight / 8 = 2048 ∧
      (zeroed 256 64).screenMemory.length = 640 ∧
      (zeroed 256 64).clearDisplay CLEAR_BUFFER = none := by
  have hlen : (zeroed 256 64).screenMemory.length = 640 := List.length_replicate 640 0
  refine ⟨by decide, hlen, ?_⟩
  unfold clearDisplay
  rw [if_neg (by decide)]
  unfold memset0
  rw [hlen, if_neg (by decide)]

/-! ### Fonts, scrolling and addressing -/

/-- C11: `setFontType(t)` returns `false` exactly when `t >= 4 = TOTALFONTS`, and
then the driver is unchanged; for `t < 4` it returns `true`, sets `fontType = t`
and the header fields from bytes 0..5 of font table `t`, with
`fontMapWidth = byte4 * 100 + byte5`, and changes nothing else. -/
theorem setFontType_spec (fontsPointer : Nat → Nat → Nat) (s : SSD1320) (t : Nat) :
    ((setFontType fontsPointer s t).1 = false ↔ t ≥ 4) ∧
    (t ≥ 4 → setFontType fontsPointer s t = (false, s)) ∧
    (t < 4 → setFontType fontsPointer s t = (true,
      { s with
        fontType := t
        fontWidth := pgm_read_byte fontsPointer t 0
        fontHeight := pgm_read_byte fontsPointer t 1
        fontStartChar := pgm_read_byte fontsPointer t 2
        fontTotalChar := pgm_read_byte fontsPointer t 3
        fontMapWidth :=
          pgm_read_byte fontsPointer t 4 * 100 + pgm_read_byte fontsPointer t 5 })) := by
  have hmw : (pgm_read_byte fontsPointer t 4 * 100 + pgm_read_byte fontsPointer t 5) % 65536
      = pgm_read_byte fontsPointer t 4 * 100 + pgm_read_byte fontsPointer t 5 := by
    apply Nat.mod_eq_of_lt
    have h4 : pgm_read_byte fontsPointer t 4 < 256 := Nat.mod_lt _ (by norm_num)
    have h5 : pgm_read_byte fontsPointer t 5 < 256 := Nat.mod_lt _ (by norm_num)
    omega
  refine ⟨?_, ?_, ?_⟩
  · unfold setFontType TOTALFONTS
    by_cases h : t ≥ 4
    · simp [h]
    · simp [h]
  · intro h
    unfold setFontType TOTALFONTS
    rw [if_pos h]
  · intro h
    unfold setFontType TOTALFONTS
    rw [if_neg (by omega), hmw]

/-- The command bytes listed in `cmds`, sent one after the other. -/
theorem foldl_command_addBus (s : SSD1320) (hif : s._interface = OLED_INTERFACE_SPI3)
    (cmds : List Nat) (es : List Event) :
    cmds.foldl command (s.addBus es) = s.addBus (es ++ cmds.flatMap (frame s false)) := by
  induction cmds generalizing es with
  | nil => simp
  | cons a l ih =>
    rw [List.foldl_cons, command_addBus _ _ _ hif, ih]
    simp [List.append_assoc]

/-- C12: for `scrollRight`, `scrollLeft` and `scrollUp`: if `stop < start` the
driver is returned unchanged (nothing is sent); if `stop >= start` (on the 3-wire
SPI interface) the call sends only command bytes, namely the listed sequence,
which begins with `DEACTIVATESCROLL = 0x2E`, ends with `ACTIVATESCROLL = 0x2F`
and carries `start` and `stop`. -/
theorem scroll_spec (s : SSD1320) (start stop : Nat)
    (hif : s._interface = OLED_INTERFACE_SPI3) :
    (stop < start →
      s.scrollRight start stop = s ∧ s.scrollLeft start stop = s ∧ s.scrollUp start stop = s) ∧
    (stop ≥ start →
      s.scrollRight start stop = s.addBus
        ([0x2E, 0x26, 0x00, start, 0x07, stop, 0x00, 0xFF, 0x2F].flatMap (frame s false)) ∧
      s.scrollLeft start stop = s.addBus
        ([0x2E, 0x27, 0x00, 0x00, start, 32, stop, 0x00, 0xFF, 0x2F].flatMap (frame s false)) ∧
      s.scrollUp start stop = s.addBus
        ([0x2E, 0xA3, 0x00, 64, 0x29, 0x00, start, 0, stop, 0x01, 0x2F].flatMap
          (frame s false))) := by
  constructor
  · intro h
    simp [scrollRight, scrollLeft, scrollUp, h]
  · intro h
    have hn : ¬ stop < start := by omega
    have key : ∀ cmds : List Nat, cmds.foldl command s = s.addBus (cmds.flatMap (frame s false)) := by
      intro cmds
      have := foldl_command_addBus s hif cmds []
      rw [addBus_nil, List.nil_append] at this
      exact this
    refine ⟨?_, ?_, ?_⟩
    · rw [← key]
      simp [scrollRight, scrollStop, hn, DEACTIVATESCROLL, RIGHTHORIZONTALSCROLL, ACTIVATESCROLL]
    · rw [← key]
      simp [scrollLeft, scrollStop, hn, DEACTIVATESCROLL, LEFTHORIZONTALSCROLL, ACTIVATESCROLL]
    · rw [← key]
      simp [scrollUp, scrollStop, hn, DEACTIVATESCROLL, SETVERTICALSCROLLAREA,
        VERTICALRIGHTHORIZONTALSCROLL, ACTIVATESCROLL]

/-- C12, witness: `start = 2`, `stop = 5` on a zeroed 160 × 32 display. -/
theorem scroll_spec_witness :
    (5 < 2 →
      (zeroed 160 32).scrollRight 2 5 = zeroed 160 32 ∧
      (zeroed 160 32).scrollLeft 2 5 = zeroed 160 32 ∧
      (zeroed 160 32).scrollUp 2 5 = zeroed 160 32) ∧
    (5 ≥ 2 →
      (zeroed 160 32).scrollRight 2 5 = (zeroed 160 32).addBus
        ([0x2E, 0x26, 0x00, 2, 0x07, 5, 0x00, 0xFF, 0x2F].flatMap (frame (zeroed 160 32) false)) ∧
      (zeroed 160 32).scrollLeft 2 5 = (zeroed 160 32).addBus
        ([0x2E, 0x27, 0x00, 0x00, 2, 32, 5, 0x00, 0xFF, 0x2F].flatMap
          (frame (zeroed 160 32) false)) ∧
      (zeroed 160 32).scrollUp 2 5 = (zeroed 160 32).addBus
        ([0x2E, 0xA3, 0x00, 64, 0x29, 0x00, 2, 0, 5, 0x01, 0x2F].flatMap
          (frame (zeroed 160 32) false))) :=
  scroll_spec (zeroed 160 32) 2 5 rfl

/-- C13: on the 3-wire SPI interface `setColumnAddress(a)` sends exactly the three
command bytes `0x21, a, (width / 2 - 1) mod 256` and `setRowAddress(a)` exactly
the three command bytes `0x22, a, (height - 1) mod 256`; nothing else in the
driver (in particular `screenMemory`) changes and no data byte is sent. -/
theorem setAddress_spec (s : SSD1320) (a : Nat) (hif : s._interface = OLED_INTERFACE_SPI3) :
    s.setColumnAddress a = s.addBus
      ([0x21, a, ((((s._displayWidth / 2 : Nat) : Int) - 1) % 256).toNat].flatMap
        (frame s false)) ∧
    s.setRowAddress a = s.addBus
      ([0x22, a, ((((s._displayHeight : Nat) : Int) - 1) % 256).toNat].flatMap
        (frame s false)) := by
  have key : ∀ cmds : List Nat, cmds.foldl command s = s.addBus (cmds.flatMap (frame s false)) := by
    intro cmds
    have := foldl_command_addBus s hif cmds []
    rw [addBus_nil, List.nil_append] at this
    exact this
  constructor
  · rw [← key]; rfl
  · rw [← key]; rfl

/-- C13, witness: address 0 on a zeroed 160 × 32 display. -/
theorem setAddress_spec_witness :
    (zeroed 160 32).setColumnAddress 0 = (zeroed 160 32).addBus
      ([0x21, 0, (((((zeroed 160 32)._displayWidth / 2 : Nat) : Int) - 1) % 256).toNat].flatMap
        (frame (zeroed 160 32) false)) ∧
    (zeroed 160 32).setRowAddress 0 = (zeroed 160 32).addBus
      ([0x22, 0, (((((zeroed 160 32)._displayHeight : Nat) : Int) - 1) % 256).toNat].flatMap
        (frame (zeroed 160 32) false)) :=
  setAddress_spec (zeroed 160 32) 0 rfl

/-! ### Byte framing -/

theorem sendAll_addBus (s : SSD1320) (hif : s._interface = OLED_INTERFACE_SPI3)
    (calls : List (Bool × Nat)) (es : List Event) :
    (s.addBus es).sendAll calls
      = s.addBus (es ++ calls.flatMap (fun c => frame s c.1 c.2)) := by
  unfold sendAll
  induction calls generalizing es with
  | nil => simp
  | cons c l ih =>
    rw [List.foldl_cons]
    cases hc : c.1 with
    | true =>
      simp only [if_true]
      rw [data_addBus _ _ _ hif, ih]
      simp [List.append_assoc, hc]
    | false =>
      simp only [Bool.false_eq_true, if_false]
      rw [command_addBus _ _ _ hif, ih]
      simp [List.append_assoc, hc]

theorem spiScan_append (sclk : Nat) (a b : List Event) (st : Bool) :
    spiScan sclk st (a ++ b) = (spiScan sclk st a).bind (fun st1 => spiScan sclk st1 b) := by
  induction a generalizing st with
  | nil => simp [spiScan]
  | cons e a ih =>
    cases e with
    | digitalWrite p l =>
      simp only [List.cons_append, spiScan]
      split_ifs
      · simp
      · exact ih st
    | beginTransaction => simp only [List.cons_append, spiScan]; exact ih true
    | transfer b => simp only [List.cons_append, spiScan]; exact ih st
    | endTransaction => simp only [List.cons_append, spiScan]; exact ih st
    | spiEnd => simp only [List.cons_append, spiScan]; exact ih false

theorem spiScan_frame (s : SSD1320) (dc : Bool) (b : Nat) :
    spiScan s._sclk false (frame s dc b) = some false := by
  simp [frame, spiScan]

theorem spiScan_frames (s : SSD1320) (calls : List (Bool × Nat)) :
    spiScan s._sclk false (calls.flatMap (fun c => frame s c.1 c.2)) = some false := by
  induction calls with
  | nil => simp [spiScan]
  | cons c l ih =>
    rw [List.flatMap_cons, spiScan_append, spiScan_frame]
    simpa using ih

/-- C14: on the 3-wire SPI interface `command(b)` and `data(b)` each add to the
bus record exactly: chip select low, the mode bit on the data line (low for a
command, high for data), clock high, clock low, then the byte `b` through the SPI
peripheral (`beginTransaction`, `transfer(b)`, `endTransaction`), `SPI.end()`,
chip select high; the two records differ only in the level of the mode bit. In
the record of any sequence of `command`/`data` calls started with the SPI
peripheral stopped, no write to the clock pin happens between a
`beginTransaction` and the following `SPI.end()`, and the peripheral is stopped
again at the end. -/
theorem transport_framing (s : SSD1320) (b : Nat) (calls : List (Bool × Nat))
    (hif : s._interface = OLED_INTERFACE_SPI3)
    (h0 : spiScan s._sclk false s.bus = some false) :
    s.command b = s.addBus
      [ Event.digitalWrite s._cs false, Event.digitalWrite s._sd false,
        Event.digitalWrite s._sclk true, Event.digitalWrite s._sclk false,
        Event.beginTransaction, Event.transfer b, Event.endTransaction, Event.spiEnd,
        Event.digitalWrite s._cs true ] ∧
    s.data b = s.addBus
      [ Event.digitalWrite s._cs false, Event.digitalWrite s._sd true,
        Event.digitalWrite s._sclk true, Event.digitalWrite s._sclk false,
        Event.beginTransaction, Event.transfer b, Event.endTransaction, Event.spiEnd,
        Event.digitalWrite s._cs true ] ∧
    (s.sendAll calls).bus = s.bus ++ calls.flatMap (fun c => frame s c.1 c.2) ∧
    spiScan s._sclk false (s.sendAll calls).bus = some false := by
  have hs := sendAll_addBus s hif calls []
  rw [addBus_nil, List.nil_append] at hs
  refine ⟨command_eq s b hif, data_eq s b hif, ?_, ?_⟩
  · rw [hs]; rfl
  · rw [hs]
    show spiScan s._sclk false (s.bus ++ _) = some false
    rw [spiScan_append, h0]
    exact spiScan_frames s calls

/-- C14, witness: a command byte followed by two data bytes on a fresh driver. -/
theorem transport_framing_witness :
    (zeroed 160 32).command 0x21 = (zeroed 160 32).addBus
      [ Event.digitalWrite (zeroed 160 32)._cs false, Event.digitalWrite (zeroed 160 32)._sd false,
        Event.digitalWrite (zeroed 160 32)._sclk true,
        Event.digitalWrite (zeroed 160 32)._sclk false,
        Event.beginTransaction, Event.transfer 0x21, Event.endTransaction, Event.spiEnd,
        Event.digitalWrite (zeroed 160 32)._cs true ] ∧
    (zeroed 160 32).data 0x21 = (zeroed 160 32).addBus
      [ Event.digitalWrite (zeroed 160 32)._cs false, Event.digitalWrite (zeroed 160 32)._sd true,
        Event.digitalWrite (zeroed 160 32)._sclk true,
        Event.digitalWrite (zeroed 160 32)._sclk false,
        Event.beginTransaction, Event.transfer 0x21, Event.endTransaction, Event.spiEnd,
        Event.digitalWrite (zeroed 160 32)._cs true ] ∧
    ((zeroed 160 32).sendAll [(false, 0x21), (true, 0x0F), (true, 0xF0)]).bus
      = (zeroed 160 32).bus ++ [(false, 0x21), (true, 0x0F), (true, 0xF0)].flatMap
          (fun c => frame (zeroed 160 32) c.1 c.2) ∧
    spiScan (zeroed 160 32)._sclk false
      ((zeroed 160 32).sendAll [(false, 0x21), (true, 0x0F), (true, 0xF0)]).bus = some false :=
  transport_framing (zeroed 160 32) 0x21 [(false, 0x21), (true, 0x0F), (true, 0xF0)] rfl rfl

/-! ### Bitmap load -/

theorem set_take_drop (src mem : List Nat) (n b : Nat) (hs : src[n]? = some b)
    (hm : n < mem.length) :
    (src.take n ++ mem.drop n).set n b = src.take (n + 1) ++ mem.drop (n + 1) := by
  have hsl : n < src.length := by
    by_contra h
    rw [List.getElem?_eq_none (by omega)] at hs
    exact Option.noConfusion hs
  apply List.ext_getElem?
  intro i
  rw [List.getElem?_set]
  have hlt : (src.take n).length = n := by rw [List.length_take]; omega
  have hlt1 : (src.take (n + 1)).length = n + 1 := by rw [List.length_take]; omega
  by_cases hin : n = i
  · subst hin
    have hl : n < (src.take n ++ mem.drop n).length := by
      rw [List.length_append, hlt, List.length_drop]; omega
    rw [if_pos rfl, if_pos hl, List.getElem?_append_left (by omega), List.getElem?_take]
    simp [hs]
  · rw [if_neg hin]
    by_cases hlti : i < n
    · rw [List.getElem?_append_left (by omega), List.getElem?_append_left (by omega),
        List.getElem?_take, List.getElem?_take]
      simp [hlti, show i < n + 1 by omega]
    · rw [List.getElem?_append_right (by omega), List.getElem?_append_right (by omega), hlt, hlt1,
        List.getElem?_drop, List.getElem?_drop]
      congr 1
      omega

theorem drawBitmap_loop (s : SSD1320) (src : List Nat) (n : Nat)
    (hs : n ≤ src.length) (hm : n ≤ s.screenMemory.length) :
    (List.range n).foldlM
      (fun s i =>
        match src[i]? with
        | none => none
        | some b =>
          if i < s.screenMemory.length then
            some { s with screenMemory := (s.screenMemory.set i b) }
          else none) s
      = some { s with screenMemory := (src.take n ++ s.screenMemory.drop n) } := by
  induction n with
  | zero => simp
  | succ n ih =>
    rw [List.range_succ, List.foldlM_append, ih (by omega) (by omega)]
    have hsn : src[n]? = some src[n] := List.getElem?_eq_getElem (by omega)
    have hl : n < (src.take n ++ s.screenMemory.drop n).length := by
      rw [List.length_append, List.length_take, List.length_drop]; omega
    simp only [Option.some_bind, Option.bind_eq_bind, List.foldlM_cons, List.foldlM_nil, hsn, hl,
      if_true, Option.pure_def, Option.bind_some]
    rw [set_take_drop src s.screenMemory n _ hsn (by omega)]

/-- C15 (amended): if `width * height / 8 <= 640`, then for every byte array `src`
of length exactly `width * height / 8`, `drawBitmap(src)` returns; afterwards the
first `width * height / 8` bytes of `screenMemory` are those of `src`, the bytes
from index `width * height / 8` on are unchanged, and nothing else in the driver
changes (nothing is sent); loading back the bytes exposed by `getScreenBuffer()`
leaves the driver unchanged. -/
theorem drawBitmap_spec (s : SSD1320) (src : List Nat)
    (hlen : s.screenMemory.length = 640)
    (hbuf : s._displayWidth * s._displayHeight / 8 ≤ 640)
    (hsrc : src.length = s._displayWidth * s._displayHeight / 8) :
    s.drawBitmap src = some { s with screenMemory :=
      (src ++ s.screenMemory.drop (s._displayWidth * s._displayHeight / 8)) } ∧
    (∀ i, i < s._displayWidth * s._displayHeight / 8 →
      (src ++ s.screenMemory.drop (s._displayWidth * s._displayHeight / 8))[i]? = src[i]?) ∧
    (∀ i, i ≥ s._displayWidth * s._displayHeight / 8 →
      (src ++ s.screenMemory.drop (s._displayWidth * s._displayHeight / 8))[i]?
        = s.screenMemory[i]?) ∧
    s.drawBitmap s.getScreenBuffer = some s := by
  refine ⟨?_, ?_, ?_, ?_⟩
  · unfold drawBitmap
    rw [drawBitmap_loop s src _ (by omega) (by omega), ← hsrc, List.take_length]
  · intro i hi
    rw [List.getElem?_append_left (by omega)]
  · intro i hi
    rw [List.getElem?_append_right (by omega), List.getElem?_drop, hsrc]
    congr 1
    omega
  · unfold drawBitmap getScreenBuffer
    rw [drawBitmap_loop s s.screenMemory _ (by omega) (by omega), List.take_append_drop]

/-- C15, witness: an all-`0xFF` bitmap loaded into a zeroed 160 × 32 display. -/
theorem drawBitmap_spec_witness :
    (zeroed 160 32).drawBitmap (List.replicate 640 0xFF)
      = some { zeroed 160 32 with screenMemory :=
        (List.replicate 640 0xFF ++ (zeroed 160 32).screenMemory.drop
          ((zeroed 160 32)._displayWidth * (zeroed 160 32)._displayHeight / 8)) } ∧
    (∀ i, i < (zeroed 160 32)._displayWidth * (zeroed 160 32)._displayHeight / 8 →
      (List.replicate 640 0xFF ++ (zeroed 160 32).screenMemory.drop
        ((zeroed 160 32)._displayWidth * (zeroed 160 32)._displayHeight / 8))[i]?
        = (List.replicate 640 0xFF)[i]?) ∧
    (∀ i, i ≥ (zeroed 160 32)._displayWidth * (zeroed 160 32)._displayHeight / 8 →
      (List.replicate 640 0xFF ++ (zeroed 160 32).screenMemory.drop
        ((zeroed 160 32)._displayWidth * (zeroed 160 32)._displayHeight / 8))[i]?
        = (zeroed 160 32).screenMemory[i]?) ∧
    (zeroed 160 32).drawBitmap (zeroed 160 32).getScreenBuffer = some (zeroed 160 32) :=
  drawBitmap_spec (zeroed 160 32) (List.replicate 640 0xFF) (List.length_replicate 640 0)
    (by decide) (List.length_replicate 640 0xFF)

theorem drawBitmap_overflow (s : SSD1320) (src : List Nat) (n : Nat)
    (h1 : s.screenMemory.length < n) (h2 : n ≤ src.length) :
    (List.range n).foldlM
      (fun s i =>
        match src[i]? with
        | none => none
        | some b =>
          if i < s.screenMemory.length then
            some { s with screenMemory := (s.screenMemory.set i b) }
          else none) s
      = none := by
  obtain ⟨k, rfl⟩ : ∃ k, n = (s.screenMemory.length + 1) + k := ⟨n - (s.screenMemory.length + 1), by omega⟩
  rw [List.range_add, List.foldlM_append, List.range_succ, List.foldlM_append,
    drawBitmap_loop s src _ (by omega) (le_refl _)]
  have hsn : src[s.screenMemory.length]? = some src[s.screenMemory.length] :=
    List.getElem?_eq_getElem (by omega)
  have hl : ¬ s.screenMemory.length
      < (src.take s.screenMemory.length ++ s.screenMemory.drop s.screenMemory.length).length := by
    rw [List.length_append, List.length_take, List.length_drop]; omega
  simp only [Option.some_bind, Option.bind_eq_bind, List.foldlM_cons, List.foldlM_nil, hsn, hl,
    if_false, Option.none_bind]

theorem drawBitmap_none (s : SSD1320) (src : List Nat)
    (h1 : s.screenMemory.length < s._displayWidth * s._displayHeight / 8)
    (h2 : s._displayWidth * s._displayHeight / 8 ≤ src.length) :
    s.drawBitmap src = none :=
  drawBitmap_overflow s src _ h1 h2

/-- C15 as stated fails: on a 256 × 64 display `width * height / 8 = 2048`, and
`drawBitmap` of a 2048-byte array writes past the 640 bytes of `screenMemory`:
it has no defined result. -/
theorem drawBitmap_outside_buffer :
    (zeroed 256 64)._displayWidth * (zeroed 256 64)._displayHeight / 8 = 2048 ∧
      (List.replicate 2048 0).length = 2048 ∧
      (zeroed 256 64).drawBitmap (List.replicate 2048 0) = none := by
  have hl : (List.replicate 2048 0).length = 2048 := List.length_replicate 2048 0
  have hm : (zeroed 256 64).screenMemory.length = 640 := List.length_replicate 640 0
  have hn : (zeroed 256 64)._displayWidth * (zeroed 256 64)._displayHeight / 8 = 2048 := by
    decide
  refine ⟨hn, hl, ?_⟩
  apply drawBitmap_none
  · rw [hm, hn]; norm_num
  · rw [hl, hn]

/-! ### Frame properties: what the drawing operations leave alone -/

theorem OnlyMemory.refl (s : SSD1320) : OnlyMemory s s := rfl

theorem OnlyMemory.trans {s s1 s2 : SSD1320} (h1 : OnlyMemory s s1) (h2 : OnlyMemory s1 s2) :
    OnlyMemory s s2 := by
  unfold OnlyMemory at *
  rw [h2, h1]

theorem OnlyMemory.bus_eq {s s1 : SSD1320} (h : OnlyMemory s s1) : s1.bus = s.bus := by
  unfold OnlyMemory at h
  rw [h]

theorem setPixel_onlyMemory (s s1 : SSD1320) (x y color mode : Nat)
    (h : s.setPixel x y color mode = some s1) : OnlyMemory s s1 := by
  unfold setPixel at h
  by_cases h1 : x ≥ s._displayWidth ∨ y ≥ s._displayHeight
  · rw [if_pos h1] at h
    cases h; rfl
  · rw [if_neg h1] at h
    simp only at h
    cases hg : s.screenMemory[y * (s._displayWidth / 8) + x / 8]? with
    | none => rw [hg] at h; exact Option.noConfusion h
    | some b =>
      rw [hg] at h
      simp only at h
      split_ifs at h <;> (cases h; rfl)

theorem plot_onlyMemory (calls : List (Nat × Nat × Nat)) (mode : Nat) :
    ∀ s s1 : SSD1320, s.plot calls mode = some s1 → OnlyMemory s s1 := by
  induction calls with
  | nil =>
    intro s s1 h
    simp only [plot] at h
    cases h; rfl
  | cons c rest ih =>
    intro s s1 h
    obtain ⟨x, y, color⟩ := c
    simp only [plot] at h
    cases hp : s.setPixel x y color mode with
    | none => rw [hp] at h; exact Option.noConfusion h
    | some s2 =>
      rw [hp] at h
      exact (setPixel_onlyMemory s s2 x y color mode hp).trans (ih s2 s1 h)

theorem line_onlyMemory (s s1 : SSD1320) (x0 y0 x1 y1 color mode : Nat)
    (h : s.line x0 y0 x1 y1 color mode = some s1) : OnlyMemory s s1 := by
  unfold line at h
  split at h
  · exact Option.noConfusion h
  · exact plot_onlyMemory _ _ s s1 h

theorem lineH_onlyMemory (s s1 : SSD1320) (x y width color mode : Nat)
    (h : s.lineH x y width color mode = some s1) : OnlyMemory s s1 :=
  line_onlyMemory s s1 _ _ _ _ _ _ h

theorem lineV_onlyMemory (s s1 : SSD1320) (x y height color mode : Nat)
    (h : s.lineV x y height color mode = some s1) : OnlyMemory s s1 :=
  line_onlyMemory s s1 _ _ _ _ _ _ h

theorem rect_onlyMemory (s s1 : SSD1320) (x y width height color mode : Nat)
    (h : s.rect x y width height color mode = some s1) : OnlyMemory s s1 := by
  unfold rect at h
  cases h1 : s.lineH x y width color mode with
  | none => rw [h1] at h; exact Option.noConfusion h
  | some t1 =>
    rw [h1] at h
    simp only at h
    cases h2 : t1.lineH x (u8 ((y : Int) + height - 1)) width color mode with
    | none => rw [h2] at h; exact Option.noConfusion h
    | some t2 =>
      rw [h2] at h
      simp only at h
      have h12 := (lineH_onlyMemory _ _ _ _ _ _ _ h1).trans (lineH_onlyMemory _ _ _ _ _ _ _ h2)
      split_ifs at h with ht
      · cases h; exact h12
      · cases h3 : t2.lineV x (u8 ((y : Int) + 1)) (u8 ((height : Int) - 2)) color mode with
        | none => rw [h3] at h; exact Option.noConfusion h
        | some t3 =>
          rw [h3] at h
          simp only at h
          exact (h12.trans (lineV_onlyMemory _ _ _ _ _ _ _ h3)).trans
            (lineV_onlyMemory _ _ _ _ _ _ _ h)

theorem foldlM_onlyMemory (f : SSD1320 → α → Option SSD1320)
    (hf : ∀ s s1 a, f s a = some s1 → OnlyMemory s s1) (l : List α) :
    ∀ s s1 : SSD1320, l.foldlM f s = some s1 → OnlyMemory s s1 := by
  induction l with
  | nil =>
    intro s s1 h
    simp only [List.foldlM_nil, Option.pure_def, Option.some.injEq] at h
    rw [h]; rfl
  | cons a l ih =>
    intro s s1 h
    rw [List.foldlM_cons] at h
    cases hfa : f s a with
    | none => rw [hfa] at h; exact Option.noConfusion h
    | some s2 =>
      rw [hfa] at h
      exact (hf s s2 a hfa).trans (ih s2 s1 h)

theorem rectFill_onlyMemory (s s1 : SSD1320) (x y width height color mode : Nat)
    (h : s.rectFill x y width height color mode = some s1) : OnlyMemory s s1 :=
  foldlM_onlyMemory _ (fun t t1 _ hk => lineV_onlyMemory t t1 _ _ _ _ _ hk) _ s s1 h

theorem circle_onlyMemory (fuel : Nat) (s s1 : SSD1320) (x0 y0 radius color mode : Nat)
    (h : circle fuel s x0 y0 radius color mode = some s1) : OnlyMemory s s1 := by
  unfold circle at h
  split at h
  · exact Option.noConfusion h
  · exact plot_onlyMemory _ _ s s1 h

theorem circleFill_onlyMemory (fuel : Nat) (s s1 : SSD1320) (x0 y0 radius color mode : Nat)
    (h : circleFill fuel s x0 y0 radius color mode = some s1) : OnlyMemory s s1 := by
  unfold circleFill at h
  split_ifs at h
  · cases h; rfl
  · split at h
    · exact Option.noConfusion h
    · exact plot_onlyMemory _ _ s s1 h

theorem drawChar_eq (fontsPointer : Nat → Nat → Nat) (fuel : Nat) (s : SSD1320)
    (x y c color mode : Nat) :
    drawChar fontsPointer fuel s x y c color mode
      = if c < s.fontStartChar ∨ (c : Int) > (s.fontStartChar : Int) + s.fontTotalChar - 1
        then some s
        else (drawCharCalls fontsPointer fuel s x y c color).bind (fun calls => s.plot calls mode) := by
  unfold drawChar drawCharCalls
  by_cases hr : c < s.fontStartChar ∨ (c : Int) > (s.fontStartChar : Int) + s.fontTotalChar - 1
  · rw [if_pos hr, if_pos hr]
  · rw [if_neg hr, if_neg hr]
    simp only
    by_cases h1 : (if s.fontHeight / 8 < 1 then 1 else s.fontHeight / 8) = 1
    · rw [if_pos h1, if_pos h1]
      cases drawCharCols (fontsPointer s.fontType) s.fontWidth (u8 ((c : Int) - s.fontStartChar)) x y
        color fuel 0 <;> rfl
    · rw [if_neg h1, if_neg h1]
      by_cases h2 : s.fontWidth = 0
      · rw [if_pos h2, if_pos h2]; rfl
      · rw [if_neg h2, if_neg h2]
        by_cases h3 : (s.fontMapWidth / s.fontWidth) % 65536 = 0
        · rw [if_pos h3, if_pos h3]; rfl
        · rw [if_neg h3, if_neg h3]; rfl

theorem drawChar_onlyMemory (fontsPointer : Nat → Nat → Nat) (fuel : Nat) (s s1 : SSD1320)
    (x y c color mode : Nat)
    (h : drawChar fontsPointer fuel s x y c color mode = some s1) : OnlyMemory s s1 := by
  rw [drawChar_eq] at h
  split_ifs at h
  · cases h; rfl
  · cases hc : drawCharCalls fontsPointer fuel s x y c color with
    | none => rw [hc] at h; exact Option.noConfusion h
    | some calls =>
      rw [hc] at h
      exact plot_onlyMemory _ _ s s1 h

theorem drawBitmap_onlyMemory (s s1 : SSD1320) (bitArray : List Nat)
    (h : s.drawBitmap bitArray = some s1) : OnlyMemory s s1 := by
  unfold drawBitmap at h
  refine foldlM_onlyMemory _ ?_ _ s s1 h
  intro t t1 i hi
  simp only at hi
  split at hi
  · exact Option.noConfusion hi
  · split_ifs at hi
    cases hi; rfl

theorem write_frame (fontsPointer : Nat → Nat → Nat) (fuel : Nat) (s s1 : SSD1320) (c n : Nat)
    (h : write fontsPointer fuel s c = some (n, s1)) :
    s1 = { s with screenMemory := s1.screenMemory, cursorX := s1.cursorX, cursorY := s1.cursorY } := by
  unfold write at h
  split_ifs at h with h10 h13
  · cases h; rfl
  · cases h; rfl
  · cases hd : drawChar fontsPointer fuel s s.cursorX s.cursorY c s.foreColor s.drawMode with
    | none => rw [hd] at h; exact Option.noConfusion h
    | some s2 =>
      rw [hd] at h
      have hm : s2 = { s with screenMemory := s2.screenMemory } :=
        drawChar_onlyMemory _ _ _ _ _ _ _ _ _ hd
      simp only at h
      split_ifs at h <;> (cases h; rw [hm])

/-- C16: none of `setPixel`, `line`, `lineH`, `lineV`, `rect`, `rectFill`, `circle`,
`circleFill`, `drawChar`, `drawBitmap` changes anything but the contents of
`screenMemory` (so the bus record is the same before and after); `write` changes
only `screenMemory` and the cursor; `setCursor`, `setColor`, `setDrawMode` and
`setFontType` leave the bus record and `screenMemory` as they are; and `display()`
changes nothing but the bus record. -/
theorem no_auto_flush (fontsPointer : Nat → Nat → Nat) (fuel : Nat) (s : SSD1320)
    (x y x1 y1 w h r c color mode t : Nat) (bitArray : List Nat)
    (hif : s._interface = OLED_INTERFACE_SPI3) (hlen : s.screenMemory.length = 640) :
    (∀ s1, s.setPixel x y color mode = some s1 → OnlyMemory s s1 ∧ s1.bus = s.bus) ∧
    (∀ s1, s.line x y x1 y1 color mode = some s1 → OnlyMemory s s1 ∧ s1.bus = s.bus) ∧
    (∀ s1, s.lineH x y w color mode = some s1 → OnlyMemory s s1 ∧ s1.bus = s.bus) ∧
    (∀ s1, s.lineV x y h color mode = some s1 → OnlyMemory s s1 ∧ s1.bus = s.bus) ∧
    (∀ s1, s.rect x y w h color mode = some s1 → OnlyMemory s s1 ∧ s1.bus = s.bus) ∧
    (∀ s1, s.rectFill x y w h color mode = some s1 → OnlyMemory s s1 ∧ s1.bus = s.bus) ∧
    (∀ s1, circle fuel s x y r color mode = some s1 → OnlyMemory s s1 ∧ s1.bus = s.bus) ∧
    (∀ s1, circleFill fuel s x y r color mode = some s1 → OnlyMemory s s1 ∧ s1.bus = s.bus) ∧
    (∀ s1, drawChar fontsPointer fuel s x y c color mode = some s1 →
      OnlyMemory s s1 ∧ s1.bus = s.bus) ∧
    (∀ n s1, write fontsPointer fuel s c = some (n, s1) →
      s1 = { s with screenMemory := s1.screenMemory, cursorX := s1.cursorX,
                    cursorY := s1.cursorY } ∧ s1.bus = s.bus) ∧
    (∀ s1, s.drawBitmap bitArray = some s1 → OnlyMemory s s1 ∧ s1.bus = s.bus) ∧
    ((s.setCursor x y).bus = s.bus ∧ (s.setCursor x y).screenMemory = s.screenMemory) ∧
    ((s.setColor color).bus = s.bus ∧ (s.setColor color).screenMemory = s.screenMemory) ∧
    ((s.setDrawMode mode).bus = s.bus ∧ (s.setDrawMode mode).screenMemory = s.screenMemory) ∧
    ((setFontType fontsPointer s t).2.bus = s.bus ∧
      (setFontType fontsPointer s t).2.screenMemory = s.screenMemory) ∧
    (∃ s1, s.display = some s1 ∧ s1 = { s with bus := s1.bus }) := by
  refine ⟨?_, ?_, ?_, ?_, ?_, ?_, ?_, ?_, ?_, ?_, ?_, ⟨rfl, rfl⟩, ⟨rfl, rfl⟩, ⟨rfl, rfl⟩, ?_, ?_⟩
  · intro s1 h1
    exact ⟨setPixel_onlyMemory _ _ _ _ _ _ h1, (setPixel_onlyMemory _ _ _ _ _ _ h1).bus_eq⟩
  · intro s1 h1
    exact ⟨line_onlyMemory _ _ _ _ _ _ _ _ h1, (line_onlyMemory _ _ _ _ _ _ _ _ h1).bus_eq⟩
  · intro s1 h1
    exact ⟨lineH_onlyMemory _ _ _ _ _ _ _ h1, (lineH_onlyMemory _ _ _ _ _ _ _ h1).bus_eq⟩
  · intro s1 h1
    exact ⟨lineV_onlyMemory _ _ _ _ _ _ _ h1, (lineV_onlyMemory _ _ _ _ _ _ _ h1).bus_eq⟩
  · intro s1 h1
    exact ⟨rect_onlyMemory _ _ _ _ _ _ _ _ h1, (rect_onlyMemory _ _ _ _ _ _ _ _ h1).bus_eq⟩
  · intro s1 h1
    exact ⟨rectFill_onlyMemory _ _ _ _ _ _ _ _ h1, (rectFill_onlyMemory _ _ _ _ _ _ _ _ h1).bus_eq⟩
  · intro s1 h1
    exact ⟨circle_onlyMemory _ _ _ _ _ _ _ _ h1, (circle_onlyMemory _ _ _ _ _ _ _ _ h1).bus_eq⟩
  · intro s1 h1
    exact ⟨circleFill_onlyMemory _ _ _ _ _ _ _ _ h1, (circleFill_onlyMemory _ _ _ _ _ _ _ _ h1).bus_eq⟩
  · intro s1 h1
    exact ⟨drawChar_onlyMemory _ _ _ _ _ _ _ _ _ h1, (drawChar_onlyMemory _ _ _ _ _ _ _ _ _ h1).bus_eq⟩
  · intro n s1 h1
    have hw := write_frame _ _ _ _ _ _ h1
    exact ⟨hw, by rw [hw]⟩
  · intro s1 h1
    exact ⟨drawBitmap_onlyMemory _ _ _ h1, (drawBitmap_onlyMemory _ _ _ h1).bus_eq⟩
  · unfold setFontType
    split_ifs <;> exact ⟨rfl, rfl⟩
  · exact ⟨_, display_eq s hif hlen, rfl⟩

/-- C16, witness: on a zeroed 160 × 32 display `line(1, 2, 30, 9)`,
`circle(20, 15, 6)` and `rectFill(3, 4, 5, 6)` return with the bus record
unchanged, and `display()` returns with only the bus record changed. -/
theorem no_auto_flush_witness :
    (∃ s1, (zeroed 160 32).line 1 2 30 9 WHITE NORM = some s1 ∧ s1.bus = (zeroed 160 32).bus) ∧
    (∃ s1, circle 300 (zeroed 160 32) 20 15 6 WHITE NORM = some s1 ∧
      s1.bus = (zeroed 160 32).bus) ∧
    (∃ s1, (zeroed 160 32).rectFill 3 4 5 6 WHITE XOR = some s1 ∧
      s1.bus = (zeroed 160 32).bus) ∧
    (∃ s1, (zeroed 160 32).display = some s1 ∧ s1 = { zeroed 160 32 with bus := s1.bus }) := by
  have hl := (no_auto_flush (fun _ _ => 0) 300 (zeroed 160 32) 1 2 30 9 0 0 0 0 WHITE NORM 0 []
    rfl (List.length_replicate 640 0)).2.1
  have hc := (no_auto_flush (fun _ _ => 0) 300 (zeroed 160 32) 20 15 0 0 0 0 6 0 WHITE NORM 0 []
    rfl (List.length_replicate 640 0)).2.2.2.2.2.2.1
  have hr := (no_auto_flush (fun _ _ => 0) 300 (zeroed 160 32) 3 4 0 0 5 6 0 0 WHITE XOR 0 []
    rfl (List.length_replicate 640 0)).2.2.2.2.2.1
  have hd := (no_auto_flush (fun _ _ => 0) 300 (zeroed 160 32) 0 0 0 0 0 0 0 0 WHITE NORM 0 []
    rfl (List.length_replicate 640 0)).2.2.2.2.2.2.2.2.2.2.2.2.2.2.2
  refine ⟨?_, ?_, ?_, hd⟩
  · obtain ⟨s1, h1⟩ := Option.isSome_iff_exists.mp
      (show ((zeroed 160 32).line 1 2 30 9 WHITE NORM).isSome = true by decide)
    exact ⟨s1, h1, (hl s1 h1).2⟩
  · obtain ⟨s1, h1⟩ := Option.isSome_iff_exists.mp
      (show (circle 300 (zeroed 160 32) 20 15 6 WHITE NORM).isSome = true by decide)
    exact ⟨s1, h1, (hc s1 h1).2⟩
  · obtain ⟨s1, h1⟩ := Option.isSome_iff_exists.mp
      (show ((zeroed 160 32).rectFill 3 4 5 6 WHITE XOR).isSome = true by decide)
    exact ⟨s1, h1, (hr s1 h1).2⟩

/-! ### General lines -/

theorem lineLoop_empty (fuel : Nat) (steep : Bool) (x0 y0 x1 dx dy : Nat) (err ystep : Int)
    (h : ¬ x0 < x1) : lineLoop (fuel + 1) steep x0 y0 x1 dx dy err ystep = some [] := by
  unfold lineLoop
  rw [if_neg h]

theorem linePoints_swap (x0 y0 x1 y1 : Nat) :
    linePoints x0 y0 x1 y1 = linePoints x1 y1 x0 y0 := by
  have hs : decide (Int.natAbs ((y1 : Int) - y0) > Int.natAbs ((x1 : Int) - x0))
      = decide (Int.natAbs ((y0 : Int) - y1) > Int.natAbs ((x0 : Int) - x1)) := by
    have h1 : Int.natAbs ((y1 : Int) - y0) = Int.natAbs ((y0 : Int) - y1) := by omega
    have h2 : Int.natAbs ((x1 : Int) - x0) = Int.natAbs ((x0 : Int) - x1) := by omega
    rw [h1, h2]
  unfold linePoints
  rw [hs]
  cases decide (Int.natAbs ((y0 : Int) - y1) > Int.natAbs ((x0 : Int) - x1)) with
  | false =>
    simp only [Bool.false_eq_true, if_false]
    rcases Nat.lt_trichotomy x0 x1 with h | h | h
    · have h' : ¬ x0 > x1 := by omega
      simp only [h', if_false, h, gt_iff_lt, if_true]
    · subst h
      simp only [gt_iff_lt, lt_self_iff_false, if_false]
      rw [lineLoop_empty 255 _ _ _ _ _ _ _ _ (lt_irrefl _),
        lineLoop_empty 255 _ _ _ _ _ _ _ _ (lt_irrefl _)]
    · have h' : ¬ x1 > x0 := by omega
      simp only [h', if_false, h, gt_iff_lt, if_true]
  | true =>
    simp only [if_true]
    rcases Nat.lt_trichotomy y0 y1 with h | h | h
    · have h' : ¬ y0 > y1 := by omega
      simp only [h', if_false, h, gt_iff_lt, if_true]
    · subst h
      simp only [gt_iff_lt, lt_self_iff_false, if_false]
      rw [lineLoop_empty 255 _ _ _ _ _ _ _ _ (lt_irrefl _),
        lineLoop_empty 255 _ _ _ _ _ _ _ _ (lt_irrefl _)]
    · have h' : ¬ y1 > y0 := by omega
      simp only [h', if_false, h, gt_iff_lt, if_true]

/-- C25: `line` is symmetric in its endpoints: `line(x0, y0, x1, y1, color, mode)`
and `line(x1, y1, x0, y0, color, mode)` make the same `setPixel` calls in the same
order and so give the same result on every driver. -/
theorem line_symmetric (s : SSD1320) (x0 y0 x1 y1 color mode : Nat) :
    linePoints x0 y0 x1 y1 = linePoints x1 y1 x0 y0 ∧
    s.line x0 y0 x1 y1 color mode = s.line x1 y1 x0 y0 color mode := by
  refine ⟨linePoints_swap x0 y0 x1 y1, ?_⟩
  unfold line
  rw [linePoints_swap x0 y0 x1 y1]

/-- The loop of `line` always finishes: it makes `x1 - x0` calls, the first at
`(x0, y0)`, all with major coordinate in `[x0, x1)`. -/
theorem lineLoop_spec (steep : Bool) (x1 dx dy : Nat) (ystep : Int) (hx1 : x1 ≤ 255) :
    ∀ (fuel x0 y0 : Nat) (err : Int), x0 ≤ x1 → x1 - x0 < fuel →
      ∃ pts, lineLoop fuel steep x0 y0 x1 dx dy err ystep = some pts ∧
        pts.length = x1 - x0 ∧
        (∀ p ∈ pts, x0 ≤ (if steep then p.2 else p.1) ∧ (if steep then p.2 else p.1) < x1) ∧
        (x0 < x1 → pts.head? = some (if steep then (y0, x0) else (x0, y0))) := by
  intro fuel
  induction fuel with
  | zero => intro x0 y0 err _ h; omega
  | succ fuel ih =>
    intro x0 y0 err h01 hf
    unfold lineLoop
    by_cases hlt : x0 < x1
    · have hmod : (x0 + 1) % 256 = x0 + 1 := Nat.mod_eq_of_lt (by omega)
      rw [if_pos hlt, hmod]
      have hp : ∀ q : Nat × Nat, q = (if steep then (y0, x0) else (x0, y0)) →
          x0 ≤ (if steep then q.2 else q.1) ∧ (if steep then q.2 else q.1) < x1 := by
        intro q hq
        subst hq
        cases steep
        · exact ⟨le_refl _, hlt⟩
        · exact ⟨le_refl _, hlt⟩
      have step : ∀ (y0' : Nat) (err' : Int),
          ∃ pts, (lineLoop fuel steep (x0 + 1) y0' x1 dx dy err' ystep).map
              (fun r => (if steep then (y0, x0) else (x0, y0)) :: r) = some pts ∧
            pts.length = x1 - x0 ∧
            (∀ p ∈ pts, x0 ≤ (if steep then p.2 else p.1) ∧ (if steep then p.2 else p.1) < x1) ∧
            (x0 < x1 → pts.head? = some (if steep then (y0, x0) else (x0, y0))) := by
        intro y0' err'
        obtain ⟨pts, h1, h2, h3, _⟩ := ih (x0 + 1) y0' err' (by omega) (by omega)
        refine ⟨_, by rw [h1]; rfl, ?_, ?_, ?_⟩
        · simp only [List.length_cons, h2]; omega
        · intro p hpm
          rcases List.mem_cons.mp hpm with hpe | hpm
          · exact hp p hpe
          · have := h3 p hpm
            exact ⟨by omega, this.2⟩
        · intro _; rfl
      by_cases he : i8 (err - dy) < 0
      · simp only [he, if_true]
        exact step _ _
      · simp only [he, if_false]
        exact step _ _
    · rw [if_neg hlt]
      refine ⟨[], rfl, ?_, ?_, fun h => absurd h hlt⟩
      · simp only [List.length_nil]; omega
      · intro p hp; exact absurd hp (List.not_mem_nil p)

theorem linePoints_eq (x0 y0 x1 y1 : Nat) :
    linePoints x0 y0 x1 y1
      = if Int.natAbs ((y1 : Int) - y0) > Int.natAbs ((x1 : Int) - x0) then
          (if y0 > y1 then lineRun true y1 x1 y0 x0 else lineRun true y0 x0 y1 x1)
        else
          (if x0 > x1 then lineRun false x1 y1 x0 y0 else lineRun false x0 y0 x1 y1) := by
  unfold linePoints lineRun
  by_cases hs : Int.natAbs ((y1 : Int) - y0) > Int.natAbs ((x1 : Int) - x0)
  · rw [if_pos hs]
    by_cases h : y0 > y1
    · simp only [hs, decide_True, if_true, h]
    · simp only [hs, decide_True, if_true, h, if_false]
  · rw [if_neg hs]
    by_cases h : x0 > x1
    · simp only [hs, decide_False, Bool.false_eq_true, if_false, h, if_true]
    · simp only [hs, decide_False, Bool.false_eq_true, if_false, h]

theorem lineRun_spec (steep : Bool) (a b c d : Nat) (hac : a ≤ c) (hc : c ≤ 255) :
    ∃ pts, lineRun steep a b c d = some pts ∧
      pts.length = c - a ∧
      (∀ p ∈ pts, a ≤ (if steep then p.2 else p.1) ∧ (if steep then p.2 else p.1) < c) ∧
      (a < c → pts.head? = some (if steep then (b, a) else (a, b))) :=
  lineLoop_spec steep c _ _ _ hc 256 a b _ hac (by omega)

/-- C18, evaluation at the failing input: for `line(0, 0, 159, 1)` the recurrence of
the specification, over unbounded integers, stays on rows 0 and 1, but the code
keeps `err` in an `int8_t`: after the first step in `y` it computes
`err = -1 + 159 = 158`, which is stored as `-98`, so the next step moves `y`
again; the code plots `(81, 2)` and reaches row 4. -/
theorem line_error_term_overflows :
    (∀ p ∈ bresenham 0 0 159 1, p.2 = 0 ∨ p.2 = 1) ∧
    i8 (-1 + 159) = -98 ∧
    (∃ pts, linePoints 0 0 159 1 = some pts ∧ (81, 2) ∈ pts ∧ (158, 4) ∈ pts ∧
      pts.map (fun p => ((p.1 : Int), (p.2 : Int))) ≠ bresenham 0 0 159 1) ∧
    (linePoints 0 0 100 1).map (fun pts => pts.map (fun p => ((p.1 : Int), (p.2 : Int))))
      = some (bresenham 0 0 100 1) := by
  refine ⟨by decide, by decide, ?_, by decide⟩
  obtain ⟨pts, h⟩ := Option.isSome_iff_exists.mp
    (show (linePoints 0 0 159 1).isSome = true by decide)
  refine ⟨pts, h, ?_, ?_, ?_⟩
  · have : ((linePoints 0 0 159 1).map (fun l => decide ((81, 2) ∈ l))) = some true := by decide
    rw [h] at this
    simpa using this
  · have : ((linePoints 0 0 159 1).map (fun l => decide ((158, 4) ∈ l))) = some true := by decide
    rw [h] at this
    simpa using this
  · have : ((linePoints 0 0 159 1).map (fun l =>
        decide (l.map (fun p => ((p.1 : Int), (p.2 : Int))) ≠ bresenham 0 0 159 1))) = some true := by
      decide
    rw [h] at this
    simpa using this

/-! ### Pixel addressing -/

theorem byteBit_injective (q x y x' y' : Nat) (hx : x / 8 < q) (hx' : x' / 8 < q)
    (hb : y * q + x / 8 = y' * q + x' / 8) (hk : 7 - x % 8 = 7 - x' % 8) :
    x = x' ∧ y = y' := by
  have hy : y = y' := by
    have h1 : (y * q + x / 8) / q = y := by
      rw [Nat.add_comm, Nat.add_mul_div_right _ _ (by omega), Nat.div_eq_of_lt hx, Nat.zero_add]
    have h2 : (y' * q + x' / 8) / q = y' := by
      rw [Nat.add_comm, Nat.add_mul_div_right _ _ (by omega), Nat.div_eq_of_lt hx', Nat.zero_add]
    rw [← h1, ← h2, hb]
  subst hy
  have hd : x / 8 = x' / 8 := by omega
  exact ⟨by omega, rfl⟩

/-! ### Filled circle: the span loops -/

/-- A span loop whose bound is at least 255 never ends: its 8-bit counter can
not exceed the bound. -/
theorem spanLoop_diverges (bound : Int) (cols : List Nat) (hb : 255 ≤ bound) :
    ∀ (fuel i : Nat), i ≤ 255 → spanLoop fuel i bound cols = none := by
  intro fuel
  induction fuel with
  | zero => intro i _; rfl
  | succ fuel ih =>
    intro i hi
    unfold spanLoop
    have hle : (i : Int) ≤ bound := by omega
    rw [if_pos hle, ih ((i + 1) % 256) (by omega)]
    rfl

theorem circleFillPoints_diverges (fuel x0 y0 radius : Nat) (h : 255 ≤ y0 + radius) :
    circleFillPoints fuel x0 y0 radius = none := by
  unfold circleFillPoints
  have hu : u8 ((y0 : Int) - radius) ≤ 255 := by unfold u8; omega
  simp only [spanLoop_diverges ((y0 : Int) + radius) [x0] (by omega) fuel _ hu]

/-- C27, evaluation at the failing input: `circleFill(80, 250, 10, WHITE, NORM)`
does not return, however many loop tests are allowed: in the first span loop the
8-bit counter `i` is compared with `y0 + radius = 260`, which it can never
exceed. The same holds whenever `y0 + radius >= 255`. -/
theorem circleFill_does_not_terminate :
    ∀ fuel, circleFillPoints fuel 80 250 10 = none ∧
      circleFill fuel (zeroed 160 32) 80 250 10 WHITE NORM = none := by
  intro fuel
  have h := circleFillPoints_diverges fuel 80 250 10 (by decide)
  refine ⟨h, ?_⟩
  unfold circleFill
  rw [if_neg (by decide), h]

/-- C28, evaluation at the failing input: on a zeroed 160 × 32 display
`circleFill(10, 1, 2, WHITE, NORM)` (centre in bounds, `y0 < radius`) returns with
the centre pixel `(10, 1)` and the pixel `(10, 3)` still off, although
`circle(10, 1, 2, WHITE, NORM)` sets `(10, 3)`: the start `y0 - radius` of the span
loop wraps to 255 in its 8-bit counter and the loop body is never run. Only
columns 8 and 12 are drawn. -/
theorem circleFill_skips_clipped_spans :
    u8 (((1 : Nat) : Int) - (2 : Nat)) = 255 ∧
    circleFillPoints 300 10 1 2
      = some [(12, 0), (8, 0), (12, 1), (8, 1), (12, 2), (8, 2),
              (12, 0), (8, 0), (12, 1), (8, 1), (12, 2), (8, 2)] ∧
    (circleFill 300 (zeroed 160 32) 10 1 2 WHITE NORM).map
        (fun s1 => (s1.getPixel 10 1, s1.getPixel 10 3, s1.getPixel 12 1))
      = some (false, false, true) ∧
    (circle 300 (zeroed 160 32) 10 1 2 WHITE NORM).map (fun s1 => s1.getPixel 10 3)
      = some true := by
  refine ⟨by decide, by decide, by decide, by decide⟩

/-! ### Pixels after a sequence of `setPixel` calls -/

theorem getPixel_setPixel (s : SSD1320) (hf : Fits s) (x y color mode : Nat) :
    ∃ s1, s.setPixel x y color mode = some s1 ∧ Fits s1 ∧ OnlyMemory s s1 ∧
      s1.screenMemory.length = s.screenMemory.length ∧
      ∀ x' y', x' < s._displayWidth → y' < s._displayHeight →
        s1.getPixel x' y' = pixelAfter mode x' y' (s.getPixel x' y') (x, y, color) := by
  have hw8 : s._displayWidth % 8 = 0 := hf.1
  by_cases hin : x < s._displayWidth ∧ y < s._displayHeight
  · obtain ⟨hx, hy⟩ := hin
    have hi : y * (s._displayWidth / 8) + x / 8 < s.screenMemory.length := by
      have := byteNumber_lt _ _ _ _ hf.1 hx hy
      have := hf.2
      omega
    have hk : 7 - x % 8 < 8 := by omega
    refine ⟨_, setPixel_inside s x y color mode hx hy hi, ?_, rfl, ?_, ?_⟩
    · unfold Fits
      simp only [List.length_set]
      exact hf
    · simp only [List.length_set]
    · intro x' y' hx' hy'
      have hk' : 7 - x' % 8 < 8 := by omega
      unfold getPixel pixelAfter
      simp only [bitAt_set _ _ _ _ _ hi]
      by_cases hb : y' * (s._displayWidth / 8) + x' / 8 = y * (s._displayWidth / 8) + x / 8
      · rw [if_pos hb]
        by_cases hkk : 7 - x % 8 = 7 - x' % 8
        · obtain ⟨rfl, rfl⟩ := byteBit_injective (s._displayWidth / 8) x y x' y' (by omega)
            (by omega) hb.symm hkk
          simp only [and_self, if_true]
          unfold pixelByte
          by_cases hm : mode = XOR
          · simp only [hm, if_true, testBit_xor_mask _ _ _ hk, bitAt]
            simp
          · simp only [hm, if_false]
            by_cases hc : color = WHITE
            · simp only [hc, if_true, testBit_or_mask _ _ _ hk]
              simp
            · simp only [hc, if_false, testBit_and_not_mask _ _ _ hk]
              simp
        · have hne : ¬ (x = x' ∧ y = y') := by
            rintro ⟨rfl, rfl⟩; exact hkk rfl
          rw [if_neg hne]
          unfold pixelByte bitAt
          rw [hb]
          split_ifs
          · rw [testBit_xor_mask _ _ _ hk']; simp [hkk]
          · rw [testBit_or_mask _ _ _ hk']; simp [hkk]
          · rw [testBit_and_not_mask _ _ _ hk']; simp [hkk]
      · rw [if_neg hb]
        have hne : ¬ (x = x' ∧ y = y') := by
          rintro ⟨rfl, rfl⟩; exact hb rfl
        rw [if_neg hne]
  · have ho : s._displayWidth ≤ x ∨ s._displayHeight ≤ y := by omega
    refine ⟨s, setPixel_outside s x y color mode ho, hf, rfl, rfl, ?_⟩
    intro x' y' hx' hy'
    unfold pixelAfter
    have hne : ¬ (x = x' ∧ y = y') := by
      rintro ⟨rfl, rfl⟩; omega
    rw [if_neg hne]

theorem getPixel_plot (calls : List (Nat × Nat × Nat)) (mode : Nat) :
    ∀ s : SSD1320, Fits s →
      ∃ s1, s.plot calls mode = some s1 ∧ Fits s1 ∧ OnlyMemory s s1 ∧
        s1.screenMemory.length = s.screenMemory.length ∧
        ∀ x' y', x' < s._displayWidth → y' < s._displayHeight →
          s1.getPixel x' y' = calls.foldl (pixelAfter mode x' y') (s.getPixel x' y') := by
  induction calls with
  | nil =>
    intro s hf
    exact ⟨s, rfl, hf, rfl, rfl, fun _ _ _ _ => rfl⟩
  | cons c rest ih =>
    intro s hf
    obtain ⟨x, y, color⟩ := c
    obtain ⟨s1, e1, f1, m1, l1, p1⟩ := getPixel_setPixel s hf x y color mode
    obtain ⟨s2, e2, f2, m2, l2, p2⟩ := ih s1 f1
    have hw : s1._displayWidth = s._displayWidth := by rw [m1]
    have hh : s1._displayHeight = s._displayHeight := by rw [m1]
    refine ⟨s2, ?_, f2, m1.trans m2, by rw [l2, l1], ?_⟩
    · simp only [plot, e1]
      exact e2
    · intro x' y' hx' hy'
      rw [p2 x' y' (by rw [hw]; exact hx') (by rw [hh]; exact hy'), p1 x' y' hx' hy']
      rfl

theorem foldl_pixelAfter_not_mem (mode x y : Nat) (calls : List (Nat × Nat × Nat)) (v : Bool)
    (h : ∀ c ∈ calls, ¬ (c.1 = x ∧ c.2.1 = y)) :
    calls.foldl (pixelAfter mode x y) v = v := by
  induction calls generalizing v with
  | nil => rfl
  | cons a rest ih =>
    rw [List.foldl_cons]
    have ha : pixelAfter mode x y v a = v := by
      unfold pixelAfter
      rw [if_neg (h a (List.mem_cons_self _ _))]
    rw [ha]
    exact ih v (fun c hc => h c (List.mem_cons_of_mem _ hc))

theorem foldl_pixelAfter_unique (mode x y : Nat) (calls : List (Nat × Nat × Nat)) (v : Bool)
    (c0 : Nat × Nat × Nat)
    (hnd : (calls.map (fun c => (c.1, c.2.1))).Nodup) (hc0 : c0 ∈ calls)
    (hxy : c0.1 = x ∧ c0.2.1 = y) :
    calls.foldl (pixelAfter mode x y) v = pixelAfter mode x y v c0 := by
  induction calls generalizing v with
  | nil => exact absurd hc0 (List.not_mem_nil _)
  | cons a rest ih =>
    rw [List.map_cons, List.nodup_cons] at hnd
    rw [List.foldl_cons]
    rcases List.mem_cons.mp hc0 with rfl | hmem
    · apply foldl_pixelAfter_not_mem
      intro c hc hcxy
      apply hnd.1
      rw [List.mem_map]
      exact ⟨c, hc, by rw [hcxy.1, hcxy.2, hxy.1, hxy.2]⟩
    · have ha : pixelAfter mode x y v a = v := by
        unfold pixelAfter
        rw [if_neg]
        intro haxy
        apply hnd.1
        rw [List.mem_map]
        exact ⟨c0, hmem, by rw [haxy.1, haxy.2, hxy.1, hxy.2]⟩
      rw [ha]
      exact ih v hnd.2 hmem

theorem plot_append (a b : List (Nat × Nat × Nat)) (mode : Nat) :
    ∀ s : SSD1320, s.plot (a ++ b) mode = (s.plot a mode).bind (fun s1 => s1.plot b mode) := by
  induction a with
  | nil => intro s; rfl
  | cons c rest ih =>
    intro s
    obtain ⟨x, y, color⟩ := c
    simp only [List.cons_append, plot]
    cases s.setPixel x y color mode with
    | none => rfl
    | some s1 => exact ih s1

theorem mem_grid (x y w h a b : Nat) :
    (a, b) ∈ grid x y w h ↔ (x ≤ a ∧ a < x + w) ∧ (y ≤ b ∧ b < y + h) := by
  unfold grid
  simp only [List.mem_flatMap, List.mem_range, List.mem_map, Prod.mk.injEq]
  constructor
  · rintro ⟨k, hk, i, hi, rfl, rfl⟩
    omega
  · rintro ⟨⟨h1, h2⟩, h3, h4⟩
    exact ⟨a - x, by omega, b - y, by omega, by omega, by omega⟩

theorem nodup_grid (x y w h : Nat) : (grid x y w h).Nodup := by
  unfold grid
  rw [List.nodup_flatMap]
  constructor
  · intro k _
    apply List.Nodup.map _ (List.nodup_range h)
    intro i j hij
    simp only [Prod.mk.injEq] at hij
    omega
  · apply List.Pairwise.imp _ (List.nodup_range w)
    intro k l hkl
    unfold Function.onFun List.Disjoint
    intro p hp1 hp2
    simp only [List.mem_map, List.mem_range] at hp1 hp2
    obtain ⟨i, _, rfl⟩ := hp1
    obtain ⟨j, _, hj⟩ := hp2
    simp only [Prod.mk.injEq] at hj
    omega

/-- The pixels after a sequence of calls no two of which are at the same place. -/
theorem plot_calls_pixels (s : SSD1320) (hf : Fits s) (calls : List (Nat × Nat × Nat))
    (mode : Nat) (hnd : (calls.map (fun c => (c.1, c.2.1))).Nodup) :
    ∃ s1, s.plot calls mode = some s1 ∧ Fits s1 ∧ OnlyMemory s s1 ∧
      s1.screenMemory.length = s.screenMemory.length ∧
      ∀ a b, a < s._displayWidth → b < s._displayHeight →
        (∀ color, (a, b, color) ∈ calls →
          s1.getPixel a b = (if mode = XOR then !s.getPixel a b else decide (color = WHITE))) ∧
        ((∀ color, (a, b, color) ∉ calls) → s1.getPixel a b = s.getPixel a b) := by
  obtain ⟨s1, e, f1, m1, l1, p1⟩ := getPixel_plot calls mode s hf
  refine ⟨s1, e, f1, m1, l1, ?_⟩
  intro a b ha hb
  rw [p1 a b ha hb]
  constructor
  · intro color hmem
    rw [foldl_pixelAfter_unique mode a b calls _ (a, b, color) hnd hmem ⟨rfl, rfl⟩]
    unfold pixelAfter
    rw [if_pos ⟨rfl, rfl⟩]
  · intro hno
    apply foldl_pixelAfter_not_mem
    intro c hc hcab
    apply hno c.2.2
    obtain ⟨c1, c2, c3⟩ := c
    simp only at hcab
    rw [← hcab.1, ← hcab.2]
    exact hc

/-- The pixels after plotting each point of a duplicate-free list once with one
colour. -/
theorem plot_points_pixels (s : SSD1320) (hf : Fits s) (pts : List (Nat × Nat))
    (color mode : Nat) (hnd : pts.Nodup) :
    ∃ s1, s.plot (pts.map (fun p => (p.1, p.2, color))) mode = some s1 ∧ Fits s1 ∧
      OnlyMemory s s1 ∧ s1.screenMemory.length = s.screenMemory.length ∧
      ∀ a b, a < s._displayWidth → b < s._displayHeight →
        s1.getPixel a b
          = if (a, b) ∈ pts then (if mode = XOR then !s.getPixel a b else decide (color = WHITE))
            else s.getPixel a b := by
  have hnd' : ((pts.map (fun p => (p.1, p.2, color))).map (fun c => (c.1, c.2.1))).Nodup := by
    rw [List.map_map]
    have : ((fun c : Nat × Nat × Nat => (c.1, c.2.1)) ∘ fun p : Nat × Nat => (p.1, p.2, color))
        = id := by
      funext p; rfl
    rw [this, List.map_id]
    exact hnd
  obtain ⟨s1, e, f1, m1, l1, p1⟩ := plot_calls_pixels s hf _ mode hnd'
  refine ⟨s1, e, f1, m1, l1, ?_⟩
  intro a b ha hb
  obtain ⟨h1, h2⟩ := p1 a b ha hb
  by_cases hm : (a, b) ∈ pts
  · rw [if_pos hm]
    apply h1 color
    rw [List.mem_map]
    exact ⟨(a, b), hm, rfl⟩
  · rw [if_neg hm]
    apply h2
    intro c hc
    rw [List.mem_map] at hc
    obtain ⟨p, hp, hpe⟩ := hc
    simp only [Prod.mk.injEq] at hpe
    apply hm
    have : p = (a, b) := Prod.ext hpe.1 hpe.2.1
    rw [← this]
    exact hp

theorem lineV_eq_plot (s : SSD1320) (x y h color mode : Nat) (hx : x ≤ 255)
    (hh : y + h ≤ 255) :
    s.lineV x y h color mode = s.plot ((List.range h).map (fun i => (x, y + i, color))) mode := by
  unfold lineV line
  have huy : u8 ((y : Int) + h) = y + h := by unfold u8; omega
  rw [huy]
  by_cases hz : h = 0
  · subst hz
    rw [Nat.add_zero, linePoints_horizontal x x y (le_refl x) hx]
    simp
  · rw [linePoints_vertical x y (y + h) (by omega) hh, Nat.add_sub_cancel_left]
    simp only [List.map_map]
    rfl

theorem lineH_eq_plot (s : SSD1320) (x y w color mode : Nat) (hw : x + w ≤ 255) :
    s.lineH x y w color mode = s.plot ((List.range w).map (fun i => (x + i, y, color))) mode := by
  unfold lineH line
  have hux : u8 ((x : Int) + w) = x + w := by unfold u8; omega
  rw [hux, linePoints_horizontal x (x + w) y (by omega) hw, Nat.add_sub_cancel_left]
  simp only [List.map_map]
  rfl

theorem foldlM_plot (l : List α) (f : SSD1320 → α → Option SSD1320)
    (g : α → List (Nat × Nat × Nat)) (mode : Nat)
    (h : ∀ k ∈ l, ∀ s, f s k = s.plot (g k) mode) :
    ∀ s : SSD1320, l.foldlM f s = s.plot (l.flatMap g) mode := by
  induction l with
  | nil => intro s; rfl
  | cons k rest ih =>
    intro s
    rw [List.foldlM_cons, List.flatMap_cons, plot_append, h k (List.mem_cons_self _ _) s]
    cases s.plot (g k) mode with
    | none => rfl
    | some s1 => exact ih (fun k hk => h k (List.mem_cons_of_mem _ hk)) s1

theorem rectFill_eq_plot (s : SSD1320) (x y w h color mode : Nat)
    (hw : x + w ≤ 256) (hh : y + h ≤ 255) :
    s.rectFill x y w h color mode
      = s.plot ((grid x y w h).map (fun p => (p.1, p.2, color))) mode := by
  unfold rectFill
  rw [foldlM_plot (List.range w) _
    (fun k => (List.range h).map (fun i => (x + k, y + i, color))) mode]
  · unfold grid
    rw [List.map_flatMap]
    simp only [List.map_map]
    rfl
  · intro k hk t
    have hk' : k < w := List.mem_range.mp hk
    have hu : u8 ((x : Int) + k) = x + k := by unfold u8; omega
    rw [hu, lineV_eq_plot t (x + k) y h color mode (by omega) hh]

/-- An in-bounds `setPixel` whose byte lies outside `screenMemory` has no
defined result. -/
theorem setPixel_beyond (s : SSD1320) (x y color mode : Nat)
    (hx : x < s._displayWidth) (hy : y < s._displayHeight)
    (hb : s.screenMemory.length ≤ y * (s._displayWidth / 8) + x / 8) :
    s.setPixel x y color mode = none := by
  unfold setPixel
  rw [if_neg (by omega)]
  simp only [List.getElem?_eq_none hb]

/-- C19 (amended): for `x + w ≤ 256` and `y + h ≤ 255`, `rectFill` makes exactly
the `setPixel` calls of the points of `[x, x+w) × [y, y+h)`, column by column,
each point once; and provided the width is a multiple of 8 and
`width * height / 8` does not exceed the size of `screenMemory`, it returns,
changes nothing but `screenMemory`, and afterwards every in-bounds pixel of the
region is inverted under `XOR` and otherwise equals the colour (ON for
`WHITE`), while every in-bounds pixel outside the region is unchanged. -/
theorem rectFill_spec (s : SSD1320) (x y w h color mode : Nat)
    (hw : x + w ≤ 256) (hh : y + h ≤ 255) :
    s.rectFill x y w h color mode
        = s.plot ((grid x y w h).map (fun p => (p.1, p.2, color))) mode ∧
      (grid x y w h).Nodup ∧
      (∀ a b, (a, b) ∈ grid x y w h ↔ (x ≤ a ∧ a < x + w) ∧ (y ≤ b ∧ b < y + h)) ∧
      (Fits s → ∃ s1, s.rectFill x y w h color mode = some s1 ∧ OnlyMemory s s1 ∧
        s1.screenMemory.length = s.screenMemory.length ∧
        ∀ a b, a < s._displayWidth → b < s._displayHeight →
          s1.getPixel a b
            = if (x ≤ a ∧ a < x + w) ∧ (y ≤ b ∧ b < y + h) then
                (if mode = XOR then !s.getPixel a b else decide (color = WHITE))
              else s.getPixel a b) := by
  refine ⟨rectFill_eq_plot s x y w h color mode hw hh, nodup_grid x y w h,
    fun a b => mem_grid x y w h a b, ?_⟩
  intro hf
  obtain ⟨s1, e, _, m1, l1, p1⟩ :=
    plot_points_pixels s hf (grid x y w h) color mode (nodup_grid x y w h)
  refine ⟨s1, ?_, m1, l1, ?_⟩
  · rw [rectFill_eq_plot s x y w h color mode hw hh]
    exact e
  · intro a b ha hb
    rw [p1 a b ha hb]
    by_cases hm : (a, b) ∈ grid x y w h
    · rw [if_pos hm, if_pos ((mem_grid x y w h a b).mp hm)]
    · rw [if_neg hm, if_neg (fun hc => hm ((mem_grid x y w h a b).mpr hc))]

theorem rectFill_spec_witness :
    (10 + 3 ≤ 256 ∧ 4 + 2 ≤ 255) ∧
      (zeroed 160 32).rectFill 10 4 3 2 WHITE NORM
        = (zeroed 160 32).plot ((grid 10 4 3 2).map (fun p => (p.1, p.2, WHITE))) NORM ∧
      (grid 10 4 3 2).Nodup ∧
      (∀ a b, (a, b) ∈ grid 10 4 3 2 ↔ (10 ≤ a ∧ a < 10 + 3) ∧ (4 ≤ b ∧ b < 4 + 2)) ∧
      (Fits (zeroed 160 32) → ∃ s1, (zeroed 160 32).rectFill 10 4 3 2 WHITE NORM = some s1 ∧
        OnlyMemory (zeroed 160 32) s1 ∧
        s1.screenMemory.length = (zeroed 160 32).screenMemory.length ∧
        ∀ a b, a < (zeroed 160 32)._displayWidth → b < (zeroed 160 32)._displayHeight →
          s1.getPixel a b
            = if (10 ≤ a ∧ a < 10 + 3) ∧ (4 ≤ b ∧ b < 4 + 2) then
                (if NORM = XOR then !(zeroed 160 32).getPixel a b else decide (WHITE = WHITE))
              else (zeroed 160 32).getPixel a b) :=
  ⟨by decide, rectFill_spec (zeroed 160 32) 10 4 3 2 WHITE NORM (by decide) (by decide)⟩

/-- C19 as stated fails: on a 256 × 64 display the pixel `(0, 20)` is in bounds
and `rectFill(0, 20, 1, 1, WHITE, NORM)` plots it, but its byte `640` lies
outside the 640 bytes of `screenMemory`: the call has no defined result, so the
pixel is not ON afterwards. -/
theorem rectFill_outside_buffer :
    (0 + 1 ≤ 256 ∧ 20 + 1 ≤ 255) ∧
      (0 < (zeroed 256 64)._displayWidth ∧ 20 < (zeroed 256 64)._displayHeight) ∧
      (zeroed 256 64).rectFill 0 20 1 1 WHITE NORM = none := by
  refine ⟨by decide, by decide, ?_⟩
  rw [rectFill_eq_plot (zeroed 256 64) 0 20 1 1 WHITE NORM (by decide) (by decide)]
  have hg : (grid 0 20 1 1).map (fun p => (p.1, p.2, WHITE)) = [(0, 20, WHITE)] := by decide
  have hp : (zeroed 256 64).setPixel 0 20 WHITE NORM = none := by
    apply setPixel_beyond
    · decide
    · decide
    · rw [show (zeroed 256 64).screenMemory.length = 640 from List.length_replicate 640 0]
      decide
  rw [hg]
  unfold plot
  rw [hp]

theorem rect_eq_plot (s : SSD1320) (x y w h color mode : Nat) (hw1 : 1 ≤ w) (hh2 : 2 ≤ h)
    (hw : x + w ≤ 255) (hh : y + h ≤ 255) :
    s.rect x y w h color mode
      = s.plot ((rectPoints x y w h).map (fun p => (p.1, p.2, color))) mode := by
  have e1 : u8 ((y : Int) + h - 1) = y + h - 1 := by unfold u8; omega
  have e2 : u8 ((h : Int) - 2) = h - 2 := by unfold u8; omega
  have e3 : u8 ((y : Int) + 1) = y + 1 := by unfold u8; omega
  have e4 : u8 ((x : Int) + w - 1) = x + w - 1 := by unfold u8; omega
  have hA : ∀ (f : Nat → Nat × Nat) (n : Nat),
      ((List.range n).map f).map (fun p => (p.1, p.2, color))
        = (List.range n).map (fun i => ((f i).1, (f i).2, color)) := by
    intro f n
    rw [List.map_map]
    rfl
  unfold rect rectPoints
  rw [e1, e2, e3, e4]
  simp only [List.map_append, plot_append, hA]
  rw [lineH_eq_plot s x y w color mode hw]
  cases h1 : s.plot ((List.range w).map (fun i => (x + i, y, color))) mode with
  | none => rfl
  | some s1 =>
    simp only [Option.some_bind]
    rw [lineH_eq_plot s1 x (y + h - 1) w color mode hw]
    cases h2 : s1.plot ((List.range w).map (fun i => (x + i, y + h - 1, color))) mode with
    | none => rfl
    | some s2 =>
      simp only [Option.some_bind]
      by_cases ht : h - 2 < 1
      · rw [if_pos ht]
        have h0 : h - 2 = 0 := by omega
        rw [h0]
        rfl
      · rw [if_neg ht, lineV_eq_plot s2 x (y + 1) (h - 2) color mode (by omega) (by omega)]
        cases h3 : s2.plot ((List.range (h - 2)).map (fun i => (x, y + 1 + i, color))) mode with
        | none => rfl
        | some s3 =>
          simp only [Option.some_bind]
          rw [lineV_eq_plot s3 (x + w - 1) (y + 1) (h - 2) color mode (by omega) (by omega)]

theorem mem_rectPoints (x y w h a b : Nat) (hw1 : 1 ≤ w) (hh2 : 2 ≤ h) :
    (a, b) ∈ rectPoints x y w h ↔
      ((x ≤ a ∧ a < x + w) ∧ (y ≤ b ∧ b < y + h)) ∧
        (a = x ∨ a = x + w - 1 ∨ b = y ∨ b = y + h - 1) := by
  unfold rectPoints
  simp only [List.mem_append, List.mem_map, List.mem_range, Prod.mk.injEq]
  constructor
  · rintro (⟨i, hi, h1, h2⟩ | ⟨i, hi, h1, h2⟩ | ⟨i, hi, h1, h2⟩ | ⟨i, hi, h1, h2⟩) <;> omega
  · rintro ⟨⟨⟨h1, h2⟩, h3, h4⟩, h5⟩
    by_cases hb1 : b = y
    · exact Or.inl ⟨a - x, by omega, by omega, by omega⟩
    · by_cases hb2 : b = y + h - 1
      · exact Or.inr (Or.inl ⟨a - x, by omega, by omega, by omega⟩)
      · by_cases ha1 : a = x
        · exact Or.inr (Or.inr (Or.inl ⟨b - (y + 1), by omega, by omega, by omega⟩))
        · exact Or.inr (Or.inr (Or.inr ⟨b - (y + 1), by omega, by omega, by omega⟩))

theorem nodup_rectPoints (x y w h : Nat) (hw2 : 2 ≤ w) (hh2 : 2 ≤ h) :
    (rectPoints x y w h).Nodup := by
  unfold rectPoints
  have inj1 : ∀ (c : Nat), Function.Injective (fun i : Nat => (x + i, c)) := by
    intro c i j hij
    simp only [Prod.mk.injEq] at hij
    omega
  have inj2 : ∀ (c : Nat), Function.Injective (fun i : Nat => (c, y + 1 + i)) := by
    intro c i j hij
    simp only [Prod.mk.injEq] at hij
    omega
  rw [List.nodup_append, List.nodup_append, List.nodup_append]
  refine ⟨(List.nodup_range w).map (inj1 y),
    ⟨(List.nodup_range w).map (inj1 (y + h - 1)),
      ⟨(List.nodup_range _).map (inj2 x), (List.nodup_range _).map (inj2 (x + w - 1)), ?_⟩, ?_⟩,
    ?_⟩
  · intro p hp hq
    simp only [List.mem_map, List.mem_range] at hp hq
    obtain ⟨i, hi, rfl⟩ := hp
    obtain ⟨j, hj, hq⟩ := hq
    simp only [Prod.mk.injEq] at hq
    omega
  · intro p hp hq
    simp only [List.mem_append, List.mem_map, List.mem_range] at hp hq
    obtain ⟨i, hi, rfl⟩ := hp
    rcases hq with ⟨j, hj, hq⟩ | ⟨j, hj, hq⟩ <;> simp only [Prod.mk.injEq] at hq <;> omega
  · intro p hp hq
    simp only [List.mem_append, List.mem_map, List.mem_range] at hp hq
    obtain ⟨i, hi, rfl⟩ := hp
    rcases hq with ⟨j, hj, hq⟩ | ⟨j, hj, hq⟩ | ⟨j, hj, hq⟩ <;>
      simp only [Prod.mk.injEq] at hq <;> omega
theorem plot_cons_none (s : SSD1320) (x y color mode : Nat) (rest : List (Nat × Nat × Nat))
    (h : s.setPixel x y color mode = none) : s.plot ((x, y, color) :: rest) mode = none := by
  unfold plot
  rw [h]

/-- C20 (amended): for `w ≥ 2`, `h ≥ 2`, `x + w ≤ 255` and `y + h ≤ 255`, `rect`
makes exactly the `setPixel` calls of the outline points of
`[x, x+w) × [y, y+h)`, each point once (corners included) and no other point;
and provided the width is a multiple of 8 and `width * height / 8` does not
exceed the size of `screenMemory`, it returns, changes nothing but
`screenMemory`, and afterwards every in-bounds outline pixel is inverted under
`XOR` (equals the colour otherwise) and every other in-bounds pixel is
unchanged. -/
theorem rect_spec (s : SSD1320) (x y w h color mode : Nat) (hw2 : 2 ≤ w) (hh2 : 2 ≤ h)
    (hw : x + w ≤ 255) (hh : y + h ≤ 255) :
    s.rect x y w h color mode
        = s.plot ((rectPoints x y w h).map (fun p => (p.1, p.2, color))) mode ∧
      (rectPoints x y w h).Nodup ∧
      (∀ a b, (a, b) ∈ rectPoints x y w h ↔
        ((x ≤ a ∧ a < x + w) ∧ (y ≤ b ∧ b < y + h)) ∧
          (a = x ∨ a = x + w - 1 ∨ b = y ∨ b = y + h - 1)) ∧
      (Fits s → ∃ s1, s.rect x y w h color mode = some s1 ∧ OnlyMemory s s1 ∧
        s1.screenMemory.length = s.screenMemory.length ∧
        ∀ a b, a < s._displayWidth → b < s._displayHeight →
          s1.getPixel a b
            = if ((x ≤ a ∧ a < x + w) ∧ (y ≤ b ∧ b < y + h)) ∧
                  (a = x ∨ a = x + w - 1 ∨ b = y ∨ b = y + h - 1) then
                (if mode = XOR then !s.getPixel a b else decide (color = WHITE))
              else s.getPixel a b) := by
  have hw1 : 1 ≤ w := by omega
  refine ⟨rect_eq_plot s x y w h color mode hw1 hh2 hw hh, nodup_rectPoints x y w h hw2 hh2,
    fun a b => mem_rectPoints x y w h a b hw1 hh2, ?_⟩
  intro hf
  obtain ⟨s1, e, _, m1, l1, p1⟩ :=
    plot_points_pixels s hf (rectPoints x y w h) color mode (nodup_rectPoints x y w h hw2 hh2)
  refine ⟨s1, ?_, m1, l1, ?_⟩
  · rw [rect_eq_plot s x y w h color mode hw1 hh2 hw hh]
    exact e
  · intro a b ha hb
    rw [p1 a b ha hb]
    by_cases hm : (a, b) ∈ rectPoints x y w h
    · rw [if_pos hm, if_pos ((mem_rectPoints x y w h a b hw1 hh2).mp hm)]
    · rw [if_neg hm, if_neg (fun hc => hm ((mem_rectPoints x y w h a b hw1 hh2).mpr hc))]

theorem rect_spec_witness :
    (2 ≤ 4 ∧ 2 ≤ 3 ∧ 10 + 4 ≤ 255 ∧ 5 + 3 ≤ 255) ∧
      (zeroed 160 32).rect 10 5 4 3 WHITE XOR
        = (zeroed 160 32).plot ((rectPoints 10 5 4 3).map (fun p => (p.1, p.2, WHITE))) XOR ∧
      (rectPoints 10 5 4 3).Nodup ∧
      (∀ a b, (a, b) ∈ rectPoints 10 5 4 3 ↔
        ((10 ≤ a ∧ a < 10 + 4) ∧ (5 ≤ b ∧ b < 5 + 3)) ∧
          (a = 10 ∨ a = 10 + 4 - 1 ∨ b = 5 ∨ b = 5 + 3 - 1)) ∧
      (Fits (zeroed 160 32) → ∃ s1, (zeroed 160 32).rect 10 5 4 3 WHITE XOR = some s1 ∧
        OnlyMemory (zeroed 160 32) s1 ∧
        s1.screenMemory.length = (zeroed 160 32).screenMemory.length ∧
        ∀ a b, a < (zeroed 160 32)._displayWidth → b < (zeroed 160 32)._displayHeight →
          s1.getPixel a b
            = if ((10 ≤ a ∧ a < 10 + 4) ∧ (5 ≤ b ∧ b < 5 + 3)) ∧
                  (a = 10 ∨ a = 10 + 4 - 1 ∨ b = 5 ∨ b = 5 + 3 - 1) then
                (if XOR = XOR then !(zeroed 160 32).getPixel a b else decide (WHITE = WHITE))
              else (zeroed 160 32).getPixel a b) :=
  ⟨by decide, rect_spec (zeroed 160 32) 10 5 4 3 WHITE XOR (by decide) (by decide) (by decide)
    (by decide)⟩

/-- C20 as stated fails: on a 256 × 64 display the outline pixel `(0, 20)` of
`rect(0, 20, 2, 2, WHITE, XOR)` is in bounds, but its byte `640` lies outside
the 640 bytes of `screenMemory`: the call has no defined result, so the pixel
is not inverted. -/
theorem rect_outside_buffer :
    (2 ≤ 2 ∧ 2 ≤ 2 ∧ 0 + 2 ≤ 255 ∧ 20 + 2 ≤ 255) ∧
      (0 < (zeroed 256 64)._displayWidth ∧ 20 < (zeroed 256 64)._displayHeight) ∧
      (0, 20) ∈ rectPoints 0 20 2 2 ∧
      (zeroed 256 64).rect 0 20 2 2 WHITE XOR = none := by
  refine ⟨by decide, by decide, by decide, ?_⟩
  rw [rect_eq_plot (zeroed 256 64) 0 20 2 2 WHITE XOR (by decide) (by decide) (by decide)
    (by decide)]
  have hg : (rectPoints 0 20 2 2).map (fun p => (p.1, p.2, WHITE))
      = (0, 20, WHITE) :: [(1, 20, WHITE), (0, 21, WHITE), (1, 21, WHITE)] := by decide
  rw [hg]
  apply plot_cons_none
  apply setPixel_beyond
  · decide
  · decide
  · rw [show (zeroed 256 64).screenMemory.length = 640 from List.length_replicate 640 0]
    decide

theorem circleOctants_eq (x0 y0 : Nat) (x y : Int) :
    circleOctants x0 y0 x y
      = (octantOffsets (x, y)).map (fun o => (u8 ((x0 : Int) + o.1), u8 ((y0 : Int) + o.2))) := by
  unfold circleOctants octantOffsets
  simp only [List.map_cons, List.map_nil, sub_eq_add_neg]

theorem circleLoop_eq (x0 y0 : Nat) : ∀ (fuel : Nat) (f ddF_x ddF_y x y : Int),
    circleLoop fuel x0 y0 f ddF_x ddF_y x y
      = (circleXY fuel f ddF_x ddF_y x y).map
          (fun l => l.flatMap (fun p => circleOctants x0 y0 p.1 p.2)) := by
  intro fuel
  induction fuel with
  | zero => intro f ddF_x ddF_y x y; rfl
  | succ n ih =>
    intro f ddF_x ddF_y x y
    unfold circleLoop circleXY
    by_cases hxy : x < y
    · rw [if_pos hxy, if_pos hxy]
      simp only []
      rw [ih]
      cases circleXY n (i8 ((if f ≥ 0 then i8 (f + i8 (ddF_y + 2)) else f) + i8 (ddF_x + 2)))
        (i8 (ddF_x + 2)) (if f ≥ 0 then i8 (ddF_y + 2) else ddF_y) (i8 (x + 1))
        (if f ≥ 0 then i8 (y - 1) else y) with
      | none => rfl
      | some l => rfl
    · rw [if_neg hxy, if_neg hxy]
      rfl

theorem circleXY_mono : ∀ (fuel k : Nat) (f ddF_x ddF_y x y : Int) (l : List (Int × Int)),
    circleXY fuel f ddF_x ddF_y x y = some l → circleXY (fuel + k) f ddF_x ddF_y x y = some l := by
  intro fuel
  induction fuel with
  | zero =>
    intro k f ddF_x ddF_y x y l h
    exact Option.noConfusion h
  | succ n ih =>
    intro k f ddF_x ddF_y x y l h
    rw [show n + 1 + k = (n + k) + 1 from by omega]
    unfold circleXY at h ⊢
    by_cases hxy : x < y
    · rw [if_pos hxy] at h ⊢
      simp only [] at h ⊢
      cases hr : circleXY n (i8 ((if f ≥ 0 then i8 (f + i8 (ddF_y + 2)) else f) + i8 (ddF_x + 2)))
        (i8 (ddF_x + 2)) (if f ≥ 0 then i8 (ddF_y + 2) else ddF_y) (i8 (x + 1))
        (if f ≥ 0 then i8 (y - 1) else y) with
      | none => rw [hr] at h; exact Option.noConfusion h
      | some l1 =>
        rw [hr] at h
        rw [ih k _ _ _ _ _ l1 hr]
        exact h
    · rw [if_neg hxy] at h ⊢
      exact h

theorem circleWide_mono : ∀ (fuel k : Nat) (f ddF_x ddF_y x y : Int) (l : List Int),
    circleWide fuel f ddF_x ddF_y x y = some l →
      circleWide (fuel + k) f ddF_x ddF_y x y = some l := by
  intro fuel
  induction fuel with
  | zero =>
    intro k f ddF_x ddF_y x y l h
    exact Option.noConfusion h
  | succ n ih =>
    intro k f ddF_x ddF_y x y l h
    rw [show n + 1 + k = (n + k) + 1 from by omega]
    unfold circleWide at h ⊢
    by_cases hxy : x < y
    · rw [if_pos hxy] at h ⊢
      simp only [] at h ⊢
      cases hr : circleWide n (i8 ((if f ≥ 0 then i8 (f + i8 (ddF_y + 2)) else f) + i8 (ddF_x + 2)))
        (i8 (ddF_x + 2)) (if f ≥ 0 then i8 (ddF_y + 2) else ddF_y) (i8 (x + 1))
        (if f ≥ 0 then i8 (y - 1) else y) with
      | none => rw [hr] at h; exact Option.noConfusion h
      | some l1 =>
        rw [hr] at h
        rw [ih k _ _ _ _ _ l1 hr]
        exact h
    · rw [if_neg hxy] at h ⊢
      exact h

theorem circlePoints_eq (fuel x0 y0 radius : Nat) (hx0 : x0 ≤ 255) (hy0 : y0 ≤ 255) :
    circlePoints fuel x0 y0 radius
      = (circleOffsets fuel radius).map
          (fun offs => offs.map (fun o => (u8 ((x0 : Int) + o.1), u8 ((y0 : Int) + o.2)))) := by
  have ex : u8 (x0 : Int) = x0 := by unfold u8; omega
  have ey : u8 (y0 : Int) = y0 := by unfold u8; omega
  unfold circlePoints circleOffsets
  simp only []
  rw [circleLoop_eq]
  cases circleXY fuel (i8 (1 - (radius : Int))) 1 (i8 (-2 * (radius : Int))) 0 (i8 radius) with
  | none => rfl
  | some l =>
    simp only [Option.map_some', List.map_append, List.map_cons, List.map_nil, List.map_flatMap,
      circleOctants_eq, add_zero, sub_eq_add_neg, ex, ey]

theorem octantOffsets_closed (p o : Int × Int) (h : o ∈ octantOffsets p) :
    (-o.1, o.2) ∈ octantOffsets p ∧ (o.1, -o.2) ∈ octantOffsets p ∧
      (-o.1, -o.2) ∈ octantOffsets p ∧ (o.2, o.1) ∈ octantOffsets p ∧
      (-o.2, o.1) ∈ octantOffsets p ∧ (o.2, -o.1) ∈ octantOffsets p ∧
      (-o.2, -o.1) ∈ octantOffsets p := by
  obtain ⟨a, b⟩ := p
  unfold octantOffsets at h ⊢
  simp only [List.mem_cons, List.mem_singleton, List.not_mem_nil, or_false] at h
  rcases h with rfl | rfl | rfl | rfl | rfl | rfl | rfl | rfl <;> simp
theorem circle_small_radius : ∀ r : Nat, r < 64 →
    (circleXY 64 (i8 (1 - (r : Int))) 1 (i8 (-2 * (r : Int))) 0 (i8 r)).isSome = true ∧
    (circleWide 64 (i8 (1 - (r : Int))) 1 (i8 (-2 * (r : Int))) 0 (i8 r)).isSome = true ∧
    (∀ p ∈ (circleXY 64 (i8 (1 - (r : Int))) 1 (i8 (-2 * (r : Int))) 0 (i8 r)).getD [],
      Int.natAbs (p.1 * p.1 + p.2 * p.2 - r * r) ≤ r) ∧
    (∀ v ∈ [1 - (r : Int), -2 * (r : Int), (r : Int)]
        ++ (circleWide 64 (i8 (1 - (r : Int))) 1 (i8 (-2 * (r : Int))) 0 (i8 r)).getD [],
      -128 ≤ v ∧ v ≤ 127) := by
  decide
theorem octantOffsets_norm (p o : Int × Int) (h : o ∈ octantOffsets p) :
    o.1 * o.1 + o.2 * o.2 = p.1 * p.1 + p.2 * p.2 := by
  obtain ⟨a, b⟩ := p
  unfold octantOffsets at h
  simp only [List.mem_cons, List.mem_singleton, List.not_mem_nil, or_false] at h
  rcases h with rfl | rfl | rfl | rfl | rfl | rfl | rfl | rfl <;> simp only [] <;> ring

theorem cardinal_closed (r : Int) (o : Int × Int)
    (h : o ∈ [((0 : Int), r), (0, -r), (r, 0), (-r, 0)]) :
    (-o.1, o.2) ∈ [((0 : Int), r), (0, -r), (r, 0), (-r, 0)] ∧
      (o.1, -o.2) ∈ [((0 : Int), r), (0, -r), (r, 0), (-r, 0)] ∧
      (-o.1, -o.2) ∈ [((0 : Int), r), (0, -r), (r, 0), (-r, 0)] ∧
      (o.2, o.1) ∈ [((0 : Int), r), (0, -r), (r, 0), (-r, 0)] ∧
      (-o.2, o.1) ∈ [((0 : Int), r), (0, -r), (r, 0), (-r, 0)] ∧
      (o.2, -o.1) ∈ [((0 : Int), r), (0, -r), (r, 0), (-r, 0)] ∧
      (-o.2, -o.1) ∈ [((0 : Int), r), (0, -r), (r, 0), (-r, 0)] := by
  simp only [List.mem_cons, List.mem_singleton, List.not_mem_nil, or_false] at h
  rcases h with rfl | rfl | rfl | rfl <;> simp

/-- C24: for every radius `r ≤ 63` and every 8-bit centre, with at least 64 tests
of the loop condition allowed, `circle` returns the `setPixel` calls at
`(x0 + dx, y0 + dy)` modulo 256 for a list `offs` of integer offsets `(dx, dy)`
with `|dx² + dy² - r²| ≤ r`; the four cardinal offsets are in the list; the list
is closed under the eight symmetries; and every value assigned to an 8-bit
signed variable (`f`, `ddF_x`, `ddF_y`, `x`, `y`) lies in `[-128, 127]` before
it is narrowed. -/
theorem circle_spec (fuel r x0 y0 : Nat) (hr : r ≤ 63) (hfuel : 64 ≤ fuel)
    (hx0 : x0 ≤ 255) (hy0 : y0 ≤ 255) :
    ∃ (offs : List (Int × Int)) (wide : List Int),
      circleOffsets fuel r = some offs ∧
      circlePoints fuel x0 y0 r
        = some (offs.map (fun o => (u8 ((x0 : Int) + o.1), u8 ((y0 : Int) + o.2)))) ∧
      (∀ (s : SSD1320) (color mode : Nat),
        circle fuel s x0 y0 r color mode
          = s.plot ((offs.map (fun o => (u8 ((x0 : Int) + o.1), u8 ((y0 : Int) + o.2)))).map
              (fun p => (p.1, p.2, color))) mode) ∧
      (∀ o ∈ offs, Int.natAbs (o.1 * o.1 + o.2 * o.2 - (r : Int) * r) ≤ r) ∧
      (((0 : Int), (r : Int)) ∈ offs ∧ ((0 : Int), -(r : Int)) ∈ offs ∧
        ((r : Int), (0 : Int)) ∈ offs ∧ (-(r : Int), (0 : Int)) ∈ offs) ∧
      (∀ o ∈ offs, (-o.1, o.2) ∈ offs ∧ (o.1, -o.2) ∈ offs ∧ (-o.1, -o.2) ∈ offs ∧
        (o.2, o.1) ∈ offs ∧ (-o.2, o.1) ∈ offs ∧ (o.2, -o.1) ∈ offs ∧ (-o.2, -o.1) ∈ offs) ∧
      circleWide fuel (i8 (1 - (r : Int))) 1 (i8 (-2 * (r : Int))) 0 (i8 r) = some wide ∧
      (∀ v ∈ [1 - (r : Int), -2 * (r : Int), (r : Int)] ++ wide, -128 ≤ v ∧ v ≤ 127) := by
  obtain ⟨h1, h2, h3, h4⟩ := circle_small_radius r (by omega)
  obtain ⟨l, hl⟩ := Option.isSome_iff_exists.mp h1
  obtain ⟨w, hw⟩ := Option.isSome_iff_exists.mp h2
  rw [hl, Option.getD_some] at h3
  rw [hw, Option.getD_some] at h4
  obtain ⟨k, rfl⟩ : ∃ k, fuel = 64 + k := ⟨fuel - 64, by omega⟩
  have hl1 := circleXY_mono 64 k _ _ _ _ _ l hl
  have hw1 := circleWide_mono 64 k _ _ _ _ _ w hw
  have hoff : circleOffsets (64 + k) r
      = some ([((0 : Int), (r : Int)), (0, -(r : Int)), ((r : Int), 0), (-(r : Int), 0)]
          ++ l.flatMap octantOffsets) := by
    unfold circleOffsets
    rw [hl1]
    rfl
  have hpts := circlePoints_eq (64 + k) x0 y0 r hx0 hy0
  rw [hoff] at hpts
  refine ⟨_, w, hoff, hpts, ?_, ?_, ?_, ?_, hw1, h4⟩
  · intro s color mode
    unfold circle
    rw [hpts]
    rfl
  · intro o ho
    rw [List.mem_append] at ho
    rcases ho with ho | ho
    · simp only [List.mem_cons, List.mem_singleton, List.not_mem_nil, or_false] at ho
      rcases ho with rfl | rfl | rfl | rfl <;> simp
    · rw [List.mem_flatMap] at ho
      obtain ⟨p, hp, hop⟩ := ho
      rw [octantOffsets_norm p o hop]
      exact h3 p hp
  · simp
  · intro o ho
    rw [List.mem_append] at ho
    rcases ho with ho | ho
    · have hc := cardinal_closed r o ho
      exact ⟨List.mem_append_left _ hc.1, List.mem_append_left _ hc.2.1,
        List.mem_append_left _ hc.2.2.1, List.mem_append_left _ hc.2.2.2.1,
        List.mem_append_left _ hc.2.2.2.2.1, List.mem_append_left _ hc.2.2.2.2.2.1,
        List.mem_append_left _ hc.2.2.2.2.2.2⟩
    · rw [List.mem_flatMap] at ho
      obtain ⟨p, hp, hop⟩ := ho
      have hc := octantOffsets_closed p o hop
      have hm : ∀ q, q ∈ octantOffsets p →
          q ∈ [((0 : Int), (r : Int)), (0, -(r : Int)), ((r : Int), 0), (-(r : Int), 0)]
            ++ l.flatMap octantOffsets :=
        fun q hq => List.mem_append_right _ (List.mem_flatMap.mpr ⟨p, hp, hq⟩)
      exact ⟨hm _ hc.1, hm _ hc.2.1, hm _ hc.2.2.1, hm _ hc.2.2.2.1, hm _ hc.2.2.2.2.1,
        hm _ hc.2.2.2.2.2.1, hm _ hc.2.2.2.2.2.2⟩

theorem circle_spec_witness :
    (5 ≤ 63 ∧ 64 ≤ 64 ∧ 80 ≤ 255 ∧ 16 ≤ 255) ∧
    ∃ (offs : List (Int × Int)) (wide : List Int),
      circleOffsets 64 5 = some offs ∧
      circlePoints 64 80 16 5
        = some (offs.map (fun o => (u8 (((80 : Nat) : Int) + o.1), u8 (((16 : Nat) : Int) + o.2)))) ∧
      (∀ (s : SSD1320) (color mode : Nat),
        circle 64 s 80 16 5 color mode
          = s.plot ((offs.map (fun o => (u8 (((80 : Nat) : Int) + o.1),
              u8 (((16 : Nat) : Int) + o.2)))).map
              (fun p => (p.1, p.2, color))) mode) ∧
      (∀ o ∈ offs, Int.natAbs (o.1 * o.1 + o.2 * o.2 - ((5 : Nat) : Int) * (5 : Nat)) ≤ 5) ∧
      (((0 : Int), ((5 : Nat) : Int)) ∈ offs ∧ ((0 : Int), -((5 : Nat) : Int)) ∈ offs ∧
        (((5 : Nat) : Int), (0 : Int)) ∈ offs ∧ (-((5 : Nat) : Int), (0 : Int)) ∈ offs) ∧
      (∀ o ∈ offs, (-o.1, o.2) ∈ offs ∧ (o.1, -o.2) ∈ offs ∧ (-o.1, -o.2) ∈ offs ∧
        (o.2, o.1) ∈ offs ∧ (-o.2, o.1) ∈ offs ∧ (o.2, -o.1) ∈ offs ∧ (-o.2, -o.1) ∈ offs) ∧
      circleWide 64 (i8 (1 - ((5 : Nat) : Int))) 1 (i8 (-2 * ((5 : Nat) : Int))) 0
        (i8 (5 : Nat)) = some wide ∧
      (∀ v ∈ [1 - ((5 : Nat) : Int), -2 * ((5 : Nat) : Int), ((5 : Nat) : Int)] ++ wide,
        -128 ≤ v ∧ v ≤ 127) :=
  ⟨by decide, circle_spec 64 5 80 16 (by decide) (by decide) (by decide) (by decide)⟩

theorem flipByte_bit : ∀ b : Nat, b < 256 → ∀ j : Nat, j < 8 →
    decide ((flipByte b >>> j) &&& 0x01 ≠ 0) = b.testBit (7 - j) := by
  decide
theorem glyphColumn_eq (b px : Nat) (py : Int) (color : Nat) (hb : b < 256) :
    glyphColumn (flipByte b) px py color
      = (List.range 8).map (fun (j : Nat) =>
          (px, u8 (py + (j : Int)), if b.testBit (7 - j) then color
            else (if color = 0 then 1 else 0))) := by
  unfold glyphColumn
  apply List.map_congr_left
  intro j hj
  have hj8 : j < 8 := List.mem_range.mp hj
  have hbit := flipByte_bit b hb j hj8
  by_cases ht : b.testBit (7 - j) = true
  · rw [ht] at hbit
    rw [if_pos (of_decide_eq_true hbit), if_pos ht]
  · have hf : b.testBit (7 - j) = false := by
      cases hv : b.testBit (7 - j) with
      | true => exact absurd hv ht
      | false => rfl
    rw [hf] at hbit
    rw [if_neg (of_decide_eq_false hbit), hf]
    rfl

/-- The column loop of a single-row character ends exactly when more than
`fontWidth + 1 - i` tests are allowed, for `fontWidth ≤ 254`. -/
theorem drawCharCols_eq (font : Nat → Nat) (fw tempC x y color : Nat) (hfw : fw ≤ 254) :
    ∀ (n fuel i : Nat), i + n = fw + 1 →
      drawCharCols font fw tempC x y color fuel i
        = if n < fuel then
            some ((List.range' i n).flatMap (fun k =>
              glyphColumn
                (flipByte (if k = fw then 0 else font (FONTHEADERSIZE + tempC * fw + k) % 256))
                (u8 ((x : Int) + k)) y color))
          else none := by
  intro n
  induction n with
  | zero =>
    intro fuel i hi
    cases fuel with
    | zero => rfl
    | succ f =>
      unfold drawCharCols
      rw [if_neg (show ¬ i < fw + 1 from by omega), if_pos (show 0 < f + 1 from by omega)]
      rfl
  | succ n ih =>
    intro fuel i hi
    cases fuel with
    | zero => rfl
    | succ f =>
      unfold drawCharCols
      rw [if_pos (show i < fw + 1 from by omega)]
      simp only []
      rw [show (i + 1) % 256 = i + 1 from by omega, ih f (i + 1) (by omega)]
      by_cases hnf : n < f
      · rw [if_pos hnf, if_pos (show n + 1 < f + 1 from by omega)]
        rfl
      · rw [if_neg hnf, if_neg (show ¬ n + 1 < f + 1 from by omega)]
        rfl

/-- With `fontWidth = 255` the test `i < fontWidth + 1` of the 8-bit counter `i`
holds for ever: the column loop never ends. -/
theorem drawCharCols_diverges (font : Nat → Nat) (tempC x y color : Nat) :
    ∀ (fuel i : Nat), i < 256 → drawCharCols font 255 tempC x y color fuel i = none := by
  intro fuel
  induction fuel with
  | zero => intro i _; rfl
  | succ f ih =>
    intro i hi
    unfold drawCharCols
    rw [if_pos (show i < 255 + 1 from by omega)]
    simp only []
    rw [ih ((i + 1) % 256) (Nat.mod_lt _ (by norm_num))]
    rfl

theorem setPixel_xor_color (s : SSD1320) (x y c1 c2 : Nat) :
    s.setPixel x y c1 XOR = s.setPixel x y c2 XOR := by
  unfold setPixel
  simp only [if_true]

theorem plot_xor_congr : ∀ (calls1 calls2 : List (Nat × Nat × Nat)),
    calls1.map (fun c => (c.1, c.2.1)) = calls2.map (fun c => (c.1, c.2.1)) →
      ∀ s : SSD1320, s.plot calls1 XOR = s.plot calls2 XOR := by
  intro calls1
  induction calls1 with
  | nil =>
    intro calls2 h s
    cases calls2 with
    | nil => rfl
    | cons c rest => simp at h
  | cons c1 rest1 ih =>
    intro calls2 h s
    cases calls2 with
    | nil => simp at h
    | cons c2 rest2 =>
      obtain ⟨a1, b1, k1⟩ := c1
      obtain ⟨a2, b2, k2⟩ := c2
      simp only [List.map_cons, List.cons.injEq, Prod.mk.injEq] at h
      obtain ⟨⟨rfl, rfl⟩, hrest⟩ := h
      unfold plot
      rw [setPixel_xor_color s a1 b1 k1 k2]
      cases s.setPixel a1 b1 k2 XOR with
      | none => rfl
      | some s1 => exact ih rest2 hrest s1

theorem glyphColumn_coords (temp px : Nat) (py : Int) (color : Nat) :
    (glyphColumn temp px py color).map (fun c => (c.1, c.2.1))
      = (List.range 8).map (fun (j : Nat) => (px, u8 (py + (j : Int)))) := by
  unfold glyphColumn
  rw [List.map_map]
  apply List.map_congr_left
  intro j _
  simp only [Function.comp]
  split <;> rfl

theorem map_glyphColumn_coords (temp px : Nat) (py : Int) (color : Nat)
    (o : Option (List (Nat × Nat × Nat))) :
    (o.map (fun r => glyphColumn temp px py color ++ r)).map (List.map (fun c => (c.1, c.2.1)))
      = (o.map (List.map (fun c => (c.1, c.2.1)))).map
          (fun r => (List.range 8).map (fun (j : Nat) => (px, u8 (py + (j : Int)))) ++ r) := by
  cases o with
  | none => rfl
  | some l =>
    simp only [Option.map_some', List.map_append, glyphColumn_coords]

theorem drawCharCols_coords (font : Nat → Nat) (fw t1 t2 x y k1 k2 : Nat) :
    ∀ (fuel i : Nat),
      (drawCharCols font fw t1 x y k1 fuel i).map (List.map (fun c => (c.1, c.2.1)))
        = (drawCharCols font fw t2 x y k2 fuel i).map (List.map (fun c => (c.1, c.2.1))) := by
  intro fuel
  induction fuel with
  | zero => intro i; rfl
  | succ f ih =>
    intro i
    unfold drawCharCols
    by_cases hi : i < fw + 1
    · rw [if_pos hi, if_pos hi]
      simp only []
      rw [map_glyphColumn_coords, map_glyphColumn_coords, ih ((i + 1) % 256)]
    · rw [if_neg hi, if_neg hi]
theorem flatMap_congr_mem {α β : Type} (l : List α) (f g : α → List β)
    (h : ∀ a ∈ l, f a = g a) : l.flatMap f = l.flatMap g := by
  induction l with
  | nil => rfl
  | cons a rest ih =>
    rw [List.flatMap_cons, List.flatMap_cons, h a (List.mem_cons_self _ _),
      ih (fun b hb => h b (List.mem_cons_of_mem _ hb))]

/-- The pixels after plotting each point of a duplicate-free list once, with a
colour that depends on the point. -/
theorem plot_coloured_pixels (s : SSD1320) (hf : Fits s) (pts : List (Nat × Nat))
    (g : Nat → Nat → Nat) (mode : Nat) (hnd : pts.Nodup) :
    ∃ s1, s.plot (pts.map (fun p => (p.1, p.2, g p.1 p.2))) mode = some s1 ∧ Fits s1 ∧
      OnlyMemory s s1 ∧ s1.screenMemory.length = s.screenMemory.length ∧
      ∀ a b, a < s._displayWidth → b < s._displayHeight →
        s1.getPixel a b
          = if (a, b) ∈ pts then
              (if mode = XOR then !s.getPixel a b else decide (g a b = WHITE))
            else s.getPixel a b := by
  have hnd' : ((pts.map (fun p => (p.1, p.2, g p.1 p.2))).map (fun c => (c.1, c.2.1))).Nodup := by
    rw [List.map_map]
    have : ((fun c : Nat × Nat × Nat => (c.1, c.2.1)) ∘ fun p : Nat × Nat => (p.1, p.2, g p.1 p.2))
        = id := by
      funext p; rfl
    rw [this, List.map_id]
    exact hnd
  obtain ⟨s1, e, f1, m1, l1, p1⟩ := plot_calls_pixels s hf _ mode hnd'
  refine ⟨s1, e, f1, m1, l1, ?_⟩
  intro a b ha hb
  obtain ⟨h1, h2⟩ := p1 a b ha hb
  by_cases hm : (a, b) ∈ pts
  · rw [if_pos hm]
    apply h1 (g a b)
    rw [List.mem_map]
    exact ⟨(a, b), hm, rfl⟩
  · rw [if_neg hm]
    apply h2
    intro c hc
    rw [List.mem_map] at hc
    obtain ⟨p, hp, hpe⟩ := hc
    simp only [Prod.mk.injEq] at hpe
    apply hm
    have : p = (a, b) := Prod.ext hpe.1 hpe.2.1
    rw [← this]
    exact hp

theorem grid_head (x y w h : Nat) :
    ∃ rest, grid x y (w + 1) (h + 1) = (x, y) :: rest := by
  unfold grid
  rw [List.range_succ_eq_map w, List.flatMap_cons, List.range_succ_eq_map h, List.map_cons]
  exact ⟨_, rfl⟩

/-- The `setPixel` calls of a single-row character whose cell does not wrap: the
cell, column by column; the loop ends when more than `fontWidth + 1` tests are
allowed. -/
theorem drawCharCalls_single (fontsPointer : Nat → Nat → Nat) (fuel : Nat) (s : SSD1320)
    (x y c color : Nat) (hrow : s.fontHeight ≤ 8) (hc0 : s.fontStartChar ≤ c) (hc : c ≤ 255)
    (hfw : s.fontWidth ≤ 254) (hx : x + s.fontWidth ≤ 255) (hy : y + 7 ≤ 255) :
    drawCharCalls fontsPointer fuel s x y c color
      = if s.fontWidth + 1 < fuel then some (cellCalls (fontsPointer s.fontType) s x y c color)
        else none := by
  have hrows : (if s.fontHeight / 8 < 1 then 1 else s.fontHeight / 8) = 1 := by
    by_cases h : s.fontHeight / 8 < 1
    · rw [if_pos h]
    · rw [if_neg h]; omega
  have htc : u8 ((c : Int) - s.fontStartChar) = c - s.fontStartChar := by unfold u8; omega
  unfold drawCharCalls
  simp only []
  rw [if_pos hrows, htc,
    drawCharCols_eq (fontsPointer s.fontType) s.fontWidth (c - s.fontStartChar) x y color hfw
      (s.fontWidth + 1) fuel 0 (by omega)]
  by_cases hfu : s.fontWidth + 1 < fuel
  · rw [if_pos hfu, if_pos hfu]
    congr 1
    unfold cellCalls grid
    rw [← List.range_eq_range', List.map_flatMap]
    apply flatMap_congr_mem
    intro k hk
    have hk' : k < s.fontWidth + 1 := List.mem_range.mp hk
    rw [glyphColumn_eq _ _ _ _ (by split <;> omega), List.map_map]
    apply List.map_congr_left
    intro j hj
    have hj' : j < 8 := List.mem_range.mp hj
    have e1 : u8 ((x : Int) + k) = x + k := by unfold u8; omega
    have e2 : u8 ((y : Int) + j) = y + j := by unfold u8; omega
    simp only [Function.comp, e1, e2, Nat.add_sub_cancel_left]
    unfold cellColor glyphByte
    by_cases hkw : k = s.fontWidth
    · rw [if_pos hkw]
      simp [hkw]
    · rw [if_neg hkw]
      have hlt : k < s.fontWidth := by omega
      simp [hlt]
  · rw [if_neg hfu, if_neg hfu]

theorem fits_zeroed : Fits (zeroed 160 32) := by
  unfold Fits
  refine ⟨by decide, ?_⟩
  rw [show (zeroed 160 32).screenMemory.length = 640 from List.length_replicate 640 0]
  decide

/-- A single-row character whose cell does not wrap: `drawChar` is the sequence
of `setPixel` calls of the cell. -/
theorem drawChar_single (fontsPointer : Nat → Nat → Nat) (fuel : Nat) (s : SSD1320)
    (x y c color mode : Nat) (hrow : s.fontHeight ≤ 8) (hc0 : s.fontStartChar ≤ c)
    (hc1 : (c : Int) ≤ (s.fontStartChar : Int) + s.fontTotalChar - 1) (hc : c ≤ 255)
    (hfw : s.fontWidth ≤ 254) (hx : x + s.fontWidth ≤ 255) (hy : y + 7 ≤ 255) :
    drawChar fontsPointer fuel s x y c color mode
      = if s.fontWidth + 1 < fuel then
          s.plot (cellCalls (fontsPointer s.fontType) s x y c color) mode
        else none := by
  rw [drawChar_eq, if_neg (by omega),
    drawCharCalls_single fontsPointer fuel s x y c color hrow hc0 hc hfw hx hy]
  by_cases hfu : s.fontWidth + 1 < fuel
  · rw [if_pos hfu, if_pos hfu]
    rfl
  · rw [if_neg hfu, if_neg hfu]
    rfl

/-- C21 (amended): for a single-row font of width at most 254, an in-range
character, a colour in {BLACK, WHITE}, `x + fontWidth ≤ 255`, `y + 7 ≤ 255`, a
display whose width is a multiple of 8 with `width * height / 8` within
`screenMemory`, and more than `fontWidth + 1` tests of the column loop allowed:
`drawChar(x, y, c, color, NORM)` returns and changes nothing but `screenMemory`;
afterwards every in-bounds pixel `(x + i, y + j)` of the glyph columns is ON
exactly when the colour chosen by bit `7 - j` of the glyph byte
`6 + (c - fontStartChar) * fontWidth + i` is WHITE (`color` for a set bit, its
complement for a clear bit), every in-bounds pixel of the spacer column is the
complement of `color`, and every in-bounds pixel outside the cell is
unchanged. -/
theorem drawChar_norm_spec (fontsPointer : Nat → Nat → Nat) (fuel : Nat) (s : SSD1320)
    (x y c color : Nat) (hf : Fits s) (hrow : s.fontHeight ≤ 8) (hc0 : s.fontStartChar ≤ c)
    (hc1 : (c : Int) ≤ (s.fontStartChar : Int) + s.fontTotalChar - 1) (hc : c ≤ 255)
    (hcol : color = BLACK ∨ color = WHITE) (hfw : s.fontWidth ≤ 254)
    (hfuel : s.fontWidth + 1 < fuel) (hx : x + s.fontWidth ≤ 255) (hy : y + 7 ≤ 255) :
    ∃ s1, drawChar fontsPointer fuel s x y c color NORM = some s1 ∧ OnlyMemory s s1 ∧
      ∀ a b, a < s._displayWidth → b < s._displayHeight →
        (∀ i j, i < s.fontWidth → j < 8 → a = x + i → b = y + j →
          s1.getPixel a b
            = if (fontsPointer s.fontType (6 + (c - s.fontStartChar) * s.fontWidth + i)
                  % 256).testBit (7 - j)
              then decide (color = WHITE) else !decide (color = WHITE)) ∧
        (∀ j, j < 8 → a = x + s.fontWidth → b = y + j →
          s1.getPixel a b = !decide (color = WHITE)) ∧
        (¬ ((x ≤ a ∧ a < x + (s.fontWidth + 1)) ∧ (y ≤ b ∧ b < y + 8)) →
          s1.getPixel a b = s.getPixel a b) := by
  have hcompl : decide ((if color = 0 then 1 else 0) = WHITE) = !decide (color = WHITE) := by
    rcases hcol with h | h <;> rw [h] <;> decide
  obtain ⟨s1, e, _, m1, _, p1⟩ :=
    plot_coloured_pixels s hf (grid x y (s.fontWidth + 1) 8)
      (fun a b => cellColor (fontsPointer s.fontType) s c color (a - x) (b - y)) NORM
      (nodup_grid x y (s.fontWidth + 1) 8)
  refine ⟨s1, ?_, m1, ?_⟩
  · rw [drawChar_single fontsPointer fuel s x y c color NORM hrow hc0 hc1 hc hfw hx hy,
      if_pos hfuel]
    exact e
  · intro a b ha hb
    have hp := p1 a b ha hb
    rw [if_neg (show ¬ NORM = XOR from by decide)] at hp
    refine ⟨?_, ?_, ?_⟩
    · intro i j hi hj hai hbj
      rw [if_pos ((mem_grid x y (s.fontWidth + 1) 8 a b).mpr (by omega))] at hp
      rw [hp, hai, hbj, Nat.add_sub_cancel_left, Nat.add_sub_cancel_left]
      unfold cellColor glyphByte FONTHEADERSIZE
      by_cases hbit : (fontsPointer s.fontType (6 + (c - s.fontStartChar) * s.fontWidth + i)
          % 256).testBit (7 - j) = true
      · rw [if_pos ⟨hi, hbit⟩, if_pos hbit]
      · rw [if_neg (fun h => hbit h.2), if_neg hbit, hcompl]
    · intro j hj hai hbj
      rw [if_pos ((mem_grid x y (s.fontWidth + 1) 8 a b).mpr (by omega))] at hp
      rw [hp, hai, hbj, Nat.add_sub_cancel_left, Nat.add_sub_cancel_left]
      unfold cellColor
      rw [if_neg (fun h => Nat.lt_irrefl _ h.1), hcompl]
    · intro hout
      rw [if_neg (fun h => hout ((mem_grid x y (s.fontWidth + 1) 8 a b).mp h))] at hp
      exact hp

theorem drawChar_norm_spec_witness :
    ∃ s1, drawChar (fun _ _ => 0x7F) 7 (zeroed 160 32) 10 3 65 WHITE NORM = some s1 ∧
      OnlyMemory (zeroed 160 32) s1 ∧
      ∀ a b, a < (zeroed 160 32)._displayWidth → b < (zeroed 160 32)._displayHeight →
        (∀ i j, i < (zeroed 160 32).fontWidth → j < 8 → a = 10 + i → b = 3 + j →
          s1.getPixel a b
            = if ((fun (_ _ : Nat) => 0x7F) (zeroed 160 32).fontType
                  (6 + (65 - (zeroed 160 32).fontStartChar) * (zeroed 160 32).fontWidth + i)
                  % 256).testBit (7 - j)
              then decide (WHITE = WHITE) else !decide (WHITE = WHITE)) ∧
        (∀ j, j < 8 → a = 10 + (zeroed 160 32).fontWidth → b = 3 + j →
          s1.getPixel a b = !decide (WHITE = WHITE)) ∧
        (¬ ((10 ≤ a ∧ a < 10 + ((zeroed 160 32).fontWidth + 1)) ∧ (3 ≤ b ∧ b < 3 + 8)) →
          s1.getPixel a b = (zeroed 160 32).getPixel a b) :=
  drawChar_norm_spec (fun _ _ => 0x7F) 7 (zeroed 160 32) 10 3 65 WHITE fits_zeroed (by decide)
    (by decide) (by decide) (by decide) (Or.inr rfl) (by decide) (by decide) (by decide)
    (by decide)

/-- An in-range single-row character drawn at an in-bounds position whose byte
lies outside `screenMemory` has no defined result, whatever the fuel. -/
theorem drawChar_beyond (fontsPointer : Nat → Nat → Nat) (fuel : Nat) (s : SSD1320)
    (x y c color mode : Nat) (hrow : s.fontHeight ≤ 8) (hc0 : s.fontStartChar ≤ c)
    (hc1 : (c : Int) ≤ (s.fontStartChar : Int) + s.fontTotalChar - 1) (hc : c ≤ 255)
    (hfw : s.fontWidth ≤ 254) (hx : x + s.fontWidth ≤ 255) (hy : y + 7 ≤ 255)
    (hxw : x < s._displayWidth) (hyh : y < s._displayHeight)
    (hb : s.screenMemory.length ≤ y * (s._displayWidth / 8) + x / 8) :
    drawChar fontsPointer fuel s x y c color mode = none := by
  rw [drawChar_single fontsPointer fuel s x y c color mode hrow hc0 hc1 hc hfw hx hy]
  by_cases hfu : s.fontWidth + 1 < fuel
  · rw [if_pos hfu]
    unfold cellCalls
    obtain ⟨rest, hrest⟩ := grid_head x y s.fontWidth 7
    rw [hrest, List.map_cons]
    exact plot_cons_none s x y _ mode _ (setPixel_beyond s x y _ mode hxw hyh hb)
  · rw [if_neg hfu]

/-- With `fontWidth = 255` an in-range single-row character is never finished. -/
theorem drawChar_diverges (fontsPointer : Nat → Nat → Nat) (fuel : Nat) (s : SSD1320)
    (x y c color mode : Nat) (hrow : s.fontHeight ≤ 8) (hc0 : s.fontStartChar ≤ c)
    (hc1 : (c : Int) ≤ (s.fontStartChar : Int) + s.fontTotalChar - 1)
    (hfw : s.fontWidth = 255) :
    drawChar fontsPointer fuel s x y c color mode = none := by
  have hrows : (if s.fontHeight / 8 < 1 then 1 else s.fontHeight / 8) = 1 := by
    by_cases h : s.fontHeight / 8 < 1
    · rw [if_pos h]
    · rw [if_neg h]; omega
  rw [drawChar_eq, if_neg (by omega)]
  unfold drawCharCalls
  simp only []
  rw [if_pos hrows, hfw, drawCharCols_diverges _ _ _ _ _ fuel 0 (by norm_num)]
  rfl

/-- C21 as stated fails in two ways. On a 256 × 64 display the in-bounds pixel
`(0, 20)` of the cell of `drawChar(0, 20, 'A', WHITE, NORM)` addresses byte `640`,
outside `screenMemory`: no result. And for a font of width 255 (so
`x + fontWidth ≤ 255` at `x = 0`) the column loop never ends. -/
theorem drawChar_norm_no_result :
    (∀ (fontsPointer : Nat → Nat → Nat) (fuel : Nat),
      drawChar fontsPointer fuel (zeroed 256 64) 0 20 65 WHITE NORM = none) ∧
    (∀ (fontsPointer : Nat → Nat → Nat) (fuel : Nat),
      drawChar fontsPointer fuel { zeroed 160 32 with fontWidth := 255 } 0 0 65 WHITE NORM
        = none) := by
  constructor
  · intro fontsPointer fuel
    apply drawChar_beyond fontsPointer fuel (zeroed 256 64) 0 20 65 WHITE NORM
    · decide
    · decide
    · decide
    · decide
    · decide
    · decide
    · decide
    · decide
    · decide
    · rw [show (zeroed 256 64).screenMemory.length = 640 from List.length_replicate 640 0]
      decide
  · intro fontsPointer fuel
    apply drawChar_diverges
    · decide
    · decide
    · decide
    · rfl
/-- C30 (amended): for a single-row font and two in-range characters `c1`, `c2`,
`drawChar(x, y, c1, k1, XOR)` and `drawChar(x, y, c2, k2, XOR)` have the same
outcome for all colours; and when `fontWidth ≤ 254`, more than `fontWidth + 1`
tests of the column loop are allowed, `x + fontWidth ≤ 255`, `y + 7 ≤ 255` and
the display has a width that is a multiple of 8 with `width * height / 8`
within `screenMemory`, that outcome is the input with every in-bounds pixel of
the `(fontWidth + 1) × 8` cell at `(x, y)` inverted and every other in-bounds
pixel unchanged. -/
theorem drawChar_xor_spec (fontsPointer : Nat → Nat → Nat) (fuel : Nat) (s : SSD1320)
    (x y c1 c2 k1 k2 : Nat) (hrow : s.fontHeight ≤ 8)
    (h10 : s.fontStartChar ≤ c1)
    (h11 : (c1 : Int) ≤ (s.fontStartChar : Int) + s.fontTotalChar - 1)
    (h20 : s.fontStartChar ≤ c2)
    (h21 : (c2 : Int) ≤ (s.fontStartChar : Int) + s.fontTotalChar - 1) :
    drawChar fontsPointer fuel s x y c1 k1 XOR = drawChar fontsPointer fuel s x y c2 k2 XOR ∧
      (Fits s → s.fontWidth ≤ 254 → s.fontWidth + 1 < fuel → x + s.fontWidth ≤ 255 →
        y + 7 ≤ 255 → c1 ≤ 255 →
        ∃ s1, drawChar fontsPointer fuel s x y c1 k1 XOR = some s1 ∧ OnlyMemory s s1 ∧
          ∀ a b, a < s._displayWidth → b < s._displayHeight →
            s1.getPixel a b
              = if (x ≤ a ∧ a < x + (s.fontWidth + 1)) ∧ (y ≤ b ∧ b < y + 8) then
                  !s.getPixel a b
                else s.getPixel a b) := by
  have hrows : (if s.fontHeight / 8 < 1 then 1 else s.fontHeight / 8) = 1 := by
    by_cases h : s.fontHeight / 8 < 1
    · rw [if_pos h]
    · rw [if_neg h]; omega
  constructor
  · rw [drawChar_eq, drawChar_eq, if_neg (by omega), if_neg (by omega)]
    unfold drawCharCalls
    simp only []
    rw [if_pos hrows, if_pos hrows]
    have hco := drawCharCols_coords (fontsPointer s.fontType) s.fontWidth
      (u8 ((c1 : Int) - s.fontStartChar)) (u8 ((c2 : Int) - s.fontStartChar)) x y k1 k2 fuel 0
    cases e1 : drawCharCols (fontsPointer s.fontType) s.fontWidth
        (u8 ((c1 : Int) - s.fontStartChar)) x y k1 fuel 0 with
    | none =>
      cases e2 : drawCharCols (fontsPointer s.fontType) s.fontWidth
          (u8 ((c2 : Int) - s.fontStartChar)) x y k2 fuel 0 with
      | none => rfl
      | some l2 => rw [e1, e2] at hco; exact Option.noConfusion hco
    | some l1 =>
      cases e2 : drawCharCols (fontsPointer s.fontType) s.fontWidth
          (u8 ((c2 : Int) - s.fontStartChar)) x y k2 fuel 0 with
      | none => rw [e1, e2] at hco; exact Option.noConfusion hco
      | some l2 =>
        rw [e1, e2] at hco
        exact plot_xor_congr l1 l2 (Option.some.inj hco) s
  · intro hf hfw hfuel hx hy hc
    obtain ⟨s1, e, _, m1, _, p1⟩ :=
      plot_coloured_pixels s hf (grid x y (s.fontWidth + 1) 8)
        (fun a b => cellColor (fontsPointer s.fontType) s c1 k1 (a - x) (b - y)) XOR
        (nodup_grid x y (s.fontWidth + 1) 8)
    refine ⟨s1, ?_, m1, ?_⟩
    · rw [drawChar_single fontsPointer fuel s x y c1 k1 XOR hrow h10 h11 hc hfw hx hy,
        if_pos hfuel]
      exact e
    · intro a b ha hb
      rw [p1 a b ha hb]
      by_cases hm : (a, b) ∈ grid x y (s.fontWidth + 1) 8
      · rw [if_pos hm, if_pos ((mem_grid x y (s.fontWidth + 1) 8 a b).mp hm), if_pos rfl]
      · rw [if_neg hm,
          if_neg (fun h => hm ((mem_grid x y (s.fontWidth + 1) 8 a b).mpr h))]

theorem drawChar_xor_spec_witness :
    drawChar (fun _ _ => 0x7F) 7 (zeroed 160 32) 10 3 65 WHITE XOR
        = drawChar (fun _ _ => 0x7F) 7 (zeroed 160 32) 10 3 66 BLACK XOR ∧
      ∃ s1, drawChar (fun _ _ => 0x7F) 7 (zeroed 160 32) 10 3 65 WHITE XOR = some s1 ∧
        OnlyMemory (zeroed 160 32) s1 ∧
        ∀ a b, a < (zeroed 160 32)._displayWidth → b < (zeroed 160 32)._displayHeight →
          s1.getPixel a b
            = if (10 ≤ a ∧ a < 10 + ((zeroed 160 32).fontWidth + 1)) ∧ (3 ≤ b ∧ b < 3 + 8) then
                !(zeroed 160 32).getPixel a b
              else (zeroed 160 32).getPixel a b :=
  ⟨(drawChar_xor_spec (fun _ _ => 0x7F) 7 (zeroed 160 32) 10 3 65 66 WHITE BLACK (by decide)
      (by decide) (by decide) (by decide) (by decide)).1,
    (drawChar_xor_spec (fun _ _ => 0x7F) 7 (zeroed 160 32) 10 3 65 66 WHITE BLACK (by decide)
      (by decide) (by decide) (by decide) (by decide)).2 fits_zeroed (by decide) (by decide)
      (by decide) (by decide) (by decide)⟩

/-- C30 as stated fails in two ways. On a 256 × 64 display the in-bounds pixel
`(0, 20)` of the cell of `drawChar(0, 20, 'A', WHITE, XOR)` addresses byte `640`,
outside `screenMemory`: no framebuffer results. And for a font of width 255
(so `x + fontWidth ≤ 255` at `x = 0`) the column loop never ends. -/
theorem drawChar_xor_no_result :
    (∀ (fontsPointer : Nat → Nat → Nat) (fuel : Nat),
      drawChar fontsPointer fuel (zeroed 256 64) 0 20 65 WHITE XOR = none) ∧
    (∀ (fontsPointer : Nat → Nat → Nat) (fuel : Nat),
      drawChar fontsPointer fuel { zeroed 160 32 with fontWidth := 255 } 0 0 65 WHITE XOR
        = none) := by
  constructor
  · intro fontsPointer fuel
    apply drawChar_beyond fontsPointer fuel (zeroed 256 64) 0 20 65 WHITE XOR
    · decide
    · decide
    · decide
    · decide
    · decide
    · decide
    · decide
    · decide
    · decide
    · rw [show (zeroed 256 64).screenMemory.length = 640 from List.length_replicate 640 0]
      decide
  · intro fontsPointer fuel
    apply drawChar_diverges
    · decide
    · decide
    · decide
    · rfl

/-- C22 (amended): for a multi-row font (height a multiple of 8 and above 8,
`mapWidth ≥ width > 0`, `mapWidth` and the glyph offset fitting in 16 bits) and
an in-range character, `drawChar` makes exactly the `setPixel` calls of
`multiRowCalls`: for `r < height / 8`, `i < width`, `j < 8`, bit `7 - j` of the
font byte at `6 + startOffset + r * mapWidth + i` goes to the pixel
`((x + i) mod 256, (y + (rowsToDraw - 1 - r) * 8 + j) mod 256)`, with `color` for
a set bit and its complement for a clear bit; and neither divisor is zero. -/
theorem drawChar_multirow_spec (fontsPointer : Nat → Nat → Nat) (fuel : Nat) (s : SSD1320)
    (x y c color mode : Nat) (hh8 : s.fontHeight % 8 = 0) (hh : 8 < s.fontHeight)
    (hw0 : 0 < s.fontWidth) (hwm : s.fontWidth ≤ s.fontMapWidth) (hmw : s.fontMapWidth < 65536)
    (hoff : (c - s.fontStartChar) / (s.fontMapWidth / s.fontWidth) * s.fontMapWidth
        * (s.fontHeight / 8)
      + (c - s.fontStartChar) % (s.fontMapWidth / s.fontWidth) * s.fontWidth < 65536)
    (hc0 : s.fontStartChar ≤ c)
    (hc1 : (c : Int) ≤ (s.fontStartChar : Int) + s.fontTotalChar - 1) (hc : c ≤ 255) :
    drawChar fontsPointer fuel s x y c color mode
        = s.plot (multiRowCalls (fontsPointer s.fontType) s x y c color) mode ∧
      s.fontWidth ≠ 0 ∧ s.fontMapWidth / s.fontWidth ≠ 0 := by
  have hdiv : 0 < s.fontMapWidth / s.fontWidth := Nat.div_pos hwm hw0
  have hdlt : s.fontMapWidth / s.fontWidth < 65536 :=
    lt_of_le_of_lt (Nat.div_le_self _ _) hmw
  refine ⟨?_, by omega, by omega⟩
  have hrows : (if s.fontHeight / 8 < 1 then 1 else s.fontHeight / 8) = s.fontHeight / 8 := by
    rw [if_neg (by omega)]
  have hne1 : ¬ s.fontHeight / 8 = 1 := by omega
  have htc : u8 ((c : Int) - s.fontStartChar) = c - s.fontStartChar := by unfold u8; omega
  have hcpr : (s.fontMapWidth / s.fontWidth) % 65536 = s.fontMapWidth / s.fontWidth :=
    Nat.mod_eq_of_lt hdlt
  rw [drawChar_eq, if_neg (by omega)]
  unfold drawCharCalls multiRowCalls
  simp only []
  rw [hrows, if_neg hne1, if_neg (show ¬ s.fontWidth = 0 from by omega), hcpr,
    if_neg (show ¬ s.fontMapWidth / s.fontWidth = 0 from by omega), htc, Nat.mod_eq_of_lt hoff]
  simp only [Option.some_bind]
  congr 1
  apply flatMap_congr_mem
  intro r hr
  have hr' : r < s.fontHeight / 8 := List.mem_range.mp hr
  apply flatMap_congr_mem
  intro i hi
  rw [glyphColumn_eq _ _ _ _ (Nat.mod_lt _ (by norm_num))]
  apply List.map_congr_left
  intro j hj
  have e1 : u8 ((x : Int) + i) = (x + i) % 256 := by unfold u8; omega
  have e2 : u8 ((y : Int) + (((s.fontHeight / 8 : Nat) : Int) - 1 - r) * 8 + j)
      = (y + (s.fontHeight / 8 - 1 - r) * 8 + j) % 256 := by unfold u8; omega
  have e3 : FONTHEADERSIZE
      + ((c - s.fontStartChar) / (s.fontMapWidth / s.fontWidth) * s.fontMapWidth
            * (s.fontHeight / 8)
          + (c - s.fontStartChar) % (s.fontMapWidth / s.fontWidth) * s.fontWidth
        + i + r * s.fontMapWidth)
      = 6 + ((c - s.fontStartChar) / (s.fontMapWidth / s.fontWidth) * s.fontMapWidth
            * (s.fontHeight / 8)
          + (c - s.fontStartChar) % (s.fontMapWidth / s.fontWidth) * s.fontWidth)
        + r * s.fontMapWidth + i := by
    unfold FONTHEADERSIZE
    omega
  rw [e1, e2, e3]

theorem drawChar_multirow_spec_witness :
    drawChar (fun _ _ => 0xFF) 0
        { zeroed 160 32 with fontWidth := 2, fontHeight := 16, fontMapWidth := 2 }
        10 3 65 WHITE NORM
      = SSD1320.plot { zeroed 160 32 with fontWidth := 2, fontHeight := 16, fontMapWidth := 2 }
          (multiRowCalls ((fun (_ _ : Nat) => 0xFF) 0)
            { zeroed 160 32 with fontWidth := 2, fontHeight := 16, fontMapWidth := 2 }
            10 3 65 WHITE) NORM ∧
      (2 : Nat) ≠ 0 ∧ 2 / 2 ≠ 0 :=
  drawChar_multirow_spec (fun _ _ => 0xFF) 0
    { zeroed 160 32 with fontWidth := 2, fontHeight := 16, fontMapWidth := 2 }
    10 3 65 WHITE NORM (by decide) (by decide) (by decide) (by decide) (by decide) (by decide)
    (by decide) (by decide) (by decide)

/-- C22 as stated fails: the coordinates handed to `setPixel` are 8-bit and wrap.
With a font of width 2 and height 16, `drawChar(255, 0, ' ', WHITE, NORM)` on a
zeroed 160 × 32 display turns the pixel `(0, 0)` on, because column
`255 + 1` is column `0` modulo 256; none of the pixels `(255 + i, 0 + (1 - r) * 8 + j)`
the claim names is `(0, 0)`. -/
theorem drawChar_multirow_wraps :
    (drawChar (fun _ _ => 0xFF) 0
        { zeroed 160 32 with fontWidth := 2, fontHeight := 16, fontMapWidth := 2 }
        255 0 32 WHITE NORM).map (fun s1 => s1.getPixel 0 0) = some true ∧
      SSD1320.getPixel
        { zeroed 160 32 with fontWidth := 2, fontHeight := 16, fontMapWidth := 2 } 0 0 = false ∧
      (∀ r : Nat, r < 2 → ∀ i : Nat, i < 2 → ∀ j : Nat, j < 8 →
        (255 + i, 0 + (2 - 1 - r) * 8 + j) ≠ (0, 0)) ∧
      (0, 0, WHITE) ∈ multiRowCalls ((fun (_ _ : Nat) => 0xFF) 0)
        { zeroed 160 32 with fontWidth := 2, fontHeight := 16, fontMapWidth := 2 }
        255 0 32 WHITE := by
  refine ⟨by decide, by decide, by decide, by decide⟩

theorem length_tog (w h : Nat) (mem : List Nat) (c : Nat × Nat × Nat) :
    (tog w h mem c).length = mem.length := by
  unfold tog
  split
  · rfl
  · rw [List.length_set]

theorem bytes_tog (w h : Nat) (mem : List Nat) (c : Nat × Nat × Nat) (hb : Bytes mem) :
    Bytes (tog w h mem c) := by
  unfold tog
  split
  · exact hb
  · intro b hmem
    rcases List.mem_or_eq_of_mem_set hmem with h1 | h1
    · exact hb b h1
    · rw [h1]
      exact Nat.mod_lt _ (by norm_num)

theorem setPixel_xor_tog (s : SSD1320) (hf : Fits s) (x y color : Nat) :
    s.setPixel x y color XOR
      = some { s with screenMemory :=
          (tog s._displayWidth s._displayHeight s.screenMemory (x, y, color)) } := by
  unfold tog
  by_cases hin : x ≥ s._displayWidth ∨ y ≥ s._displayHeight
  · rw [if_pos hin, setPixel_outside s x y color XOR (by omega)]
  · rw [if_neg hin]
    have hx : x < s._displayWidth := by omega
    have hy : y < s._displayHeight := by omega
    have hi : y * (s._displayWidth / 8) + x / 8 < s.screenMemory.length := by
      have := byteNumber_lt _ _ _ _ hf.1 hx hy
      have := hf.2
      omega
    rw [setPixel_inside s x y color XOR hx hy hi]
    unfold pixelByte
    rw [if_pos rfl]

theorem fits_tog (s : SSD1320) (hf : Fits s) (c : Nat × Nat × Nat) :
    Fits { s with screenMemory := tog s._displayWidth s._displayHeight s.screenMemory c } := by
  unfold Fits
  refine ⟨hf.1, ?_⟩
  show s._displayWidth * s._displayHeight / 8
    ≤ (tog s._displayWidth s._displayHeight s.screenMemory c).length
  rw [length_tog]
  exact hf.2

theorem plot_xor_tog (calls : List (Nat × Nat × Nat)) :
    ∀ s : SSD1320, Fits s →
      s.plot calls XOR
        = some { s with screenMemory :=
            (calls.foldl (tog s._displayWidth s._displayHeight) s.screenMemory) } := by
  induction calls with
  | nil => intro s _; rfl
  | cons c rest ih =>
    intro s hf
    obtain ⟨x, y, color⟩ := c
    unfold plot
    rw [setPixel_xor_tog s hf x y color]
    simp only []
    rw [ih _ (fits_tog s hf (x, y, color))]
    rfl

theorem xor_mask_comm (b k1 k2 : Nat) :
    ((((b ^^^ (1 <<< k1)) % 256) ^^^ (1 <<< k2)) % 256)
      = ((((b ^^^ (1 <<< k2)) % 256) ^^^ (1 <<< k1)) % 256) := by
  apply Nat.eq_of_testBit_eq
  intro j
  by_cases hj : j < 8
  · rw [testBit_xor_mask _ _ _ hj, testBit_xor_mask _ _ _ hj, testBit_xor_mask _ _ _ hj,
      testBit_xor_mask _ _ _ hj]
    cases b.testBit j <;> cases decide (k1 = j) <;> cases decide (k2 = j) <;> rfl
  · have h256 : (256 : Nat) = 2 ^ 8 := by norm_num
    rw [h256, Nat.testBit_mod_two_pow, Nat.testBit_mod_two_pow]
    simp [hj]

theorem tog_tog (w h : Nat) (mem : List Nat) (c : Nat × Nat × Nat) (hw8 : w % 8 = 0)
    (hcap : w * h / 8 ≤ mem.length) (hb : Bytes mem) :
    tog w h (tog w h mem c) c = mem := by
  unfold tog
  by_cases hin : c.1 ≥ w ∨ c.2.1 ≥ h
  · rw [if_pos hin, if_pos hin]
  · rw [if_neg hin, if_neg hin]
    have hi : c.2.1 * (w / 8) + c.1 / 8 < mem.length := by
      have := byteNumber_lt w h c.1 c.2.1 hw8 (by omega) (by omega)
      omega
    rw [getD_set, if_pos ⟨rfl, hi⟩, List.set_set]
    have hbyte : mem.getD (c.2.1 * (w / 8) + c.1 / 8) 0 < 256 := by
      rw [List.getD_eq_getElem _ _ hi]
      exact hb _ (List.getElem_mem _)
    rw [xor_mask_twice _ _ hbyte, List.getD_eq_getElem _ _ hi]
    exact set_getElem_same mem _ hi

theorem tog_comm (w h : Nat) (mem : List Nat) (c d : Nat × Nat × Nat) (hw8 : w % 8 = 0)
    (hcap : w * h / 8 ≤ mem.length) :
    tog w h (tog w h mem c) d = tog w h (tog w h mem d) c := by
  unfold tog
  by_cases hc : c.1 ≥ w ∨ c.2.1 ≥ h
  · by_cases hd : d.1 ≥ w ∨ d.2.1 ≥ h
    · simp only [if_pos hc, if_pos hd]
    · simp only [if_pos hc, if_neg hd]
  · by_cases hd : d.1 ≥ w ∨ d.2.1 ≥ h
    · simp only [if_neg hc, if_pos hd]
    · simp only [if_neg hc, if_neg hd]
      have hic : c.2.1 * (w / 8) + c.1 / 8 < mem.length := by
        have := byteNumber_lt w h c.1 c.2.1 hw8 (by omega) (by omega)
        omega
      have hid : d.2.1 * (w / 8) + d.1 / 8 < mem.length := by
        have := byteNumber_lt w h d.1 d.2.1 hw8 (by omega) (by omega)
        omega
      rw [getD_set, getD_set]
      by_cases hk : c.2.1 * (w / 8) + c.1 / 8 = d.2.1 * (w / 8) + d.1 / 8
      · rw [if_pos ⟨hk, hic⟩, if_pos ⟨hk.symm, hid⟩, hk, List.set_set, List.set_set,
          xor_mask_comm]
      · rw [if_neg (fun hh => hk hh.1), if_neg (fun hh => hk hh.1.symm)]
        exact List.set_comm _ _ _ hk

theorem foldl_tog_length (w h : Nat) (calls : List (Nat × Nat × Nat)) :
    ∀ mem : List Nat, (calls.foldl (tog w h) mem).length = mem.length := by
  induction calls with
  | nil => intro mem; rfl
  | cons c rest ih =>
    intro mem
    rw [List.foldl_cons, ih, length_tog]

theorem foldl_tog_bytes (w h : Nat) (calls : List (Nat × Nat × Nat)) :
    ∀ mem : List Nat, Bytes mem → Bytes (calls.foldl (tog w h) mem) := by
  induction calls with
  | nil => intro mem hb; exact hb
  | cons c rest ih =>
    intro mem hb
    rw [List.foldl_cons]
    exact ih _ (bytes_tog w h mem c hb)

theorem foldl_tog_comm (w h : Nat) (hw8 : w % 8 = 0) (c : Nat × Nat × Nat)
    (calls : List (Nat × Nat × Nat)) :
    ∀ mem : List Nat, w * h / 8 ≤ mem.length →
      tog w h (calls.foldl (tog w h) mem) c = calls.foldl (tog w h) (tog w h mem c) := by
  induction calls with
  | nil => intro mem _; rfl
  | cons d rest ih =>
    intro mem hcap
    rw [List.foldl_cons, List.foldl_cons, ih _ (by rw [length_tog]; exact hcap),
      tog_comm w h mem d c hw8 hcap]

theorem foldl_tog_twice (w h : Nat) (hw8 : w % 8 = 0) (calls : List (Nat × Nat × Nat)) :
    ∀ mem : List Nat, w * h / 8 ≤ mem.length → Bytes mem →
      calls.foldl (tog w h) (calls.foldl (tog w h) mem) = mem := by
  induction calls with
  | nil => intro mem _ _; rfl
  | cons d rest ih =>
    intro mem hcap hb
    rw [List.foldl_cons, List.foldl_cons,
      foldl_tog_comm w h hw8 d rest (tog w h mem d) (by rw [length_tog]; exact hcap),
      tog_tog w h mem d hw8 hcap hb]
    exact ih mem hcap hb

/-- A sequence of `setPixel` calls in `XOR` mode, made twice on a display whose
buffer holds every in-bounds pixel, gives back the initial driver state. -/
theorem plot_xor_twice (s : SSD1320) (hf : Fits s) (hb : Bytes s.screenMemory)
    (calls : List (Nat × Nat × Nat)) :
    ∃ s1, s.plot calls XOR = some s1 ∧ s1.plot calls XOR = some s ∧ OnlyMemory s s1 := by
  have hf1 : Fits { s with screenMemory :=
      (calls.foldl (tog s._displayWidth s._displayHeight) s.screenMemory) } := by
    unfold Fits
    refine ⟨hf.1, ?_⟩
    show s._displayWidth * s._displayHeight / 8
      ≤ (calls.foldl (tog s._displayWidth s._displayHeight) s.screenMemory).length
    rw [foldl_tog_length]
    exact hf.2
  refine ⟨_, plot_xor_tog calls s hf, ?_, rfl⟩
  rw [plot_xor_tog calls _ hf1]
  simp only []
  rw [foldl_tog_twice _ _ hf.1 calls s.screenMemory hf.2 hb]
theorem linePoints_total (x0 y0 x1 y1 : Nat) (hx0 : x0 ≤ 255) (hy0 : y0 ≤ 255)
    (hx1 : x1 ≤ 255) (hy1 : y1 ≤ 255) : ∃ pts, linePoints x0 y0 x1 y1 = some pts := by
  rw [linePoints_eq]
  by_cases hs : Int.natAbs ((y1 : Int) - y0) > Int.natAbs ((x1 : Int) - x0)
  · rw [if_pos hs]
    by_cases h : y0 > y1
    · rw [if_pos h]
      obtain ⟨pts, hp, _⟩ := lineRun_spec true y1 x1 y0 x0 (by omega) hy0
      exact ⟨pts, hp⟩
    · rw [if_neg h]
      obtain ⟨pts, hp, _⟩ := lineRun_spec true y0 x0 y1 x1 (by omega) hy1
      exact ⟨pts, hp⟩
  · rw [if_neg hs]
    by_cases h : x0 > x1
    · rw [if_pos h]
      obtain ⟨pts, hp, _⟩ := lineRun_spec false x1 y1 x0 y0 (by omega) hx0
      exact ⟨pts, hp⟩
    · rw [if_neg h]
      obtain ⟨pts, hp, _⟩ := lineRun_spec false x0 y0 x1 y1 (by omega) hx1
      exact ⟨pts, hp⟩

/-- For 8-bit endpoints `line` is a sequence of `setPixel` calls that does not
depend on the driver state. -/
theorem line_is_plot (x0 y0 x1 y1 color : Nat) (hx0 : x0 ≤ 255) (hy0 : y0 ≤ 255)
    (hx1 : x1 ≤ 255) (hy1 : y1 ≤ 255) :
    ∃ L, ∀ (t : SSD1320) (mode : Nat), t.line x0 y0 x1 y1 color mode = t.plot L mode := by
  obtain ⟨pts, hp⟩ := linePoints_total x0 y0 x1 y1 hx0 hy0 hx1 hy1
  refine ⟨pts.map (fun p => (p.1, p.2, color)), ?_⟩
  intro t mode
  unfold line
  rw [hp]

theorem u8_le (i : Int) : u8 i ≤ 255 := by
  unfold u8
  omega

theorem lineH_is_plot (x y w color : Nat) (hx : x ≤ 255) (hy : y ≤ 255) :
    ∃ L, ∀ (t : SSD1320) (mode : Nat), t.lineH x y w color mode = t.plot L mode := by
  obtain ⟨L, hL⟩ := line_is_plot x y (u8 ((x : Int) + w)) y color hx hy (u8_le _) hy
  exact ⟨L, fun t mode => hL t mode⟩

theorem lineV_is_plot (x y h color : Nat) (hx : x ≤ 255) (hy : y ≤ 255) :
    ∃ L, ∀ (t : SSD1320) (mode : Nat), t.lineV x y h color mode = t.plot L mode := by
  obtain ⟨L, hL⟩ := line_is_plot x y x (u8 ((y : Int) + h)) color hx hy hx (u8_le _)
  exact ⟨L, fun t mode => hL t mode⟩

theorem rect_is_plot (x y w h color : Nat) (hx : x ≤ 255) (hy : y ≤ 255) :
    ∃ L, ∀ (t : SSD1320) (mode : Nat), t.rect x y w h color mode = t.plot L mode := by
  obtain ⟨L1, h1⟩ := lineH_is_plot x y w color hx hy
  obtain ⟨L2, h2⟩ := lineH_is_plot x (u8 ((y : Int) + h - 1)) w color hx (u8_le _)
  obtain ⟨L3, h3⟩ := lineV_is_plot x (u8 ((y : Int) + 1)) (u8 ((h : Int) - 2)) color hx (u8_le _)
  obtain ⟨L4, h4⟩ := lineV_is_plot (u8 ((x : Int) + w - 1)) (u8 ((y : Int) + 1))
    (u8 ((h : Int) - 2)) color (u8_le _) (u8_le _)
  refine ⟨L1 ++ (L2 ++ (if u8 ((h : Int) - 2) < 1 then [] else L3 ++ L4)), ?_⟩
  intro t mode
  unfold rect
  rw [plot_append, h1]
  cases e1 : t.plot L1 mode with
  | none => rfl
  | some s1 =>
    simp only [Option.some_bind]
    rw [plot_append, h2]
    cases e2 : s1.plot L2 mode with
    | none => rfl
    | some s2 =>
      simp only [Option.some_bind]
      by_cases ht : u8 ((h : Int) - 2) < 1
      · rw [if_pos ht, if_pos ht]
        rfl
      · rw [if_neg ht, if_neg ht, plot_append, h3]
        cases e3 : s2.plot L3 mode with
        | none => rfl
        | some s3 =>
          simp only [Option.some_bind]
          rw [h4]

theorem rectFill_is_plot (x y w h color : Nat) (hy : y ≤ 255) :
    ∃ L, ∀ (t : SSD1320) (mode : Nat), t.rectFill x y w h color mode = t.plot L mode := by
  have hk : ∀ k : Nat, ∃ L, ∀ (t : SSD1320) (mode : Nat),
      t.lineV (u8 ((x : Int) + (k : Int))) y h color mode = t.plot L mode :=
    fun k => lineV_is_plot _ y h color (u8_le _) hy
  refine ⟨(List.range w).flatMap (fun k => Classical.choose (hk k)), ?_⟩
  intro t mode
  unfold rectFill
  exact foldlM_plot (List.range w) _ (fun k => Classical.choose (hk k)) mode
    (fun k _ s => Classical.choose_spec (hk k) s mode) t

/-- The loop of `circle` ends within `y - x + 1` tests when `0 ≤ x` and
`y ≤ 127`. -/
theorem circleXY_total : ∀ (fuel : Nat) (f ddF_x ddF_y x y : Int),
    0 ≤ x → y ≤ 127 → (y - x).toNat < fuel → ∃ l, circleXY fuel f ddF_x ddF_y x y = some l := by
  intro fuel
  induction fuel with
  | zero => intro f ddF_x ddF_y x y _ _ h; omega
  | succ n ih =>
    intro f ddF_x ddF_y x y hx hy hfu
    unfold circleXY
    by_cases hxy : x < y
    · rw [if_pos hxy]
      simp only []
      have ex : i8 (x + 1) = x + 1 := by unfold i8; omega
      have ey : i8 (y - 1) = y - 1 := by unfold i8; omega
      by_cases hfz : f ≥ 0
      · simp only [if_pos hfz]
        rw [ex, ey]
        obtain ⟨l, hl⟩ := ih (i8 (i8 (f + i8 (ddF_y + 2)) + i8 (ddF_x + 2))) (i8 (ddF_x + 2))
          (i8 (ddF_y + 2)) (x + 1) (y - 1) (by omega) (by omega) (by omega)
        rw [hl]
        exact ⟨_, rfl⟩
      · simp only [if_neg hfz]
        rw [ex]
        obtain ⟨l, hl⟩ := ih (i8 (f + i8 (ddF_x + 2))) (i8 (ddF_x + 2)) ddF_y (x + 1) y
          (by omega) (by omega) (by omega)
        rw [hl]
        exact ⟨_, rfl⟩
    · rw [if_neg hxy]
      exact ⟨_, rfl⟩

theorem circle_is_plot (fuel x0 y0 r color : Nat) (hfuel : 128 ≤ fuel) :
    ∃ L, ∀ (t : SSD1320) (mode : Nat), circle fuel t x0 y0 r color mode = t.plot L mode := by
  have hy : i8 (r : Int) ≤ 127 := by unfold i8; omega
  have hy0 : -128 ≤ i8 (r : Int) := by unfold i8; omega
  obtain ⟨l, hl⟩ := circleXY_total fuel (i8 (1 - (r : Int))) 1 (i8 (-2 * (r : Int))) 0
    (i8 r) (le_refl 0) hy (by omega)
  have hp : ∃ pts, circlePoints fuel x0 y0 r = some pts := by
    unfold circlePoints
    simp only []
    rw [circleLoop_eq, hl]
    exact ⟨_, rfl⟩
  obtain ⟨pts, hpts⟩ := hp
  refine ⟨pts.map (fun p => (p.1, p.2, color)), ?_⟩
  intro t mode
  unfold circle
  rw [hpts]

theorem drawCharCalls_onlyMemory (fontsPointer : Nat → Nat → Nat) (fuel : Nat) (s t : SSD1320)
    (x y c color : Nat) (h : OnlyMemory s t) :
    drawCharCalls fontsPointer fuel t x y c color
      = drawCharCalls fontsPointer fuel s x y c color := by
  unfold OnlyMemory at h
  rw [h]
  rfl

theorem drawChar_is_plot (fontsPointer : Nat → Nat → Nat) (fuel : Nat) (s : SSD1320)
    (x y c color : Nat) (hfuel : 256 < fuel)
    (hsingle : s.fontHeight / 8 ≤ 1 → s.fontWidth ≤ 254)
    (hmulti : 1 < s.fontHeight / 8 →
      s.fontWidth ≠ 0 ∧ (s.fontMapWidth / s.fontWidth) % 65536 ≠ 0) :
    ∃ L, ∀ (t : SSD1320), OnlyMemory s t → ∀ (mode : Nat),
      drawChar fontsPointer fuel t x y c color mode = t.plot L mode := by
  by_cases hr : c < s.fontStartChar ∨ (c : Int) > (s.fontStartChar : Int) + s.fontTotalChar - 1
  · refine ⟨[], ?_⟩
    intro t ht mode
    have hr1 : c < t.fontStartChar ∨ (c : Int) > (t.fontStartChar : Int) + t.fontTotalChar - 1 := by
      unfold OnlyMemory at ht
      rw [ht]
      exact hr
    rw [drawChar_eq, if_pos hr1]
    rfl
  · have hcalls : ∃ L, drawCharCalls fontsPointer fuel s x y c color = some L := by
      unfold drawCharCalls
      simp only []
      by_cases h1 : s.fontHeight / 8 ≤ 1
      · have hrows : (if s.fontHeight / 8 < 1 then 1 else s.fontHeight / 8) = 1 := by
          by_cases h : s.fontHeight / 8 < 1
          · rw [if_pos h]
          · rw [if_neg h]; omega
        have hfw := hsingle h1
        rw [hrows, if_pos rfl,
          drawCharCols_eq (fontsPointer s.fontType) s.fontWidth _ x y color hfw
            (s.fontWidth + 1) fuel 0 (by omega),
          if_pos (show s.fontWidth + 1 < fuel from by omega)]
        exact ⟨_, rfl⟩
      · have hrows : (if s.fontHeight / 8 < 1 then 1 else s.fontHeight / 8) = s.fontHeight / 8 := by
          rw [if_neg (by omega)]
        obtain ⟨hw0, hcpr⟩ := hmulti (by omega)
        rw [hrows, if_neg (show ¬ s.fontHeight / 8 = 1 from by omega), if_neg hw0, if_neg hcpr]
        exact ⟨_, rfl⟩
    obtain ⟨L, hL⟩ := hcalls
    refine ⟨L, ?_⟩
    intro t ht mode
    have hr1 : ¬ (c < t.fontStartChar ∨
        (c : Int) > (t.fontStartChar : Int) + t.fontTotalChar - 1) := by
      unfold OnlyMemory at ht
      rw [ht]
      exact hr
    rw [drawChar_eq, if_neg hr1, drawCharCalls_onlyMemory fontsPointer fuel s t x y c color ht, hL]
    rfl

/-- An operation that is a fixed sequence of `setPixel` calls on every driver
state that differs from `s` in `screenMemory` only is, in `XOR` mode, undone by
a second run. -/
theorem involution_of_plot (s : SSD1320) (hf : Fits s) (hb : Bytes s.screenMemory)
    (op : SSD1320 → Option SSD1320)
    (h : ∃ L, ∀ t : SSD1320, OnlyMemory s t → op t = t.plot L XOR) :
    ∃ s1, op s = some s1 ∧ op s1 = some s := by
  obtain ⟨L, hL⟩ := h
  obtain ⟨s1, e1, e2, m1⟩ := plot_xor_twice s hf hb L
  refine ⟨s1, ?_, ?_⟩
  · rw [hL s (OnlyMemory.refl s)]
    exact e1
  · rw [hL s1 m1]
    exact e2
theorem bytes_zeroed (w h : Nat) : Bytes (zeroed w h).screenMemory := by
  intro b hb
  have h0 : b = 0 := List.eq_of_mem_replicate hb
  omega

/-- C26 (amended): on a display whose width is a multiple of 8 with
`width * height / 8` within `screenMemory` (a buffer of bytes), each of `line`,
`lineH`, `lineV`, `rect`, `rectFill`, `circle` and `drawChar` (8-bit
coordinates; for `drawChar` a single-row font of width at most 254 or a
multi-row font with non-zero divisors; enough tests allowed for the loops)
returns in `XOR` mode, and the same call made a second time returns the initial
driver state, hence the initial framebuffer byte for byte. -/
theorem xor_involution (fontsPointer : Nat → Nat → Nat) (fuel : Nat) (s : SSD1320)
    (x0 y0 x1 y1 w h r c color : Nat) (hf : Fits s) (hb : Bytes s.screenMemory)
    (hx0 : x0 ≤ 255) (hy0 : y0 ≤ 255) (hx1 : x1 ≤ 255) (hy1 : y1 ≤ 255) (hfuel : 256 < fuel)
    (hsingle : s.fontHeight / 8 ≤ 1 → s.fontWidth ≤ 254)
    (hmulti : 1 < s.fontHeight / 8 →
      s.fontWidth ≠ 0 ∧ (s.fontMapWidth / s.fontWidth) % 65536 ≠ 0) :
    (∃ s1, s.line x0 y0 x1 y1 color XOR = some s1 ∧ s1.line x0 y0 x1 y1 color XOR = some s) ∧
    (∃ s1, s.lineH x0 y0 w color XOR = some s1 ∧ s1.lineH x0 y0 w color XOR = some s) ∧
    (∃ s1, s.lineV x0 y0 h color XOR = some s1 ∧ s1.lineV x0 y0 h color XOR = some s) ∧
    (∃ s1, s.rect x0 y0 w h color XOR = some s1 ∧ s1.rect x0 y0 w h color XOR = some s) ∧
    (∃ s1, s.rectFill x0 y0 w h color XOR = some s1 ∧
      s1.rectFill x0 y0 w h color XOR = some s) ∧
    (∃ s1, circle fuel s x0 y0 r color XOR = some s1 ∧
      circle fuel s1 x0 y0 r color XOR = some s) ∧
    (∃ s1, drawChar fontsPointer fuel s x0 y0 c color XOR = some s1 ∧
      drawChar fontsPointer fuel s1 x0 y0 c color XOR = some s) := by
  refine ⟨?_, ?_, ?_, ?_, ?_, ?_, ?_⟩
  · obtain ⟨L, hL⟩ := line_is_plot x0 y0 x1 y1 color hx0 hy0 hx1 hy1
    exact involution_of_plot s hf hb (fun t => t.line x0 y0 x1 y1 color XOR)
      ⟨L, fun t _ => hL t XOR⟩
  · obtain ⟨L, hL⟩ := lineH_is_plot x0 y0 w color hx0 hy0
    exact involution_of_plot s hf hb (fun t => t.lineH x0 y0 w color XOR)
      ⟨L, fun t _ => hL t XOR⟩
  · obtain ⟨L, hL⟩ := lineV_is_plot x0 y0 h color hx0 hy0
    exact involution_of_plot s hf hb (fun t => t.lineV x0 y0 h color XOR)
      ⟨L, fun t _ => hL t XOR⟩
  · obtain ⟨L, hL⟩ := rect_is_plot x0 y0 w h color hx0 hy0
    exact involution_of_plot s hf hb (fun t => t.rect x0 y0 w h color XOR)
      ⟨L, fun t _ => hL t XOR⟩
  · obtain ⟨L, hL⟩ := rectFill_is_plot x0 y0 w h color hy0
    exact involution_of_plot s hf hb (fun t => t.rectFill x0 y0 w h color XOR)
      ⟨L, fun t _ => hL t XOR⟩
  · obtain ⟨L, hL⟩ := circle_is_plot fuel x0 y0 r color (by omega)
    exact involution_of_plot s hf hb (fun t => circle fuel t x0 y0 r color XOR)
      ⟨L, fun t _ => hL t XOR⟩
  · obtain ⟨L, hL⟩ := drawChar_is_plot fontsPointer fuel s x0 y0 c color hfuel hsingle hmulti
    exact involution_of_plot s hf hb (fun t => drawChar fontsPointer fuel t x0 y0 c color XOR)
      ⟨L, fun t ht => hL t ht XOR⟩

theorem xor_involution_witness :
    (∃ s1, (zeroed 160 32).line 10 5 30 12 WHITE XOR = some s1 ∧
      s1.line 10 5 30 12 WHITE XOR = some (zeroed 160 32)) ∧
    (∃ s1, (zeroed 160 32).lineH 10 5 6 WHITE XOR = some s1 ∧
      s1.lineH 10 5 6 WHITE XOR = some (zeroed 160 32)) ∧
    (∃ s1, (zeroed 160 32).lineV 10 5 4 WHITE XOR = some s1 ∧
      s1.lineV 10 5 4 WHITE XOR = some (zeroed 160 32)) ∧
    (∃ s1, (zeroed 160 32).rect 10 5 6 4 WHITE XOR = some s1 ∧
      s1.rect 10 5 6 4 WHITE XOR = some (zeroed 160 32)) ∧
    (∃ s1, (zeroed 160 32).rectFill 10 5 6 4 WHITE XOR = some s1 ∧
      s1.rectFill 10 5 6 4 WHITE XOR = some (zeroed 160 32)) ∧
    (∃ s1, circle 300 (zeroed 160 32) 10 5 7 WHITE XOR = some s1 ∧
      circle 300 s1 10 5 7 WHITE XOR = some (zeroed 160 32)) ∧
    (∃ s1, drawChar (fun _ _ => 0x7F) 300 (zeroed 160 32) 10 5 65 WHITE XOR = some s1 ∧
      drawChar (fun _ _ => 0x7F) 300 s1 10 5 65 WHITE XOR = some (zeroed 160 32)) :=
  xor_involution (fun _ _ => 0x7F) 300 (zeroed 160 32) 10 5 30 12 6 4 7 65 WHITE fits_zeroed
    (bytes_zeroed 160 32) (by decide) (by decide) (by decide) (by decide) (by decide)
    (fun _ => by decide) (fun h => absurd h (by decide))

/-- C26 as stated fails: on a 256 × 64 display `line(0, 20, 2, 20, WHITE, XOR)`
plots the in-bounds pixel `(0, 20)`, whose byte `640` lies outside the 640 bytes
of `screenMemory`, so the call has no defined result and nothing is restored;
and `drawChar` in a font of width 255 never returns. -/
theorem xor_involution_no_result :
    linePoints 0 20 2 20 = some [(0, 20), (1, 20)] ∧
      (zeroed 256 64).line 0 20 2 20 WHITE XOR = none ∧
      (∀ (fontsPointer : Nat → Nat → Nat) (fuel : Nat),
        drawChar fontsPointer fuel { zeroed 160 32 with fontWidth := 255 } 0 0 65 WHITE XOR
          = none) := by
  have hp : linePoints 0 20 2 20 = some [(0, 20), (1, 20)] := by decide
  refine ⟨hp, ?_, ?_⟩
  · unfold line
    rw [hp]
    apply plot_cons_none
    apply setPixel_beyond
    · decide
    · decide
    · rw [show (zeroed 256 64).screenMemory.length = 640 from List.length_replicate 640 0]
      decide
  · intro fontsPointer fuel
    apply drawChar_diverges
    · decide
    · decide
    · decide
    · rfl

/-! ### Clearing, pixel addressing and the text stream, with their conditions -/

/-- C10 (amended): on the 3-wire SPI interface, `clearDisplay(CLEAR_DISPLAY)` sends
the six addressing command bytes and then exactly `height * (width / 2)` data
bytes `0x00`, and changes nothing else (the framebuffer included), whatever the
display size; and provided `width * height / 8 <= 640`, the size of
`screenMemory`, `clearDisplay(CLEAR_BUFFER)` zeroes the first
`width * height / 8` bytes of `screenMemory` and changes nothing else (nothing
is sent), and `clearDisplay(CLEAR_ALL)` does both. -/
theorem clearDisplay_spec (s : SSD1320) (hif : s._interface = OLED_INTERFACE_SPI3) :
    s.clearDisplay CLEAR_DISPLAY = some (s.addBus ((addressing s).flatMap (frame s false)
      ++ (List.replicate (s._displayHeight * (s._displayWidth / 2)) 0).flatMap (frame s true))) ∧
    (s.screenMemory.length = 640 → s._displayWidth * s._displayHeight / 8 ≤ 640 →
      s.clearDisplay CLEAR_BUFFER = some { s with screenMemory :=
        (List.replicate (s._displayWidth * s._displayHeight / 8) 0
          ++ s.screenMemory.drop (s._displayWidth * s._displayHeight / 8)) } ∧
      s.clearDisplay CLEAR_ALL = some { s.addBus ((addressing s).flatMap (frame s false)
        ++ (List.replicate (s._displayHeight * (s._displayWidth / 2)) 0).flatMap (frame s true))
          with screenMemory :=
        (List.replicate (s._displayWidth * s._displayHeight / 8) 0
          ++ s.screenMemory.drop (s._displayWidth * s._displayHeight / 8)) }) := by
  have hm : s._displayHeight * s._displayWidth = s._displayWidth * s._displayHeight :=
    Nat.mul_comm _ _
  refine ⟨?_, ?_⟩
  · unfold clearDisplay
    rw [if_pos (by decide)]
    simp only [clearDisplay_stream s hif]
    rw [if_neg (by decide)]
  · intro hlen hbuf
    refine ⟨?_, ?_⟩
    · unfold clearDisplay
      rw [if_neg (by decide)]
      unfold memset0
      rw [hm, if_pos (by omega)]
    · unfold clearDisplay
      rw [if_pos (by decide)]
      simp only [clearDisplay_stream s hif]
      rw [if_pos (by decide)]
      unfold memset0
      have h1 : (s.addBus ((addressing s).flatMap (frame s false)
        ++ (List.replicate (s._displayHeight * (s._displayWidth / 2)) 0).flatMap
          (frame s true))).screenMemory = s.screenMemory := rfl
      have h2 : (s.addBus ((addressing s).flatMap (frame s false)
        ++ (List.replicate (s._displayHeight * (s._displayWidth / 2)) 0).flatMap
          (frame s true)))._displayHeight = s._displayHeight := rfl
      have h3 : (s.addBus ((addressing s).flatMap (frame s false)
        ++ (List.replicate (s._displayHeight * (s._displayWidth / 2)) 0).flatMap
          (frame s true)))._displayWidth = s._displayWidth := rfl
      rw [h1, h2, h3, hm, if_pos (by omega)]

/-- C10, witness: a zeroed 160 × 32 display, where `160 * 32 / 8 = 640`. -/
theorem clearDisplay_spec_witness :
    (zeroed 160 32).clearDisplay CLEAR_DISPLAY = some ((zeroed 160 32).addBus
      ((addressing (zeroed 160 32)).flatMap (frame (zeroed 160 32) false)
        ++ (List.replicate
            ((zeroed 160 32)._displayHeight * ((zeroed 160 32)._displayWidth / 2)) 0).flatMap
              (frame (zeroed 160 32) true))) ∧
    (zeroed 160 32).clearDisplay CLEAR_BUFFER = some { zeroed 160 32 with screenMemory :=
      (List.replicate ((zeroed 160 32)._displayWidth * (zeroed 160 32)._displayHeight / 8) 0
        ++ (zeroed 160 32).screenMemory.drop
            ((zeroed 160 32)._displayWidth * (zeroed 160 32)._displayHeight / 8)) } ∧
    (zeroed 160 32).clearDisplay CLEAR_ALL = some { (zeroed 160 32).addBus
      ((addressing (zeroed 160 32)).flatMap (frame (zeroed 160 32) false)
        ++ (List.replicate
            ((zeroed 160 32)._displayHeight * ((zeroed 160 32)._displayWidth / 2)) 0).flatMap
              (frame (zeroed 160 32) true))
        with screenMemory :=
      (List.replicate ((zeroed 160 32)._displayWidth * (zeroed 160 32)._displayHeight / 8) 0
        ++ (zeroed 160 32).screenMemory.drop
            ((zeroed 160 32)._displayWidth * (zeroed 160 32)._displayHeight / 8)) } :=
  ⟨(clearDisplay_spec (zeroed 160 32) rfl).1,
    (clearDisplay_spec (zeroed 160 32) rfl).2 (List.length_replicate 640 0) (by decide)⟩


/-- C29: for a width that is a multiple of 8 and any height, every in-bounds
`(x, y)` has its byte index `y * (width / 8) + x / 8` below `width * height / 8`;
whenever `screenMemory` holds at least `width * height / 8` bytes (in particular
when `width * height / 8 <= 640`), `setPixel(x, y, ..)` returns and writes
exactly that byte, with the mask of bit `7 - x % 8`, and leaves the bit
addressed by any other in-bounds coordinate `(x', y')` as it was; and two
in-bounds coordinates with the same byte index and the same bit index are
equal. -/
theorem pixel_addressing_safe (s : SSD1320) (x y x' y' color mode : Nat)
    (hw : s._displayWidth % 8 = 0)
    (hx : x < s._displayWidth) (hy : y < s._displayHeight)
    (hx' : x' < s._displayWidth) (hy' : y' < s._displayHeight) :
    y * (s._displayWidth / 8) + x / 8 < s._displayWidth * s._displayHeight / 8 ∧
    (s._displayWidth * s._displayHeight / 8 ≤ s.screenMemory.length →
      s.setPixel x y color mode = some { s with screenMemory :=
        (s.screenMemory.set (y * (s._displayWidth / 8) + x / 8)
          (pixelByte (s.screenMemory.getD (y * (s._displayWidth / 8) + x / 8) 0)
            x color mode)) }) ∧
    (s._displayWidth * s._displayHeight / 8 ≤ s.screenMemory.length →
      ∃ s1, s.setPixel x y color mode = some s1 ∧
        (¬ (x' = x ∧ y' = y) →
          bitAt s1.screenMemory (y' * (s._displayWidth / 8) + x' / 8) (7 - x' % 8)
            = bitAt s.screenMemory (y' * (s._displayWidth / 8) + x' / 8) (7 - x' % 8))) ∧
    (y * (s._displayWidth / 8) + x / 8 = y' * (s._displayWidth / 8) + x' / 8 →
      7 - x % 8 = 7 - x' % 8 → x = x' ∧ y = y') := by
  have hi := byteNumber_lt _ _ _ _ hw hx hy
  refine ⟨hi, ?_, ?_, ?_⟩
  · intro hb
    exact setPixel_inside s x y color mode hx hy (by omega)
  · intro hb
    obtain ⟨s1, e, _, m1, _, p1⟩ := getPixel_setPixel s ⟨hw, hb⟩ x y color mode
    refine ⟨s1, e, ?_⟩
    intro hne
    have hp := p1 x' y' hx' hy'
    unfold pixelAfter at hp
    rw [if_neg (fun h => hne ⟨h.1.symm, h.2.symm⟩)] at hp
    have hwid : s1._displayWidth = s._displayWidth := by
      unfold OnlyMemory at m1
      rw [m1]
    unfold getPixel at hp
    rw [hwid] at hp
    exact hp
  · intro hb hk
    exact byteBit_injective (s._displayWidth / 8) x y x' y' (by omega) (by omega) hb hk

/-- C29, witness: pixels `(159, 31)` and `(8, 0)` of a zeroed 160 × 32 display. -/
theorem pixel_addressing_safe_witness :
    31 * ((zeroed 160 32)._displayWidth / 8) + 159 / 8
        < (zeroed 160 32)._displayWidth * (zeroed 160 32)._displayHeight / 8 ∧
    ((zeroed 160 32)._displayWidth * (zeroed 160 32)._displayHeight / 8
        ≤ (zeroed 160 32).screenMemory.length →
      (zeroed 160 32).setPixel 159 31 WHITE NORM = some { zeroed 160 32 with screenMemory :=
        ((zeroed 160 32).screenMemory.set (31 * ((zeroed 160 32)._displayWidth / 8) + 159 / 8)
          (pixelByte
            ((zeroed 160 32).screenMemory.getD
              (31 * ((zeroed 160 32)._displayWidth / 8) + 159 / 8) 0)
            159 WHITE NORM)) }) ∧
    ((zeroed 160 32)._displayWidth * (zeroed 160 32)._displayHeight / 8
        ≤ (zeroed 160 32).screenMemory.length →
      ∃ s1, (zeroed 160 32).setPixel 159 31 WHITE NORM = some s1 ∧
        (¬ (8 = 159 ∧ 0 = 31) →
          bitAt s1.screenMemory (0 * ((zeroed 160 32)._displayWidth / 8) + 8 / 8) (7 - 8 % 8)
            = bitAt (zeroed 160 32).screenMemory
                (0 * ((zeroed 160 32)._displayWidth / 8) + 8 / 8) (7 - 8 % 8))) ∧
    (31 * ((zeroed 160 32)._displayWidth / 8) + 159 / 8
        = 0 * ((zeroed 160 32)._displayWidth / 8) + 8 / 8 →
      7 - 159 % 8 = 7 - 8 % 8 → 159 = 8 ∧ 31 = 0) :=
  pixel_addressing_safe (zeroed 160 32) 159 31 8 0 WHITE NORM (by decide) (by decide)
    (by decide) (by decide) (by decide)

/-- On a display whose buffer holds every in-bounds pixel, `drawChar` returns for
a single-row font of width at most 254 and for a multi-row font with non-zero
divisors, once more than 256 tests of the column loop are allowed. -/
theorem drawChar_returns (fontsPointer : Nat → Nat → Nat) (fuel : Nat) (s : SSD1320)
    (x y c color mode : Nat) (hf : Fits s) (hfuel : 256 < fuel)
    (hsingle : s.fontHeight / 8 ≤ 1 → s.fontWidth ≤ 254)
    (hmulti : 1 < s.fontHeight / 8 →
      s.fontWidth ≠ 0 ∧ (s.fontMapWidth / s.fontWidth) % 65536 ≠ 0) :
    ∃ s1, drawChar fontsPointer fuel s x y c color mode = some s1 := by
  obtain ⟨L, hL⟩ := drawChar_is_plot fontsPointer fuel s x y c color hfuel hsingle hmulti
  obtain ⟨s1, e, _⟩ := getPixel_plot L mode s hf
  exact ⟨s1, by rw [hL s (OnlyMemory.refl s) mode]; exact e⟩

/-- C23 (amended): `write(c)`: for `c = '\n'` it returns 1, sets `cursorX = 0` and
`cursorY = (cursorY + fontHeight) mod 256` and leaves everything else unchanged;
for `c = '\r'` it returns 1 and changes nothing; for any other `c` its result is
that of `drawChar(cursorX, cursorY, c, foreColor, drawMode)` with return value 1
and the cursor column set to `nx = (cursorX + fontWidth + 1) mod 256` if
`nx <= displayWidth - fontWidth`, and otherwise `cursorX = 0` with `cursorY`
advanced by `fontHeight` (mod 256), so that after a drawn byte either
`cursorX = 0` or `cursorX + fontWidth <= displayWidth`; and `write` does return 1
for such a `c` when the display width is a multiple of 8 with
`width * height / 8` within `screenMemory`, the font is single-row of width at
most 254 or multi-row with non-zero divisors, and more than 256 tests of the
column loop are allowed. -/
theorem write_spec (fontsPointer : Nat → Nat → Nat) (fuel : Nat) (s : SSD1320) (c : Nat) :
    (c = 10 → write fontsPointer fuel s c
      = some (1, { s with cursorX := 0, cursorY := (s.cursorY + s.fontHeight) % 256 })) ∧
    (c = 13 → write fontsPointer fuel s c = some (1, s)) ∧
    (c ≠ 10 → c ≠ 13 → write fontsPointer fuel s c
      = (drawChar fontsPointer fuel s s.cursorX s.cursorY c s.foreColor s.drawMode).map
          (fun s1 =>
            (1, if (((s.cursorX + s.fontWidth + 1) % 256 : Nat) : Int)
                    ≤ (s._displayWidth : Int) - s.fontWidth
                then { s1 with cursorX := (s.cursorX + s.fontWidth + 1) % 256 }
                else { s1 with cursorX := 0, cursorY := (s.cursorY + s.fontHeight) % 256 }))) ∧
    (∀ n s1, c ≠ 10 → c ≠ 13 → write fontsPointer fuel s c = some (n, s1) →
      n = 1 ∧ (s1.cursorX = 0 ∨ s1.cursorX + s1.fontWidth ≤ s1._displayWidth)) ∧
    (c ≠ 10 → c ≠ 13 → Fits s → 256 < fuel →
      (s.fontHeight / 8 ≤ 1 → s.fontWidth ≤ 254) →
      (1 < s.fontHeight / 8 →
        s.fontWidth ≠ 0 ∧ (s.fontMapWidth / s.fontWidth) % 65536 ≠ 0) →
      ∃ s1 s2, drawChar fontsPointer fuel s s.cursorX s.cursorY c s.foreColor s.drawMode
          = some s1 ∧
        write fontsPointer fuel s c = some (1, s2) ∧
        s2.screenMemory = s1.screenMemory ∧
        (s2.cursorX = 0 ∨ s2.cursorX + s2.fontWidth ≤ s2._displayWidth)) := by
  have hy : u8 ((s.cursorY : Int) + s.fontHeight) = (s.cursorY + s.fontHeight) % 256 := by
    unfold u8; omega
  have hx : u8 ((s.cursorX : Int) + s.fontWidth + 1) = (s.cursorX + s.fontWidth + 1) % 256 := by
    unfold u8; omega
  have h3 : c ≠ 10 → c ≠ 13 → write fontsPointer fuel s c
      = (drawChar fontsPointer fuel s s.cursorX s.cursorY c s.foreColor s.drawMode).map
          (fun s1 =>
            (1, if (((s.cursorX + s.fontWidth + 1) % 256 : Nat) : Int)
                    ≤ (s._displayWidth : Int) - s.fontWidth
                then { s1 with cursorX := (s.cursorX + s.fontWidth + 1) % 256 }
                else { s1 with cursorX := 0, cursorY := (s.cursorY + s.fontHeight) % 256 })) := by
    intro h10 h13
    unfold write
    rw [if_neg h10, if_neg h13]
    cases hd : drawChar fontsPointer fuel s s.cursorX s.cursorY c s.foreColor s.drawMode with
    | none => rfl
    | some s1 =>
      have hm : s1 = { s with screenMemory := s1.screenMemory } :=
        drawChar_onlyMemory _ _ _ _ _ _ _ _ _ hd
      have e1 : s1.cursorX = s.cursorX := by rw [hm]
      have e2 : s1.cursorY = s.cursorY := by rw [hm]
      have e3 : s1.fontWidth = s.fontWidth := by rw [hm]
      have e4 : s1.fontHeight = s.fontHeight := by rw [hm]
      have e5 : s1._displayWidth = s._displayWidth := by rw [hm]
      simp only [Option.map_some', e1, e2, e3, e4, e5, hx, hy]
      by_cases hc : (((s.cursorX + s.fontWidth + 1) % 256 : Nat) : Int)
          ≤ (s._displayWidth : Int) - s.fontWidth
      · rw [if_neg (by omega), if_pos hc]
      · rw [if_pos (by omega), if_neg hc]
  have h4 : ∀ n s1, c ≠ 10 → c ≠ 13 → write fontsPointer fuel s c = some (n, s1) →
      n = 1 ∧ (s1.cursorX = 0 ∨ s1.cursorX + s1.fontWidth ≤ s1._displayWidth) := by
    intro n s1 h10 h13 hw
    rw [h3 h10 h13] at hw
    cases hd : drawChar fontsPointer fuel s s.cursorX s.cursorY c s.foreColor s.drawMode with
    | none => rw [hd] at hw; exact Option.noConfusion hw
    | some s2 =>
      rw [hd] at hw
      have hm : s2 = { s with screenMemory := s2.screenMemory } :=
        drawChar_onlyMemory _ _ _ _ _ _ _ _ _ hd
      have e3 : s2.fontWidth = s.fontWidth := by rw [hm]
      have e5 : s2._displayWidth = s._displayWidth := by rw [hm]
      simp only [Option.map_some', Option.some.injEq, Prod.mk.injEq] at hw
      obtain ⟨hn, hs⟩ := hw
      refine ⟨hn.symm, ?_⟩
      by_cases hc : (((s.cursorX + s.fontWidth + 1) % 256 : Nat) : Int)
          ≤ (s._displayWidth : Int) - s.fontWidth
      · rw [if_pos hc] at hs
        right
        rw [← hs]
        show (s.cursorX + s.fontWidth + 1) % 256 + s2.fontWidth ≤ s2._displayWidth
        rw [e3, e5]
        omega
      · rw [if_neg hc] at hs
        left
        rw [← hs]
  refine ⟨?_, ?_, h3, h4, ?_⟩
  · intro h
    unfold write
    rw [if_pos h, hy]
  · intro h
    unfold write
    rw [if_neg (by omega), if_pos h]
  · intro h10 h13 hf hfuel hsingle hmulti
    obtain ⟨s1, hd⟩ := drawChar_returns fontsPointer fuel s s.cursorX s.cursorY c s.foreColor
      s.drawMode hf hfuel hsingle hmulti
    have hw := h3 h10 h13
    rw [hd, Option.map_some'] at hw
    refine ⟨s1, _, hd, hw, ?_, (h4 1 _ h10 h13 hw).2⟩
    by_cases hc : (((s.cursorX + s.fontWidth + 1) % 256 : Nat) : Int)
        ≤ (s._displayWidth : Int) - s.fontWidth
    · rw [if_pos hc]
    · rw [if_neg hc]

/-- C23, witness: the byte `'A'` written on a zeroed 160 × 32 display with the
5 × 7 font header: `write` returns 1. -/
theorem write_spec_witness :
    ∃ s1 s2, drawChar (fun _ _ => 0x7F) 300 (zeroed 160 32) (zeroed 160 32).cursorX
          (zeroed 160 32).cursorY 65 (zeroed 160 32).foreColor (zeroed 160 32).drawMode
          = some s1 ∧
      write (fun _ _ => 0x7F) 300 (zeroed 160 32) 65 = some (1, s2) ∧
      s2.screenMemory = s1.screenMemory ∧
      (s2.cursorX = 0 ∨ s2.cursorX + s2.fontWidth ≤ s2._displayWidth) :=
  (write_spec (fun _ _ => 0x7F) 300 (zeroed 160 32) 65).2.2.2.2 (by decide) (by decide)
    fits_zeroed (by decide) (fun _ => by decide) (fun h => absurd h (by decide))

/-- C23 as stated fails: `write(c)` does not return 1 for every byte. With a font
of width 255 the column loop of `drawChar` never ends, so `write('A')` never
returns; and on a 256 × 64 display with the cursor at row 20 the first pixel of
the character addresses byte `640`, outside the 640 bytes of `screenMemory`, so
`write('A')` has no defined result. -/
theorem write_no_result :
    (∀ (fontsPointer : Nat → Nat → Nat) (fuel : Nat),
      write fontsPointer fuel { zeroed 160 32 with fontWidth := 255 } 65 = none) ∧
    (∀ (fontsPointer : Nat → Nat → Nat) (fuel : Nat),
      write fontsPointer fuel { zeroed 256 64 with cursorY := 20 } 65 = none) := by
  constructor
  · intro fontsPointer fuel
    have hd : drawChar fontsPointer fuel { zeroed 160 32 with fontWidth := 255 }
        (SSD1320.cursorX { zeroed 160 32 with fontWidth := 255 })
        (SSD1320.cursorY { zeroed 160 32 with fontWidth := 255 }) 65
        (SSD1320.foreColor { zeroed 160 32 with fontWidth := 255 })
        (SSD1320.drawMode { zeroed 160 32 with fontWidth := 255 }) = none :=
      drawChar_diverges fontsPointer fuel _ _ _ 65 _ _ (by decide) (by decide) (by decide) rfl
    unfold write
    rw [if_neg (by decide), if_neg (by decide), hd]
  · intro fontsPointer fuel
    have hd : drawChar fontsPointer fuel { zeroed 256 64 with cursorY := 20 }
        (SSD1320.cursorX { zeroed 256 64 with cursorY := 20 })
        (SSD1320.cursorY { zeroed 256 64 with cursorY := 20 }) 65
        (SSD1320.foreColor { zeroed 256 64 with cursorY := 20 })
        (SSD1320.drawMode { zeroed 256 64 with cursorY := 20 }) = none := by
      apply drawChar_beyond
      · decide
      · decide
      · decide
      · decide
      · decide
      · decide
      · decide
      · decide
      · decide
      · rw [show (SSD1320.screenMemory { zeroed 256 64 with cursorY := 20 }).length = 640
          from List.length_replicate 640 0]
        decide
    unfold write
    rw [if_neg (by decide), if_neg (by decide), hd]

end SSD1320
